import Mathlib

/-!
# Gwalia Canteen: order payload codec, stock ledger, token sequencer, order store

A shallow embedding of the core of `src/js/student-app.js`, `src/js/admin-pos.js`
and `src/js/kitchen.js`.

Modelling conventions.
* A JavaScript string is a `Str`, a list of characters (one `Char` per code unit; the
  texts handled here stay in the Basic Multilingual Plane).
* A JavaScript Number that holds an integer is a `Nat` or an `Int`. Every integer up to
  `2^53` is a Number; a sum of prices or amounts, the result of `parseInt` and the text of
  a number in a template literal follow Number semantics above that (`toNumber` rounds
  to the nearest double, `numberToString` switches to the shortest digits and, from
  `10^21` on, to exponent notation). Counts, stock and token arithmetic stay below
  `2^53`, where they are exact. Fractions, `NaN` and `Infinity` (sums from `2^1024` on)
  are outside the model.
* A Firestore collection is a list of documents and the id of a document is its position
  in that list; `addDoc` appends, `updateDoc` rewrites the fields it names.
* Store calls succeed; a `runTransaction` body is one atomic step.
* The wall clock is a parameter (`dateStr`, `now`).
-/

namespace Canteen

/-- A JavaScript string. -/
abbrev Str := List Char

/-! ## String primitives used by the source -/

/-- The characters `String.prototype.trim` strips: WhiteSpace and LineTerminator. -/
def isWhiteSpace (c : Char) : Bool :=
  let n := c.toNat
  n == 9 || n == 10 || n == 11 || n == 12 || n == 13 || n == 32 || n == 160 || n == 5760 ||
  (8192 ≤ n && n ≤ 8202) || n == 8232 || n == 8233 || n == 8239 || n == 8287 ||
  n == 12288 || n == 65279

/-- The characters the regular expression atom `.` does not match. -/
def isLineTerminator (c : Char) : Bool :=
  let n := c.toNat
  n == 10 || n == 13 || n == 8232 || n == 8233

/-- The regular expression class `\d` (no unicode flag): `0` to `9`. -/
def isDigit (c : Char) : Bool :=
  48 ≤ c.toNat && c.toNat ≤ 57

/-- The method `s.trim()`. -/
def trim (s : Str) : Str :=
  ((s.dropWhile isWhiteSpace).reverse.dropWhile isWhiteSpace).reverse

/-- The call `s.split('\n')`: never empty, `"".split('\n')` is `[""]`. -/
def splitLines : Str → List Str
  | [] => [[]]
  | c :: cs =>
    if c = '\n' then [] :: splitLines cs
    else
      match splitLines cs with
      | [] => [[c]]
      | l :: ls => (c :: l) :: ls

/-- The method `s.includes(t)`. -/
def includes : Str → Str → Bool
  | [], t => t.isEmpty
  | c :: cs, t => t.isPrefixOf (c :: cs) || includes cs t

/-- The call `s.replace(pat, rep)` with a string pattern: the first occurrence only. -/
def replaceFirst (pat rep : Str) : Str → Str
  | [] => if pat.isEmpty then rep else []
  | c :: cs =>
    if pat.isPrefixOf (c :: cs) then rep ++ (c :: cs).drop pat.length
    else c :: replaceFirst pat rep cs

/-- The Number value of a non-negative integer: the nearest IEEE 754 double, a tie going
to the even significand. Every integer up to `2^53` is a Number; above, 53 significant
bits are kept. -/
def toNumber (n : Nat) : Nat :=
  if n ≤ 9007199254740992 then n
  else
    let e := (Nat.toDigits 2 n).length - 53
    let q := n / 2 ^ e
    let r := n % 2 ^ e
    if 2 ^ e < 2 * r ∨ (2 * r = 2 ^ e ∧ q % 2 = 1) then (q + 1) * 2 ^ e else q * 2 ^ e

/-- The mathematical integer a run of decimal digits denotes. -/
def digitsValue (ds : Str) : Nat :=
  ds.foldl (fun acc c => 10 * acc + (c.toNat - 48)) 0

/-- The value of `parseInt(ds)` on a run of decimal digits: the Number value of the
integer the digits denote. -/
def parseIntDigits (ds : Str) : Nat :=
  toNumber (digitsValue ds)

/-- The decimal `s * 10^z` with the fewest significant digits `s` whose Number value is
`d`, the search starting at `10^z` and going down: of two candidates the one nearer to
`d`, and at equal distance the one with even `s` (Number::toString, step 5). -/
def shortestDecimal (d : Nat) : Nat → Nat
  | 0 => d
  | z + 1 =>
    let p := 10 ^ (z + 1)
    let lo := d / p * p
    let hi := lo + p
    if lo ≠ 0 ∧ toNumber lo = d then
      if toNumber hi = d ∧ (hi - d < d - lo ∨ (hi - d = d - lo ∧ (lo / p) % 2 = 1)) then hi
      else lo
    else if toNumber hi = d then hi
    else shortestDecimal d z

/-- String conversion of a Number that holds a non-negative integer, as in a template
literal (Number::toString): all digits up to `2^53`; above, the shortest digits that
identify the Number, followed by zeros below `10^21` and in exponent notation (`1e+21`,
`1.5e+21`) from there on. -/
def numberToString (n : Nat) : Str :=
  if n ≤ 9007199254740992 then Nat.toDigits 10 n
  else
    let ds := Nat.toDigits 10 (shortestDecimal n (Nat.toDigits 10 n).length)
    if ds.length ≤ 21 then ds
    else
      let e := Nat.toDigits 10 (ds.length - 1)
      match (ds.reverse.dropWhile (fun c => c = '0')).reverse with
      | [] => ds
      | [c] => c :: 'e' :: '+' :: e
      | c :: rest => c :: '.' :: (rest ++ 'e' :: '+' :: e)

/-- The text `TOTAL:`. -/
def totalMarker : Str := ['T', 'O', 'T', 'A', 'L', ':']

/-- The text `---`. -/
def dashes3 : Str := ['-', '-', '-']

/-- The text `----`. -/
def dashes4 : Str := ['-', '-', '-', '-']

/-- The text `REF: `. -/
def refLabel : Str := ['R', 'E', 'F', ':', ' ']

/-- The divider line of sixteen dashes. -/
def divider : Str := List.replicate 16 '-'

/-- First match of the regular expression `/₹(\d+)/`: its capture group. -/
def matchRupee : Str → Option Str
  | [] => none
  | c :: cs =>
    if c = '₹' ∧ cs.takeWhile isDigit ≠ [] then some (cs.takeWhile isDigit)
    else matchRupee cs

/-- Match of the regular expression `/(.+) x(\d+)$/`: its two capture groups.
The digits are the maximal run of digits that ends the text (the character before
`\d+` must be `x`), they follow ` x`, and the greedy `.+` is matched from the leftmost
start, the place after the last line terminator before ` x`; it must not be empty. -/
def matchQty (s : Str) : Option (Str × Str) :=
  let r := s.reverse
  let ds := r.takeWhile isDigit
  match r.dropWhile isDigit with
  | 'x' :: ' ' :: pre =>
    let g := pre.takeWhile (fun c => !isLineTerminator c)
    if ds ≠ [] ∧ g ≠ [] then some (g.reverse, ds.reverse) else none
  | _ => none

/-! ## Student app: cart and checkout (`student-app.js`) -/

/-- A menu item as the student app holds it in `state.menuItems` and `state.cart`. -/
structure CartItem where
  id : Nat
  name : Str
  price : Nat
  stock : Option Int
  isAvailable : Option Bool
  deriving DecidableEq, Repr

/-- Property names every object inherits from `Object.prototype`. Each has a truthy
value, so `itemCounts[name]` is truthy for them before any own entry exists. -/
def objectPrototypeKeys : List Str :=
  ["constructor".toList, "__proto__".toList, "hasOwnProperty".toList,
   "isPrototypeOf".toList, "propertyIsEnumerable".toList, "toLocaleString".toList,
   "toString".toList, "valueOf".toList, "__defineGetter__".toList,
   "__defineSetter__".toList, "__lookupGetter__".toList, "__lookupSetter__".toList]

/-- One own entry `name: { count, price }` of the object `itemCounts`. -/
structure CountEntry where
  name : Str
  count : Nat
  price : Nat
  deriving DecidableEq, Repr

/-- The two updates `itemCounts[name].count++` and `.price += price` on an own entry,
creating the entry `{ count: 0, price: 0 }` first when there is none. -/
def bumpEntry (name : Str) (price : Nat) : List CountEntry → List CountEntry
  | [] => [⟨name, 1, price⟩]
  | e :: rest =>
    if e.name = name then ⟨e.name, e.count + 1, e.price + price⟩ :: rest
    else e :: bumpEntry name price rest

/-- The loop `state.cart.forEach(item => ...)` over `itemCounts`: the own entries in
creation order. For a name inherited from `Object.prototype` the test
`!itemCounts[item.name]` is false and the updates land on the inherited value, so no
own entry is ever created. -/
def itemCounts (cart : List CartItem) : List CountEntry :=
  cart.foldl
    (fun acc item =>
      if item.name ∈ objectPrototypeKeys then acc else bumpEntry item.name item.price acc)
    []

/-- The array index a property key denotes, if any: a canonical decimal numeral of at
most `2^32 - 2`. -/
def arrayIndex? (k : Str) : Option Nat :=
  if k ≠ [] ∧ k.all isDigit ∧ (k.head? ≠ some '0' ∨ k.length = 1) ∧
      parseIntDigits k ≤ 4294967294 then
    some (parseIntDigits k)
  else none

/-- The call `Object.keys(itemCounts)`: array-index keys in ascending numeric order,
then the other keys in creation order. -/
def objectKeys (own : List CountEntry) : List CountEntry :=
  (own.filter (fun e => (arrayIndex? e.name).isSome)).insertionSort
      (fun a b => (arrayIndex? a.name).getD 0 ≤ (arrayIndex? b.name).getD 0)
    ++ own.filter (fun e => !(arrayIndex? e.name).isSome)

/-- The line shown for one entry: `name xN` when `N > 1`, else `name`. -/
def displayLine (e : CountEntry) : Str :=
  if e.count > 1 then e.name ++ [' ', 'x'] ++ numberToString e.count else e.name

/-- The sum `state.cart.reduce((sum, item) => sum + item.price, 0)`: every addition
yields the Number nearest to the exact sum. -/
def cartTotal (cart : List CartItem) : Nat :=
  cart.foldl (fun sum item => toNumber (sum + item.price)) 0

/-- The text `qrData` that `handleCheckout` builds. -/
def qrData (orderId : Str) (cart : List CartItem) : Str :=
  refLabel ++ orderId ++ ['\n'] ++ divider ++ ['\n']
    ++ ((objectKeys (itemCounts cart)).map (fun e => displayLine e ++ ['\n'])).flatten
    ++ divider ++ ['\n'] ++ totalMarker ++ [' ', '₹'] ++ numberToString (cartTotal cart)
    ++ ['\n'] ++ "[VERIFIED]".toList

/-! ## Admin POS: decoding a scan (`admin-pos.js`) -/

/-- An exception raised by the JavaScript code. -/
inductive JsError where
  | typeError : JsError
  | error (message : Str) : JsError
  deriving DecidableEq, Repr

deriving instance DecidableEq for Except

/-- The record stored in `state.currentScan`. -/
structure Scan where
  orderRef : Str
  amount : Nat
  items : List Str
  rawText : Str
  deriving DecidableEq, Repr

/-- The loop `for (const line of lines)` of `onScanSuccess`, with the flag
`isReadingItems` as first argument: the items pushed from here on. -/
def scanItems : Bool → List Str → List Str
  | _, [] => []
  | isReadingItems, line :: rest =>
    if includes line totalMarker then []
    else
      (if isReadingItems && trim line != [] && !includes line dashes3 then [trim line]
        else [])
      ++ scanItems (isReadingItems || includes line dashes4) rest

/-- The amount of `onScanSuccess`: `parseInt(totalLine.match(/₹(\d+)/)[1])` on the
first line that includes `TOTAL:`, `0` when there is no such line; indexing the `null`
of a failed match raises a TypeError. -/
def scanAmount (lines : List Str) : Except JsError Nat :=
  match lines.find? (fun line => includes line totalMarker) with
  | none => .ok 0
  | some totalLine =>
    match matchRupee totalLine with
    | none => .error .typeError
    | some ds => .ok (parseIntDigits ds)

/-- The function `onScanSuccess(decodedText)` up to the assignment of
`state.currentScan`: the scan it stores, or the exception it raises. -/
def onScanSuccess (decodedText : Str) : Except JsError Scan :=
  let lines := splitLines decodedText
  let orderRef := trim (replaceFirst refLabel [] (lines.headD []))
  match scanAmount lines with
  | .error e => .error e
  | .ok amount => .ok ⟨orderRef, amount, scanItems false lines, decodedText⟩

/-- An entry `{ name, qty }` of `itemsForStock`. -/
structure OrderItem where
  name : Str
  qty : Nat
  deriving DecidableEq, Repr

/-- The body of `state.currentScan.items.forEach(itemStr => ...)` in `acceptOrder`. -/
def parseItemStr (itemStr : Str) : OrderItem :=
  match matchQty itemStr with
  | some (g1, g2) => ⟨trim g1, parseIntDigits g2⟩
  | none => ⟨trim itemStr, 1⟩

/-- The list `itemsForStock` of `acceptOrder`. -/
def itemsForStock (items : List Str) : List OrderItem :=
  items.map parseItemStr

/-- The quantity an item list gives a name: the sum of `qty` over its entries. -/
def qtyOf (name : Str) (items : List OrderItem) : Nat :=
  ((items.filter (fun it => it.name = name)).map (fun it => it.qty)).sum

/-! ## The shared store -/

/-- A document of the collection `menu_items`; `stock` and `isAvailable` may be absent
(`undefined`). Its document id is its position in the collection. -/
structure MenuDoc where
  name : Str
  stock : Option Int
  isAvailable : Option Bool
  deriving DecidableEq, Repr

/-- The document `counters/daily_token`. -/
structure Counter where
  value : Int
  date : Str
  deriving DecidableEq, Repr

/-- The values the code writes to the field `status` of an order. -/
inductive Status where
  | pending | paid | preparing | ready
  deriving DecidableEq, Repr

/-- A document of the collection `orders` (the field `user_id`, which nothing reads,
is left out). Its document id is its position in the collection. -/
structure OrderDoc where
  order_id : Str
  amount : Option Nat
  raw_text : Option Str
  items_list : Option (List Str)
  status : Status
  token : Option Int
  timestamp : Option Nat
  started_at : Option Nat
  completed_at : Option Nat
  deriving DecidableEq, Repr

/-- The Firestore database. -/
structure Store where
  menu_items : List MenuDoc
  counter : Option Counter
  orders : List OrderDoc
  deriving DecidableEq, Repr

/-! ## Student app: checkout -/

/-- The part of the student page state that checkout touches. -/
structure StudentState where
  menuItems : List CartItem
  cart : List CartItem
  isStoreOpen : Bool
  deriving DecidableEq, Repr

/-- The function `handleCheckout()`; `orderId` stands for the id it draws from the clock
and `Math.random`, `now` for the server timestamp. An empty cart returns early. -/
def handleCheckout (orderId : Str) (now : Nat) (st : StudentState) (db : Store) :
    StudentState × Store :=
  if st.cart.length = 0 then (st, db)
  else
    ({ st with cart := [] },
     { db with orders := db.orders ++
        [{ order_id := orderId, amount := some (cartTotal st.cart),
           raw_text := some (qrData orderId st.cart),
           items_list := some (st.cart.map (fun item => item.name)),
           status := .pending, token := none, timestamp := some now,
           started_at := none, completed_at := none }] })

/-! ## Admin POS: token sequencer and order acceptance -/

/-- The transaction body of `generateTokenNumber()` for today's date string `dateStr`:
the token returned and the counter document written. -/
def generateTokenNumber (dateStr : Str) (counterDoc : Option Counter) : Int × Counter :=
  let nextToken : Int :=
    match counterDoc with
    | some data => if data.date = dateStr then data.value + 1 else 101
    | none => 101
  (nextToken, { value := nextToken, date := dateStr })

/-- The tokens returned by successive `generateTokenNumber` calls, one per date string
of the list, each call a whole transaction, and the counter left behind. -/
def runTokens : Option Counter → List Str → List Int × Option Counter
  | c, [] => ([], c)
  | c, d :: ds =>
    let r := generateTokenNumber d c
    let rest := runTokens (some r.2) ds
    (r.1 :: rest.1, rest.2)

/-- The lookup `menuMap.get(name)` in the map built from the snapshot `docs` (pairs of
document id and data): a later document of the same name replaces an earlier one. -/
def menuMapGet : List (Nat × MenuDoc) → Str → Option (Nat × MenuDoc)
  | [], _ => none
  | d :: rest, name =>
    match menuMapGet rest name with
    | some r => some r
    | none => if d.2.name = name then some d else none

/-- String conversion of an integer, as in a template literal. -/
def intToString (i : Int) : Str :=
  if i < 0 then '-' :: numberToString i.natAbs else numberToString i.toNat

/-- The message of the error thrown by the validation loop. -/
def insufficientStockMessage (name : Str) (currentStock : Int) : Str :=
  "Insufficient stock for ".toList ++ name ++ ". Available: ".toList
    ++ intToString currentStock

/-- The body of the loop `// Validate stock` of `acceptOrder` for one `orderItem`: an
item missing from the map passes, a missing `stock` counts as 9999. -/
def checkItem (menuSnapshot : List MenuDoc) (orderItem : OrderItem) : Except JsError Unit :=
  match menuMapGet menuSnapshot.enum orderItem.name with
  | some (_, menuItem) =>
    let currentStock : Int := menuItem.stock.getD 9999
    if currentStock < orderItem.qty then
      .error (.error (insufficientStockMessage orderItem.name currentStock))
    else .ok ()
  | none => .ok ()

/-- The loop `// Validate stock` of `acceptOrder` over the snapshot `menuSnapshot`: the
first failing item throws. -/
def validateStock (menuSnapshot : List MenuDoc) : List OrderItem → Except JsError Unit
  | [] => .ok ()
  | orderItem :: rest =>
    match checkItem menuSnapshot orderItem with
    | .error e => .error e
    | .ok _ => validateStock menuSnapshot rest

/-- The call `updateDoc(doc(db, 'menu_items', docId), { stock, isAvailable })`. -/
def updateStock (docId : Nat) (newStock : Int) (live : List MenuDoc) : List MenuDoc :=
  live.modify (fun d => { d with stock := some newStock,
                                 isAvailable := some (decide (newStock > 0)) }) docId

/-- The loop `// Deduct stock` of `acceptOrder`: every `newStock` is computed from the
snapshot read before the loop, every update is written to the live collection. A
snapshot item without `stock` fails the test `menuItem.stock < 9000`. -/
def deductStock (menuSnapshot : List MenuDoc) : List OrderItem → List MenuDoc → List MenuDoc
  | [], live => live
  | orderItem :: rest, live =>
    match menuMapGet menuSnapshot.enum orderItem.name with
    | some (docId, menuItem) =>
      match menuItem.stock with
      | some stock =>
        if stock < 9000 then
          deductStock menuSnapshot rest (updateStock docId (stock - orderItem.qty) live)
        else deductStock menuSnapshot rest live
      | none => deductStock menuSnapshot rest live
    | none => deductStock menuSnapshot rest live

/-- The list `analyticsList` of `acceptOrder`: each name once per unit. -/
def analyticsList (items : List OrderItem) : List Str :=
  (items.map (fun item => List.replicate item.qty item.name)).flatten

/-- The admin page state that order processing touches, with the database. -/
structure AdminWorld where
  currentScan : Option Scan
  db : Store
  deriving DecidableEq, Repr

/-- How a call of `acceptOrder` ends. -/
inductive AcceptResult where
  | noScan : AcceptResult
  | accepted (tokenNumber : Int) : AcceptResult
  | failed (error : JsError) : AcceptResult
  deriving DecidableEq, Repr

/-- The scanner callback `onScanSuccess(decodedText)` on the page state: a scan that
decodes replaces `state.currentScan`, an exception leaves the state as it was. -/
def scan (decodedText : Str) (w : AdminWorld) : AdminWorld :=
  match onScanSuccess decodedText with
  | .ok s => { w with currentScan := some s }
  | .error _ => w

/-- The handler `acceptOrder()`; `dateStr` is today's date string and `now` the server
timestamp. The error caught by `catch` is returned, the state is what the completed
writes left. -/
def acceptOrder (dateStr : Str) (now : Nat) (w : AdminWorld) : AdminWorld × AcceptResult :=
  match w.currentScan with
  | none => (w, .noScan)
  | some currentScan =>
    let items := itemsForStock currentScan.items
    let menuSnapshot := w.db.menu_items
    match validateStock menuSnapshot items with
    | .error e => (w, .failed e)
    | .ok _ =>
      let menu := deductStock menuSnapshot items w.db.menu_items
      let tok := generateTokenNumber dateStr w.db.counter
      let order : OrderDoc :=
        { order_id := currentScan.orderRef, amount := some currentScan.amount,
          raw_text := some currentScan.rawText, items_list := some (analyticsList items),
          status := .paid, token := some tok.1, timestamp := some now,
          started_at := none, completed_at := none }
      ({ currentScan := none,
         db := { menu_items := menu, counter := some tok.2,
                 orders := w.db.orders ++ [order] } },
       .accepted tok.1)

/-- What one round of the loop `// Deduct stock` writes for `orderItem`, if anything:
the document id and the `newStock` computed from the snapshot. -/
def deductTarget (menuSnapshot : List MenuDoc) (orderItem : OrderItem) : Option (Nat × Int) :=
  match menuMapGet menuSnapshot.enum orderItem.name with
  | some (docId, menuItem) =>
    match menuItem.stock with
    | some stock => if stock < 9000 then some (docId, stock - orderItem.qty) else none
    | none => none
  | none => none

/-- The fields `{ stock: newStock, isAvailable: newStock > 0 }` written over a document. -/
def withStock (newStock : Int) (d : MenuDoc) : MenuDoc :=
  { d with stock := some newStock, isAvailable := some (decide (newStock > 0)) }

/-! ## Kitchen display: order actions (`kitchen.js`) -/

/-- The call `updateDoc(doc(db, 'orders', orderId), fields)`: it fails when there is no
such document, and the handlers then only show an alert. -/
def updateOrder (orderId : Nat) (f : OrderDoc → OrderDoc) (orders : List OrderDoc) :
    Option (List OrderDoc) :=
  if orderId < orders.length then some (orders.modify f orderId) else none

/-- The handler `startOrder(orderId)` on the database. -/
def startOrder (now : Nat) (orderId : Nat) (db : Store) : Store :=
  match updateOrder orderId
      (fun o => { o with status := .preparing, started_at := some now }) db.orders with
  | some orders => { db with orders := orders }
  | none => db

/-- The handler `markReady(orderId)` on the kitchen map `state.orders` (ids with their
documents) and the database. -/
def markReady (now : Nat) (orderId : Nat) (kitchen : List (Nat × OrderDoc)) (db : Store) :
    List (Nat × OrderDoc) × Store :=
  match updateOrder orderId
      (fun o => { o with status := .ready, completed_at := some now }) db.orders with
  | some orders => (kitchen.filter (fun p => p.1 ≠ orderId), { db with orders := orders })
  | none => (kitchen, db)

/-- The two footers of `createOrderCard`: which handler the card of an order offers. -/
inductive CardAction where
  | startOrder | markReady
  deriving DecidableEq, Repr

/-- The footer of `createOrderCard(order)`. -/
def cardAction (order : OrderDoc) : CardAction :=
  if order.status = .paid then .startOrder else .markReady

/-! ## Sequences of admin actions -/

/-- What the operator can do on the admin page. -/
inductive AdminEvent where
  | scan (decodedText : Str) : AdminEvent
  | accept (dateStr : Str) (now : Nat) : AdminEvent
  | resetScanner : AdminEvent
  deriving DecidableEq, Repr

/-- One admin action, run to completion. -/
def adminStep (w : AdminWorld) : AdminEvent → AdminWorld
  | .scan decodedText => scan decodedText w
  | .accept dateStr now => (acceptOrder dateStr now w).1
  | .resetScanner => { w with currentScan := none }

/-- A sequence of admin actions, each run to completion before the next starts. -/
def runAdmin (events : List AdminEvent) (w : AdminWorld) : AdminWorld :=
  events.foldl adminStep w

/-- Every tracked item (stock below 9000) of a menu has a stock of at least zero. -/
def StockNonneg (menu : List MenuDoc) : Prop :=
  ∀ m ∈ menu, ∀ stock : Int, m.stock = some stock → stock < 9000 → 0 ≤ stock

/-- A name the payload codec carries unchanged: not empty, free of line terminators,
without white space at either end, without `---` and `TOTAL:`, not ending in ` x` and
digits, and not a property name inherited from `Object.prototype`. -/
def WellFormedName (name : Str) : Prop :=
  name ≠ [] ∧
  (∀ c ∈ name, isLineTerminator c = false) ∧
  (∀ c, name.head? = some c → isWhiteSpace c = false) ∧
  (∀ c, name.getLast? = some c → isWhiteSpace c = false) ∧
  ¬ dashes3 <:+: name ∧
  ¬ totalMarker <:+: name ∧
  (¬ ∃ pre ds, name = pre ++ ' ' :: 'x' :: ds ∧ ds ≠ [] ∧ ∀ c ∈ ds, isDigit c = true) ∧
  name ∉ objectPrototypeKeys

/-! ## Concrete data for the scenarios -/

/-- The payload of the end-to-end scenario. -/
def teaPayload : Str :=
  "REF: 120501-7\n----------------\nTea x2\nSamosa\n----------------\nTOTAL: ₹35\n[VERIFIED]".toList

/-- A payload whose item section names Tea on two lines. -/
def twoTeaLinesPayload : Str :=
  "REF: 120501-7\n----------------\nTea\nTea\n----------------\nTOTAL: ₹20\n[VERIFIED]".toList

/-- A payload that asks for 9001 units of Tea. -/
def bulkTeaPayload : Str :=
  "REF: 120501-7\n----------------\nTea x9001\n----------------\nTOTAL: ₹90010\n[VERIFIED]".toList

/-- The scan record that decoding `teaPayload` stores. -/
def teaScan : Scan :=
  ⟨"120501-7".toList, 35, ["Tea x2".toList, "Samosa".toList], teaPayload⟩

/-- A payload whose total line carries no `₹` followed by digits. -/
def malformedTotalPayload : Str :=
  "REF: 120501-7\n----------------\nTea x2\n----------------\nTOTAL: Rs35\n[VERIFIED]".toList

/-- The cart of the end-to-end scenario. -/
def teaCart : List CartItem :=
  [⟨1, "Tea".toList, 10, some 5, some true⟩, ⟨1, "Tea".toList, 10, some 5, some true⟩,
   ⟨2, "Samosa".toList, 15, none, none⟩]

/-- A cart with one unit of an item called `Dosa x2`. -/
def dosaCart : List CartItem := [⟨3, "Dosa x2".toList, 40, none, none⟩]

/-- A date string. -/
def day1 : Str := "2024-01-01".toList

/-- The menu document of Tea with a given stock. -/
def teaDoc (stock : Int) : MenuDoc := ⟨"Tea".toList, some stock, some true⟩

/-- An admin page with no scan, over a store whose menu is Tea with the given stock,
with no counter document and no orders. -/
def teaWorld (stock : Int) : AdminWorld := ⟨none, ⟨[teaDoc stock], none, []⟩⟩

/-- A pending order as checkout writes it. -/
def pendingOrder : OrderDoc :=
  { order_id := "120501-7".toList, amount := some 35, raw_text := some teaPayload,
    items_list := some ["Tea".toList, "Tea".toList, "Samosa".toList],
    status := .pending, token := none, timestamp := some 0,
    started_at := none, completed_at := none }

/-! ## Student app: cart (`student-app.js`) -/

/-- The function `getItemQuantity(itemId)`. -/
def getItemQuantity (cart : List CartItem) (itemId : Nat) : Nat :=
  (cart.filter (fun i => i.id = itemId)).length

/-- The handler `addToCart(itemId)` on the page state: an unknown id returns, a cart
quantity at or above the stock (9999 when absent) shows a toast and returns, otherwise
the item is pushed. -/
def addToCart (itemId : Nat) (st : StudentState) : StudentState :=
  match st.menuItems.find? (fun i => i.id = itemId) with
  | none => st
  | some item =>
    let currentQty := getItemQuantity st.cart itemId
    let stock : Int := item.stock.getD 9999
    if (currentQty : Int) ≥ stock then st else { st with cart := st.cart ++ [item] }

/-- The controls in `item-actions` of a menu card: the single ADD button, which may carry
the attribute `disabled`, or the quantity control whose `−` and `+` buttons are never
disabled. -/
inductive CardControls where
  | addButton (disabled : Bool) : CardControls
  | qtyControl : CardControls
  deriving DecidableEq, Repr

/-- The `item-actions` part of `createMenuCard(item)`. -/
def createMenuCard (item : CartItem) (st : StudentState) : CardControls :=
  let stock : Int := item.stock.getD 9999
  let isSoldOut := item.isAvailable = some false || stock ≤ 0
  let cartCount := getItemQuantity st.cart item.id
  if cartCount = 0 then .addButton (!st.isStoreOpen || isSoldOut) else .qtyControl

/-! ## The whole system: sequences of operations on the store -/

/-- An operation of one of the three front ends on the shared store. -/
inductive SystemEvent where
  | checkout (orderId : Str) (now : Nat) (st : StudentState) : SystemEvent
  | scan (decodedText : Str) : SystemEvent
  | accept (dateStr : Str) (now : Nat) : SystemEvent
  | startOrder (now orderId : Nat) : SystemEvent
  | markReady (now orderId : Nat) : SystemEvent
  deriving DecidableEq, Repr

/-- One operation, run to completion. The kitchen map does not influence what
`markReady` writes to the store. -/
def systemStep (w : AdminWorld) : SystemEvent → AdminWorld
  | .checkout orderId now st => { w with db := (handleCheckout orderId now st w.db).2 }
  | .scan decodedText => scan decodedText w
  | .accept dateStr now => (acceptOrder dateStr now w).1
  | .startOrder now orderId => { w with db := startOrder now orderId w.db }
  | .markReady now orderId => { w with db := (markReady now orderId [] w.db).2 }

/-- A sequence of operations, each run to completion before the next starts. -/
def runSystem (events : List SystemEvent) (w : AdminWorld) : AdminWorld :=
  events.foldl systemStep w

/-- The kitchen handler of the event, if it is one, is applied to an order that is not
pending (or to no order at all). -/
def kitchenEventOnQueued (w : AdminWorld) : SystemEvent → Bool
  | .startOrder _ orderId =>
    (w.db.orders[orderId]?).all (fun o => decide (o.status ≠ .pending))
  | .markReady _ orderId =>
    (w.db.orders[orderId]?).all (fun o => decide (o.status ≠ .pending))
  | _ => true

/-- Along the run, every kitchen handler is applied to an order that is not pending. -/
def KitchenOnQueued : List SystemEvent → AdminWorld → Bool
  | [], _ => true
  | e :: rest, w => kitchenEventOnQueued w e && KitchenOnQueued rest (systemStep w e)

/-- The handler `acceptOrder()` in the case that `generateTokenNumber()` rejects with
`tokenError` (the transaction raises): the deduction loop has completed, control jumps
to `catch`, and neither `addDoc` nor the reset of `state.currentScan` is reached. -/
def acceptOrderTokenFailure (tokenError : JsError) (w : AdminWorld) :
    AdminWorld × AcceptResult :=
  match w.currentScan with
  | none => (w, .noScan)
  | some currentScan =>
    let items := itemsForStock currentScan.items
    let menuSnapshot := w.db.menu_items
    match validateStock menuSnapshot items with
    | .error e => (w, .failed e)
    | .ok _ =>
      ({ w with db := { w.db with menu_items := deductStock menuSnapshot items w.db.menu_items } },
       .failed tokenError)

/-! ## The payload format and the item lines as the specification words them -/

/-- The distinct names of a list in order of first appearance. -/
def distinctNames : List Str → List Str
  | [] => []
  | n :: rest => n :: (distinctNames rest).filter (fun m => m ≠ n)

/-- Lines joined by newlines, with no trailing newline. -/
def joinLines : List Str → Str
  | [] => []
  | [l] => l
  | l :: r :: rest => l ++ '\n' :: joinLines (r :: rest)

/-- The decimal numeral of a natural number, all digits written out. -/
def decimalNumeral (n : Nat) : Str := Nat.toDigits 10 n

/-- The payload as the specification describes it: `REF: <orderId>`, sixteen dashes, one
line per distinct item name in order of first appearance (`<name> x<N>` for `N > 1`
units, else the bare name), sixteen dashes, `TOTAL: ₹<sum>`, `[VERIFIED]`; `N` and the
sum are written as decimal numerals. -/
def payloadFormatSpec (orderId : Str) (cart : List CartItem) : Str :=
  joinLines
    ([refLabel ++ orderId, List.replicate 16 '-']
      ++ (distinctNames (cart.map (fun item => item.name))).map
          (fun n =>
            if (cart.filter (fun item => item.name = n)).length > 1 then
              n ++ [' ', 'x'] ++ decimalNumeral (cart.filter (fun item => item.name = n)).length
            else n)
      ++ [List.replicate 16 '-',
          "TOTAL: ₹".toList ++ decimalNumeral (cart.map (fun item => item.price)).sum,
          "[VERIFIED]".toList])

/-- A line made up of dashes. -/
def isDashLine (l : Str) : Bool :=
  l != [] && l.all (fun c => c == '-')

/-- The item lines as C15 words them: the lines strictly after the first divider line
and before the first line containing `TOTAL:`, without blank lines and divider lines
(lines made up of dashes), each trimmed. -/
def itemLinesByDashLines (lines : List Str) : List Str :=
  ((((lines.takeWhile (fun l => !includes l totalMarker)).dropWhile
      (fun l => !isDashLine l)).drop 1).filter
      (fun l => trim l != [] && !isDashLine l)).map trim

/-- The item lines by substring markers: the lines strictly after the first line that
contains `----` and before the first line containing `TOTAL:`, without the lines that
are blank after trimming and the lines that contain `---`, each trimmed. -/
def itemLinesByMarkers (lines : List Str) : List Str :=
  ((((lines.takeWhile (fun l => !includes l totalMarker)).dropWhile
      (fun l => !includes l dashes4)).drop 1).filter
      (fun l => trim l != [] && !includes l dashes3)).map trim

/-! ## Kitchen display: queue and cards (`kitchen.js`) -/

/-- The comparator of `renderOrders`: paid first, then by timestamp (0 when absent). -/
def compareOrders (a b : OrderDoc) : Int :=
  if a.status = .paid ∧ b.status ≠ .paid then -1
  else if a.status ≠ .paid ∧ b.status = .paid then 1
  else (a.timestamp.getD 0 : Int) - (b.timestamp.getD 0 : Int)

/-- The array `sortedOrders` of `renderOrders`, the order in which the cards are shown:
the values of the map `state.orders` sorted with the comparator. `Array.prototype.sort`
is stable, and is modelled by insertion sort. -/
def renderOrders (kitchen : List (Nat × OrderDoc)) : List OrderDoc :=
  (kitchen.map (fun p => p.2)).insertionSort (fun a b => compareOrders a b ≤ 0)

/-- The value `elapsed` of `createOrderCard`: `Math.floor((now - millis) / 1000 / 60)`,
whole minutes since the timestamp, 0 without a timestamp. The quotient is exact in
real numbers before `Math.floor`, so it is one floor division by 60000. -/
def elapsedMinutes (now : Int) (order : OrderDoc) : Int :=
  match order.timestamp with
  | some millis => (now - (millis : Int)) / 60000
  | none => 0

/-- Whether `createOrderCard` appends the badge `URGENT`. -/
def isUrgent (now : Int) (order : OrderDoc) : Bool :=
  decide (elapsedMinutes now order > 15) && decide (order.status = .paid)

/-! ## Concrete data for the queue and checkout scenarios -/

/-- An order of the kitchen queue with a given status and creation time. -/
def queueOrder (name : String) (status : Status) (timestamp : Nat) : OrderDoc :=
  { order_id := name.toList, amount := some 10, raw_text := none, items_list := some [],
    status := status, token := some 101, timestamp := some timestamp,
    started_at := none, completed_at := none }

/-- Order A: paid, created 10:00 (milliseconds of the day). -/
def orderA : OrderDoc := queueOrder "A" .paid 36000000

/-- Order B: preparing, created 09:50. -/
def orderB : OrderDoc := queueOrder "B" .preparing 35400000

/-- Order C: paid, created 09:55. -/
def orderC : OrderDoc := queueOrder "C" .paid 35700000

/-- A cart of Tea followed by an item named `7`. -/
def teaSevenCart : List CartItem :=
  [⟨1, "Tea".toList, 10, some 5, some true⟩, ⟨2, "7".toList, 5, none, none⟩]

/-- A payload with an item line that contains three dashes. -/
def pavBhajiPayload : Str :=
  "REF: 120501-7\n----------------\nPav---Bhaji\n----------------\nTOTAL: ₹60\n[VERIFIED]".toList

/-- A student page of a closed store: Tea (stock 5) is on the menu and already once
in the cart. -/
def closedStoreState : StudentState :=
  { menuItems := [⟨1, "Tea".toList, 10, some 5, some true⟩],
    cart := [⟨1, "Tea".toList, 10, some 5, some true⟩],
    isStoreOpen := false }

/-- A store with Tea (stock 5) on the menu, no counter and no orders. -/
def teaStore : Store := ⟨[teaDoc 5], none, []⟩

/-! ## Kitchen display: item parsing (`kitchen.js`) -/

/-- A value `{ name, quantity }` of the map `items` of `parseOrderItems`; its key in the
map is its name. -/
structure KitchenItem where
  name : Str
  quantity : Nat
  deriving DecidableEq, Repr

/-- The call `items.set(value.name, value)` on the map, held as its values in insertion
order: a key that is present keeps its place and gets the new value. -/
def mapSet (value : KitchenItem) : List KitchenItem → List KitchenItem
  | [] => [value]
  | e :: rest => if e.name = value.name then value :: rest else e :: mapSet value rest

/-- The body of `order.items_list.forEach(itemName => ...)`: a missing key is set to
quantity 0, then the quantity of the key is incremented. -/
def countItemName (itemName : Str) : List KitchenItem → List KitchenItem
  | [] => [⟨itemName, 1⟩]
  | e :: rest =>
    if e.name = itemName then ⟨e.name, e.quantity + 1⟩ :: rest
    else e :: countItemName itemName rest

/-- The value the fallback sets for one kept line: the quantity pattern is matched
against the line as it is, untrimmed. -/
def parseRawLine (line : Str) : KitchenItem :=
  match matchQty line with
  | some (g1, g2) => ⟨trim g1, parseIntDigits g2⟩
  | none => ⟨trim line, 1⟩

/-- The loop `for (const line of lines)` of the fallback of `parseOrderItems`, with the
flag `isReadingItems` and the map built so far. -/
def parseRawLines : Bool → List Str → List KitchenItem → List KitchenItem
  | _, [], items => items
  | isReadingItems, line :: rest, items =>
    if includes line totalMarker then items
    else
      parseRawLines (isReadingItems || includes line dashes4) rest
        (if isReadingItems && trim line != [] && !includes line dashes3 then
          mapSet (parseRawLine line) items
        else items)

/-- The function `parseOrderItems(order)`: `Array.from(items.values())`. An array
`items_list`, also an empty one, is truthy; an empty `raw_text` is falsy. -/
def parseOrderItems (order : OrderDoc) : List KitchenItem :=
  match order.items_list with
  | some itemsList => itemsList.foldl (fun items itemName => countItemName itemName items) []
  | none =>
    match order.raw_text with
    | some rawText =>
      if rawText = [] then [] else parseRawLines false (splitLines rawText) []
    | none => []

/-- The quantity a list of kitchen items gives a name (0 when the name is absent). -/
def kitchenQty (name : Str) (items : List KitchenItem) : Nat :=
  ((items.filter (fun e => e.name = name)).map (fun e => e.quantity)).sum

/-- The lines that the item loops of `onScanSuccess` and `parseOrderItems` keep, as they
are (untrimmed), with the flag `isReadingItems` as first argument. -/
def keptLines : Bool → List Str → List Str
  | _, [] => []
  | isReadingItems, line :: rest =>
    if includes line totalMarker then []
    else
      (if isReadingItems && trim line != [] && !includes line dashes3 then [line] else [])
      ++ keptLines (isReadingItems || includes line dashes4) rest

/-! ## Admin POS: live stats (`admin-pos.js`) -/

/-- What `listenToLiveStats` writes to the page: `dailyRevenue`, `dailyOrders` and
`lastToken`, where `none` stands for the text `--`. -/
structure LiveStats where
  dailyRevenue : Nat
  dailyOrders : Nat
  lastToken : Option Int
  deriving DecidableEq, Repr

/-- The body of `snapshot.forEach` in `listenToLiveStats` on the three running values
`totalRevenue`, `totalOrders`, `maxToken`: `data.amount || 0` is added (the Number
nearest to the exact sum), and a token that is truthy (present and not 0) and above
`maxToken` replaces it. -/
def statsStep (acc : Nat × Nat × Int) (data : OrderDoc) : Nat × Nat × Int :=
  (toNumber (acc.1 + data.amount.getD 0),
   acc.2.1 + 1,
   match data.token with
   | some token => if token ≠ 0 ∧ token > acc.2.2 then token else acc.2.2
   | none => acc.2.2)

/-- The snapshot callback of `listenToLiveStats`. -/
def listenToLiveStats (snapshot : List OrderDoc) : LiveStats :=
  let totals := snapshot.foldl statsStep (0, 0, 0)
  { dailyRevenue := totals.1, dailyOrders := totals.2.1,
    lastToken := if totals.2.2 > 0 then some totals.2.2 else none }

/-! ## Student app: the generated order id -/

/-- The call `s.padStart(2, '0')`. -/
def padStart2 (s : Str) : Str :=
  List.replicate (2 - s.length) '0' ++ s

/-- The order id `handleCheckout` generates from the clock (`hours`, `minutes`,
`seconds`) and `Math.floor(Math.random() * 100)` (`rnd`): `HHMMSS-N`. -/
def generateOrderId (hours minutes seconds rnd : Nat) : Str :=
  padStart2 (numberToString hours) ++ padStart2 (numberToString minutes)
    ++ padStart2 (numberToString seconds) ++ ['-'] ++ numberToString rnd

/-- Every item of the menu has at most its stock (9999 when absent) in the cart. -/
def CartWithinStock (st : StudentState) : Prop :=
  ∀ (itemId : Nat) (item : CartItem),
    st.menuItems.find? (fun i => i.id = itemId) = some item →
    (getItemQuantity st.cart itemId : Int) ≤ item.stock.getD 9999

/-! ## Concrete data for the kitchen and round-trip scenarios -/

/-- The paid order that accepting a scan of `twoTeaLinesPayload` stores. -/
def twoTeaOrder : OrderDoc :=
  { order_id := "120501-7".toList, amount := some 20, raw_text := some twoTeaLinesPayload,
    items_list := some ["Tea".toList, "Tea".toList],
    status := .paid, token := some 101, timestamp := some 0,
    started_at := none, completed_at := none }

/-- A payload whose item section asks for Tea on two lines, three units each. -/
def splitTeaPayload : Str :=
  "REF: 120501-7\n----------------\nTea x3\nTea x3\n----------------\nTOTAL: ₹60\n[VERIFIED]".toList

/-- A cart with one item priced at 10^21. -/
def goldCart : List CartItem := [⟨5, "Gold".toList, 1000000000000000000000, none, none⟩]

/-- A cart whose prices are 2^53 and 1. -/
def roundedCart : List CartItem :=
  [⟨5, "Gold".toList, 9007199254740992, none, none⟩, ⟨6, "Mint".toList, 1, none, none⟩]

/-- A snapshot of two orders whose tokens are 0 and -3. -/
def nonPositiveTokenSnapshot : List OrderDoc :=
  [{ twoTeaOrder with token := some 0 }, { twoTeaOrder with token := some (-3) }]

/-- A cart with one unit of an item called `constructor`. -/
def constructorCart : List CartItem := [⟨4, "constructor".toList, 10, none, none⟩]

/-- A student page with Tea (stock 2) and Samosa (no stock field) on the menu and one
Tea in the cart. -/
def oneTeaState : StudentState :=
  { menuItems := [⟨1, "Tea".toList, 10, some 2, some true⟩, ⟨2, "Samosa".toList, 15, none, none⟩],
    cart := [⟨1, "Tea".toList, 10, some 2, some true⟩],
    isStoreOpen := true }

/-! ## Numbers and their decimal text -/

theorem digitChar_value (k : Nat) (h : k < 10) :
    (Nat.digitChar k).toNat - 48 = k ∧ isDigit (Nat.digitChar k) = true := by
  interval_cases k <;> decide

theorem toDigitsCore_parse :
    ∀ (fuel n : Nat) (ds : Str), n < fuel →
      (Nat.toDigitsCore 10 fuel n ds).foldl (fun acc c => 10 * acc + (c.toNat - 48)) 0
        = ds.foldl (fun acc c => 10 * acc + (c.toNat - 48)) n := by
  intro fuel
  induction fuel with
  | zero => intro n ds h; omega
  | succ fuel ih =>
    intro n ds h
    unfold Nat.toDigitsCore
    simp only
    by_cases h0 : n / 10 = 0
    · simp only [h0, if_true, List.foldl_cons, (digitChar_value (n % 10) (Nat.mod_lt _ (by omega))).1]
      congr 1
      omega
    · simp only [h0, if_false]
      rw [ih (n / 10) _ (by omega)]
      simp only [List.foldl_cons, (digitChar_value (n % 10) (Nat.mod_lt _ (by omega))).1]
      congr 1
      omega

theorem toDigitsCore_digits :
    ∀ (fuel n : Nat) (ds : Str), (∀ c ∈ ds, isDigit c = true) →
      ∀ c ∈ Nat.toDigitsCore 10 fuel n ds, isDigit c = true := by
  intro fuel
  induction fuel with
  | zero => intro n ds h; simpa [Nat.toDigitsCore] using h
  | succ fuel ih =>
    intro n ds h
    have hd : ∀ c ∈ Nat.digitChar (n % 10) :: ds, isDigit c = true := by
      intro c hc
      rcases List.mem_cons.mp hc with rfl | hc
      · exact (digitChar_value (n % 10) (Nat.mod_lt _ (by omega))).2
      · exact h c hc
    unfold Nat.toDigitsCore
    simp only
    by_cases h0 : n / 10 = 0
    · simpa only [h0, if_true] using hd
    · simp only [h0, if_false]
      exact ih _ _ hd

theorem toDigitsCore_ne_nil :
    ∀ (fuel n : Nat) (ds : Str), (0 < fuel ∨ ds ≠ []) → Nat.toDigitsCore 10 fuel n ds ≠ [] := by
  intro fuel
  induction fuel with
  | zero => intro n ds h; rcases h with h | h; · omega
            simpa [Nat.toDigitsCore] using h
  | succ fuel ih =>
    intro n ds _
    unfold Nat.toDigitsCore
    simp only
    by_cases h0 : n / 10 = 0
    · simp [h0]
    · simp only [h0, if_false]
      exact ih _ _ (Or.inr (by simp))

theorem toNumber_exact (n : Nat) (h : n ≤ 9007199254740992) : toNumber n = n := by
  unfold toNumber
  rw [if_pos h]

theorem numberToString_exact (n : Nat) (h : n ≤ 9007199254740992) :
    numberToString n = decimalNumeral n := by
  unfold numberToString decimalNumeral
  rw [if_pos h]

theorem digitsValue_decimalNumeral (n : Nat) : digitsValue (decimalNumeral n) = n := by
  unfold digitsValue decimalNumeral Nat.toDigits
  rw [toDigitsCore_parse (n + 1) n [] (by omega)]
  rfl

theorem parseIntDigits_numberToString (n : Nat) (h : n ≤ 9007199254740992) :
    parseIntDigits (numberToString n) = n := by
  unfold parseIntDigits
  rw [numberToString_exact n h, digitsValue_decimalNumeral, toNumber_exact n h]

theorem numberToString_digits (n : Nat) (h : n ≤ 9007199254740992) :
    ∀ c ∈ numberToString n, isDigit c = true := by
  rw [numberToString_exact n h]
  exact toDigitsCore_digits (n + 1) n [] (by simp)

theorem numberToString_ne_nil (n : Nat) (h : n ≤ 9007199254740992) : numberToString n ≠ [] := by
  rw [numberToString_exact n h]
  exact toDigitsCore_ne_nil (n + 1) n [] (Or.inl (by omega))

/-! ## Lines, infixes, trimming and the two patterns -/

theorem splitLines_ne_nil (s : Str) : splitLines s ≠ [] := by
  induction s with
  | nil => simp [splitLines]
  | cons c cs ih =>
    unfold splitLines
    by_cases h : c = '\n'
    · simp [h]
    · simp only [h, if_false]
      cases hs : splitLines cs <;> simp

theorem splitLines_no_newline (a : Str) (h : '\n' ∉ a) : splitLines a = [a] := by
  induction a with
  | nil => rfl
  | cons c cs ih =>
    have hc : c ≠ '\n' := fun e => h (by simp [e])
    have hcs : '\n' ∉ cs := fun e => h (List.mem_cons_of_mem _ e)
    unfold splitLines
    simp [hc, ih hcs]

theorem splitLines_append (a b : Str) (h : '\n' ∉ a) :
    splitLines (a ++ '\n' :: b) = a :: splitLines b := by
  induction a with
  | nil => simp [splitLines]
  | cons c cs ih =>
    have hc : c ≠ '\n' := fun e => h (by simp [e])
    have hcs : '\n' ∉ cs := fun e => h (List.mem_cons_of_mem _ e)
    rw [List.cons_append, splitLines, if_neg hc, ih hcs]

theorem splitLines_lines (ls : List Str) (rest : Str) (h : ∀ l ∈ ls, '\n' ∉ l) :
    splitLines ((ls.map (fun l => l ++ ['\n'])).flatten ++ rest) = ls ++ splitLines rest := by
  induction ls with
  | nil => rfl
  | cons l ls ih =>
    have e : ((l :: ls).map (fun l => l ++ ['\n'])).flatten ++ rest
        = l ++ '\n' :: ((ls.map (fun l => l ++ ['\n'])).flatten ++ rest) := by simp
    rw [e, splitLines_append _ _ (h l (List.mem_cons_self _ _)),
      ih (fun l1 h1 => h l1 (List.mem_cons_of_mem _ h1))]
    rfl

theorem isPrefixOf_iff (t s : Str) : t.isPrefixOf s = true ↔ t <+: s := by
  exact List.isPrefixOf_iff_prefix

theorem includes_iff (s t : Str) : includes s t = true ↔ t <:+: s := by
  induction s with
  | nil =>
    simp [includes, List.isEmpty_iff]
  | cons c cs ih =>
    unfold includes
    rw [Bool.or_eq_true, ih, List.isPrefixOf_iff_prefix, List.infix_cons_iff]

theorem includes_eq_false_iff (s t : Str) : includes s t = false ↔ ¬ t <:+: s := by
  rw [← includes_iff]; simp

/-- A text whose last character does not occur in `b` is an infix of `a ++ b` only
inside `a`. -/
theorem infix_append_left (t a b : Str) (ht : t ≠ [])
    (hb : ∀ c ∈ b, c ∉ t) (h : t <:+: a ++ b) : t <:+: a := by
  obtain ⟨x, y, hxy⟩ := h
  rw [List.append_eq_append_iff] at hxy
  rcases hxy with ⟨a1, h1, h2⟩ | ⟨c1, h1, h2⟩
  · -- a = (x ++ t) ++ a1
    exact ⟨x, a1, h1.symm⟩
  · -- x ++ t = a ++ c1, b = c1 ++ y
    by_cases hc : c1 = []
    · subst hc
      exact ⟨x, [], by simpa using h1⟩
    · exfalso
      have hl : (x ++ t).getLast? = (a ++ c1).getLast? := by rw [h1]
      rw [List.getLast?_append_of_ne_nil _ ht, List.getLast?_append_of_ne_nil _ hc] at hl
      obtain ⟨z, hz⟩ : ∃ z, c1.getLast? = some z := by
        cases hq : c1.getLast? with
        | none => exact absurd (List.getLast?_eq_none_iff.mp hq) hc
        | some z => exact ⟨z, rfl⟩
      rw [hz] at hl
      have hzc : z ∈ c1 := List.mem_of_getLast?_eq_some hz
      have hzt : z ∈ t := List.mem_of_getLast?_eq_some hl
      exact hb z (by rw [h2]; exact List.mem_append_left _ hzc) hzt

theorem isDigit_not_whiteSpace (c : Char) (h : isDigit c = true) : isWhiteSpace c = false := by
  simp only [isDigit, Bool.and_eq_true, decide_eq_true_eq] at h
  simp only [isWhiteSpace, Bool.or_eq_false_iff, Bool.and_eq_false_iff, beq_eq_false_iff_ne,
    decide_eq_false_iff_not]
  omega

theorem dropWhile_eq_self_of_head (p : Char → Bool) (s : Str)
    (h : ∀ c, s.head? = some c → p c = false) : s.dropWhile p = s := by
  cases s with
  | nil => rfl
  | cons c cs => simp [List.dropWhile, h c rfl]

theorem trim_eq_self (s : Str) (h1 : ∀ c, s.head? = some c → isWhiteSpace c = false)
    (h2 : ∀ c, s.getLast? = some c → isWhiteSpace c = false) : trim s = s := by
  unfold trim
  rw [dropWhile_eq_self_of_head _ s h1, dropWhile_eq_self_of_head _ s.reverse, List.reverse_reverse]
  intro c hc
  rw [List.head?_reverse] at hc
  exact h2 c hc

theorem takeWhile_append_stop (p : Char → Bool) (a : Str) (c : Char) (b : Str)
    (ha : ∀ x ∈ a, p x = true) (hc : p c = false) :
    (a ++ c :: b).takeWhile p = a ∧ (a ++ c :: b).dropWhile p = c :: b := by
  induction a with
  | nil => simp [List.takeWhile, List.dropWhile, hc]
  | cons x xs ih =>
    have hx : p x = true := ha x (List.mem_cons_self _ _)
    have := ih (fun y hy => ha y (List.mem_cons_of_mem _ hy))
    simp [List.takeWhile, List.dropWhile, hx, this]

theorem takeWhile_eq_self (p : Char → Bool) (a : Str) (ha : ∀ x ∈ a, p x = true) :
    a.takeWhile p = a := by
  induction a with
  | nil => rfl
  | cons x xs ih =>
    simp [List.takeWhile, ha x (List.mem_cons_self _ _),
      ih (fun y hy => ha y (List.mem_cons_of_mem _ hy))]

/-- The quantity pattern on `name xN`. -/
theorem matchQty_display (name ds : Str) (hn : name ≠ [])
    (hlt : ∀ c ∈ name, isLineTerminator c = false)
    (hds : ds ≠ []) (hd : ∀ c ∈ ds, isDigit c = true) :
    matchQty (name ++ [' ', 'x'] ++ ds) = some (name, ds) := by
  have hr : (name ++ [' ', 'x'] ++ ds).reverse = ds.reverse ++ 'x' :: (' ' :: name.reverse) := by
    simp
  have hx : isDigit 'x' = false := by decide
  obtain ⟨h1, h2⟩ := takeWhile_append_stop isDigit ds.reverse 'x' (' ' :: name.reverse)
    (fun c hc => hd c (List.mem_reverse.mp hc)) hx
  unfold matchQty
  simp only [hr, h1, h2]
  rw [takeWhile_eq_self _ name.reverse (fun c hc => by simp [hlt c (List.mem_reverse.mp hc)])]
  simp [hn, hds]

/-- A text the quantity pattern matches ends in ` x` and a run of digits. -/
theorem matchQty_some (s g d : Str) (h : matchQty s = some (g, d)) :
    ∃ pre ds, s = pre ++ ' ' :: 'x' :: ds ∧ ds ≠ [] ∧ ∀ c ∈ ds, isDigit c = true := by
  unfold matchQty at h
  have hsplit := List.takeWhile_append_dropWhile isDigit s.reverse
  cases hdrop : s.reverse.dropWhile isDigit with
  | nil => simp [hdrop] at h
  | cons c1 r1 =>
    cases r1 with
    | nil => simp only [hdrop] at h; cases h
    | cons c2 pre =>
      by_cases hc : c1 = 'x' ∧ c2 = ' '
      · obtain ⟨rfl, rfl⟩ := hc
        simp only [hdrop] at h
        by_cases hne : s.reverse.takeWhile isDigit ≠ []
        · refine ⟨pre.reverse, (s.reverse.takeWhile isDigit).reverse, ?_, by simpa using hne, ?_⟩
          · rw [hdrop] at hsplit
            have := congrArg List.reverse hsplit
            simp only [List.reverse_reverse, List.reverse_append, List.reverse_cons,
              List.append_assoc, List.singleton_append] at this
            exact this.symm
          · intro c hc
            exact (List.mem_takeWhile_imp (List.mem_reverse.mp hc))
        · simp [hne] at h
      · simp only [hdrop] at h
        split at h
        · rename_i heq
          simp only [List.cons.injEq] at heq
          exact absurd ⟨heq.1, heq.2.1⟩ hc
        · cases h

theorem matchQty_none_of_no_suffix (s : Str)
    (h : ¬ ∃ pre ds, s = pre ++ ' ' :: 'x' :: ds ∧ ds ≠ [] ∧ ∀ c ∈ ds, isDigit c = true) :
    matchQty s = none := by
  cases hm : matchQty s with
  | none => rfl
  | some r => exact absurd (matchQty_some s r.1 r.2 hm) h

theorem matchRupee_total (ds : Str) (hds : ds ≠ []) (hd : ∀ c ∈ ds, isDigit c = true) :
    matchRupee (totalMarker ++ [' ', '₹'] ++ ds) = some ds := by
  have e : totalMarker ++ [' ', '₹'] ++ ds
      = 'T' :: 'O' :: 'T' :: 'A' :: 'L' :: ':' :: ' ' :: '₹' :: ds := rfl
  rw [e]
  simp [matchRupee, takeWhile_eq_self isDigit ds hd, hds]

/-! ## Decoding the payload that checkout builds -/

theorem isDigit_not_mem (t : Str) (ht : ∀ c ∈ t, isDigit c = false) (c : Char)
    (hc : isDigit c = true) : c ∉ t := by
  intro hmem
  rw [ht c hmem] at hc
  cases hc

theorem suffix_chars_not_mem (t : Str) (ht : ∀ c ∈ t, isDigit c = false ∧ c ≠ ' ' ∧ c ≠ 'x')
    (n : Nat) (hn : n ≤ 9007199254740992) : ∀ c ∈ [' ', 'x'] ++ numberToString n, c ∉ t := by
  intro c hc hmem
  obtain ⟨h1, h2, h3⟩ := ht c hmem
  simp only [List.cons_append, List.nil_append, List.mem_cons] at hc
  rcases hc with rfl | rfl | hc
  · exact h2 rfl
  · exact h3 rfl
  · rw [numberToString_digits n hn c hc] at h1
    cases h1

theorem displayLine_no_infix (t : Str) (ht0 : t ≠ [])
    (ht : ∀ c ∈ t, isDigit c = false ∧ c ≠ ' ' ∧ c ≠ 'x') (e : CountEntry)
    (hb : e.count ≤ 9007199254740992)
    (h : ¬ t <:+: e.name) : includes (displayLine e) t = false := by
  rw [includes_eq_false_iff]
  unfold displayLine
  by_cases hc : e.count > 1
  · simp only [hc, if_true, List.append_assoc]
    intro hin
    exact h (infix_append_left t e.name _ ht0 (suffix_chars_not_mem t ht e.count hb) hin)
  · simpa only [hc, if_false] using h

theorem displayLine_facts (e : CountEntry) (hw : WellFormedName e.name) (hc : 1 ≤ e.count)
    (hb : e.count ≤ 9007199254740992) :
    '\n' ∉ displayLine e ∧
    includes (displayLine e) totalMarker = false ∧
    includes (displayLine e) dashes3 = false ∧
    trim (displayLine e) = displayLine e ∧
    displayLine e ≠ [] ∧
    parseItemStr (displayLine e) = ⟨e.name, e.count⟩ := by
  obtain ⟨hne, hlt, hhead, hlast, hd3, htm, hsuf, _⟩ := hw
  have htrim : trim e.name = e.name := trim_eq_self _ hhead hlast
  refine ⟨?_, ?_, ?_, ?_, ?_, ?_⟩
  · unfold displayLine
    have hn : '\n' ∉ e.name := fun hm => by
      have := hlt _ hm
      revert this; decide
    by_cases h1 : e.count > 1
    · simp only [h1, if_true, List.mem_append, not_or]
      refine ⟨⟨hn, by decide⟩, ?_⟩
      intro hm
      have := numberToString_digits _ hb _ hm
      revert this; decide
    · simpa only [h1, if_false] using hn
  · exact displayLine_no_infix totalMarker (by decide) (by decide) e hb htm
  · exact displayLine_no_infix dashes3 (by decide) (by decide) e hb hd3
  · unfold displayLine
    by_cases h1 : e.count > 1
    · simp only [h1, if_true]
      apply trim_eq_self
      · intro c hc
        apply hhead c
        cases hn : e.name with
        | nil => exact absurd hn hne
        | cons a as => rw [hn] at hc; simpa using hc
      · intro c hc
        rw [List.getLast?_append_of_ne_nil _ (numberToString_ne_nil _ hb)] at hc
        exact isDigit_not_whiteSpace c
          (numberToString_digits _ hb c (List.mem_of_getLast?_eq_some hc))
    · simpa only [h1, if_false] using htrim
  · unfold displayLine
    by_cases h1 : e.count > 1
    · simp [h1]
    · simpa only [h1, if_false] using hne
  · unfold parseItemStr displayLine
    by_cases h1 : e.count > 1
    · simp only [h1, if_true]
      rw [matchQty_display e.name _ hne hlt (numberToString_ne_nil _ hb)
        (numberToString_digits _ hb)]
      simp only [htrim, parseIntDigits_numberToString _ hb]
    · simp only [h1, if_false]
      rw [matchQty_none_of_no_suffix _ hsuf]
      simp only [htrim]
      congr 1
      omega

theorem includes_totalLine (x : Str) : includes (totalMarker ++ x) totalMarker = true := by
  rw [includes_iff]
  exact (List.prefix_append _ _).isInfix

theorem scanItems_items (x : Str) (rest : List Str) :
    ∀ ds : List Str,
      (∀ d ∈ ds, includes d totalMarker = false ∧ includes d dashes3 = false ∧
        trim d = d ∧ d ≠ []) →
      scanItems true (ds ++ divider :: (totalMarker ++ x) :: rest) = ds := by
  intro ds
  induction ds with
  | nil =>
    intro _
    have h1 : includes divider totalMarker = false := by decide
    have h2 : includes divider dashes3 = true := by decide
    simp [scanItems, h1, h2, includes_totalLine]
  | cons d ds ih =>
    intro h
    obtain ⟨h1, h2, h3, h4⟩ := h d (List.mem_cons_self _ _)
    rw [List.cons_append, scanItems]
    simp only [h1, h2, h3, Bool.true_or, Bool.false_eq_true, if_false, Bool.true_and,
      Bool.not_false, Bool.and_true, bne_iff_ne, ne_eq, h4, not_false_eq_true, if_true]
    rw [ih (fun d1 hd1 => h d1 (List.mem_cons_of_mem _ hd1))]
    rfl

theorem includes_refLine (orderId : Str) (h : ¬ totalMarker <:+: orderId) :
    includes (refLabel ++ orderId) totalMarker = false := by
  have : includes orderId totalMarker = false := (includes_eq_false_iff _ _).mpr h
  simp [refLabel, totalMarker, includes, List.isPrefixOf] at this ⊢
  exact this

theorem scanItems_payload (orderId x : Str) (rest ds : List Str)
    (hid : ¬ totalMarker <:+: orderId)
    (h : ∀ d ∈ ds, includes d totalMarker = false ∧ includes d dashes3 = false ∧
        trim d = d ∧ d ≠ []) :
    scanItems false
      ((refLabel ++ orderId) :: divider :: (ds ++ divider :: (totalMarker ++ x) :: rest))
      = ds := by
  have h1 : includes divider totalMarker = false := by decide
  have h2 : includes divider dashes3 = true := by decide
  have h3 : includes divider dashes4 = true := by decide
  rw [scanItems]
  simp only [includes_refLine orderId hid, Bool.false_eq_true, if_false, Bool.false_and,
    List.nil_append, Bool.false_or]
  rw [scanItems]
  simp only [h1, h2, h3, Bool.false_eq_true, if_false, Bool.not_true, Bool.and_false,
    List.nil_append, Bool.or_true]
  exact scanItems_items x rest ds h

theorem scanAmount_payload (orderId : Str) (n : Nat) (rest ds : List Str)
    (hn : n ≤ 9007199254740992) (hid : ¬ totalMarker <:+: orderId)
    (h : ∀ d ∈ ds, includes d totalMarker = false) :
    scanAmount
      ((refLabel ++ orderId) :: divider ::
        (ds ++ divider :: (totalMarker ++ [' ', '₹'] ++ numberToString n) :: rest))
      = .ok n := by
  have h1 : includes divider totalMarker = false := by decide
  have hds : ds.find? (fun line => includes line totalMarker) = none := by
    rw [List.find?_eq_none]
    intro d hd
    simp [h d hd]
  have ht : includes (totalMarker ++ [' ', '₹'] ++ numberToString n) totalMarker = true := by
    rw [List.append_assoc]; exact includes_totalLine _
  unfold scanAmount
  simp only [List.find?_cons, includes_refLine orderId hid, h1, List.find?_append, hds,
    Option.none_or, ht]
  rw [matchRupee_total _ (numberToString_ne_nil n hn) (numberToString_digits n hn)]
  simp only [parseIntDigits_numberToString n hn]

theorem qtyOf_nil (name : Str) : qtyOf name [] = 0 := rfl

theorem qtyOf_cons (name : Str) (it : OrderItem) (items : List OrderItem) :
    qtyOf name (it :: items) = (if it.name = name then it.qty else 0) + qtyOf name items := by
  unfold qtyOf
  by_cases h : it.name = name <;> simp [List.filter_cons, h]

theorem qtyOf_append (name : Str) (a b : List OrderItem) :
    qtyOf name (a ++ b) = qtyOf name a + qtyOf name b := by
  unfold qtyOf
  simp [List.filter_append]

theorem qtyOf_perm (name : Str) (a b : List OrderItem) (h : a.Perm b) :
    qtyOf name a = qtyOf name b := by
  unfold qtyOf
  exact ((h.filter _).map _).sum_eq

theorem bumpEntry_qty (name n : Str) (p : Nat) :
    ∀ acc : List CountEntry,
      qtyOf name ((bumpEntry n p acc).map (fun e => ⟨e.name, e.count⟩))
        = qtyOf name (acc.map (fun e => ⟨e.name, e.count⟩)) + (if n = name then 1 else 0) := by
  intro acc
  induction acc with
  | nil => simp [bumpEntry, qtyOf_cons, qtyOf_nil]
  | cons e rest ih =>
    unfold bumpEntry
    by_cases h : e.name = n
    · simp only [h, if_true, List.map_cons, qtyOf_cons]
      by_cases h2 : n = name <;> simp [h2]; omega
    · simp only [h, if_false, List.map_cons, qtyOf_cons, ih]
      omega

theorem bumpEntry_mem (Q : Str → Prop) (n : Str) (p : Nat) (hn : Q n) :
    ∀ acc : List CountEntry, (∀ e ∈ acc, 1 ≤ e.count ∧ Q e.name) →
      ∀ e ∈ bumpEntry n p acc, 1 ≤ e.count ∧ Q e.name := by
  intro acc
  induction acc with
  | nil =>
    intro _ e he
    simp only [bumpEntry, List.mem_singleton] at he
    subst he
    exact ⟨le_refl _, hn⟩
  | cons a rest ih =>
    intro h e he
    unfold bumpEntry at he
    by_cases ha : a.name = n
    · simp only [ha, if_true, List.mem_cons] at he
      rcases he with rfl | he
      · exact ⟨by simp, hn⟩
      · exact h e (List.mem_cons_of_mem _ he)
    · simp only [ha, if_false, List.mem_cons] at he
      rcases he with rfl | he
      · exact h e (List.mem_cons_self _ _)
      · exact ih (fun e1 h1 => h e1 (List.mem_cons_of_mem _ h1)) e he

theorem itemCounts_fold (name : Str) (Q : Str → Prop) :
    ∀ (cart : List CartItem) (acc : List CountEntry),
      (∀ item ∈ cart, item.name ∉ objectPrototypeKeys ∧ Q item.name) →
      (∀ e ∈ acc, 1 ≤ e.count ∧ Q e.name) →
      qtyOf name
          ((cart.foldl (fun acc item =>
              if item.name ∈ objectPrototypeKeys then acc
              else bumpEntry item.name item.price acc) acc).map
            (fun e => ⟨e.name, e.count⟩))
        = qtyOf name (acc.map (fun e => ⟨e.name, e.count⟩))
          + (cart.filter (fun item => item.name = name)).length ∧
      ∀ e ∈ cart.foldl (fun acc item =>
              if item.name ∈ objectPrototypeKeys then acc
              else bumpEntry item.name item.price acc) acc,
        1 ≤ e.count ∧ Q e.name := by
  intro cart
  induction cart with
  | nil => intro acc _ h; exact ⟨by simp, h⟩
  | cons item rest ih =>
    intro acc hc hacc
    obtain ⟨hp, hq⟩ := hc item (List.mem_cons_self _ _)
    have hrest := ih (bumpEntry item.name item.price acc)
      (fun i hi => hc i (List.mem_cons_of_mem _ hi))
      (bumpEntry_mem Q item.name item.price hq acc hacc)
    simp only [List.foldl_cons, hp, if_false]
    refine ⟨?_, hrest.2⟩
    rw [hrest.1, bumpEntry_qty]
    by_cases h : item.name = name <;> simp [List.filter_cons, h]; omega

theorem objectKeys_perm (own : List CountEntry) : (objectKeys own).Perm own := by
  unfold objectKeys
  refine ((List.perm_insertionSort _ _).append_right _).trans ?_
  exact List.filter_append_perm _ own

theorem cartTotal_eq_sum (cart : List CartItem)
    (h : (cart.map (fun item => item.price)).sum ≤ 9007199254740992) :
    cartTotal cart = (cart.map (fun item => item.price)).sum := by
  unfold cartTotal
  have : ∀ (l : List CartItem) (acc : Nat),
      acc + (l.map (fun item => item.price)).sum ≤ 9007199254740992 →
      l.foldl (fun sum item => toNumber (sum + item.price)) acc
        = acc + (l.map (fun item => item.price)).sum := by
    intro l
    induction l with
    | nil => intro acc _; simp
    | cons a l ih =>
      intro acc hacc
      simp only [List.map_cons, List.sum_cons] at hacc
      rw [List.foldl_cons, toNumber_exact _ (by omega), ih _ (by omega)]
      simp only [List.map_cons, List.sum_cons]
      omega
  simpa using this cart 0 (by simpa using h)

theorem bumpEntry_count_le (n : Str) (p k : Nat) :
    ∀ acc : List CountEntry, (∀ e ∈ acc, e.count ≤ k) →
      ∀ e ∈ bumpEntry n p acc, e.count ≤ k + 1 := by
  intro acc
  induction acc with
  | nil =>
    intro _ e he
    simp only [bumpEntry, List.mem_singleton] at he
    subst he
    show 1 ≤ k + 1
    omega
  | cons a rest ih =>
    intro h e he
    unfold bumpEntry at he
    have ha := h a (List.mem_cons_self _ _)
    by_cases hn : a.name = n
    · simp only [hn, if_true, List.mem_cons] at he
      rcases he with rfl | he
      · show a.count + 1 ≤ k + 1
        omega
      · exact Nat.le_succ_of_le (h e (List.mem_cons_of_mem _ he))
    · simp only [hn, if_false, List.mem_cons] at he
      rcases he with rfl | he
      · exact Nat.le_succ_of_le ha
      · exact ih (fun e1 h1 => h e1 (List.mem_cons_of_mem _ h1)) e he

theorem itemCounts_count_le (cart : List CartItem) :
    ∀ e ∈ itemCounts cart, e.count ≤ cart.length := by
  have key : ∀ (l : List CartItem) (acc : List CountEntry) (k : Nat),
      (∀ e ∈ acc, e.count ≤ k) →
      ∀ e ∈ l.foldl (fun acc item =>
          if item.name ∈ objectPrototypeKeys then acc
          else bumpEntry item.name item.price acc) acc, e.count ≤ k + l.length := by
    intro l
    induction l with
    | nil => intro acc k h e he; exact h e he
    | cons item rest ih =>
      intro acc k h e he
      rw [List.foldl_cons] at he
      have hstep : ∀ e1 ∈ (if item.name ∈ objectPrototypeKeys then acc
          else bumpEntry item.name item.price acc), e1.count ≤ k + 1 := by
        intro e1 h1
        by_cases hp : item.name ∈ objectPrototypeKeys
        · rw [if_pos hp] at h1
          exact Nat.le_succ_of_le (h e1 h1)
        · rw [if_neg hp] at h1
          exact bumpEntry_count_le _ _ k acc h e1 h1
      have := ih _ (k + 1) hstep e he
      rw [List.length_cons]
      omega
  intro e he
  have := key cart [] 0 (by simp) e he
  omega

theorem qrData_lines (orderId : Str) (cart : List CartItem) (hid : '\n' ∉ orderId)
    (hb : cartTotal cart ≤ 9007199254740992)
    (hd : ∀ e ∈ objectKeys (itemCounts cart), '\n' ∉ displayLine e) :
    splitLines (qrData orderId cart)
      = (refLabel ++ orderId) :: divider ::
          ((objectKeys (itemCounts cart)).map displayLine ++
            divider :: (totalMarker ++ [' ', '₹'] ++ numberToString (cartTotal cart))
              :: ["[VERIFIED]".toList]) := by
  have e : qrData orderId cart
      = (refLabel ++ orderId) ++ '\n' :: (divider ++ '\n' ::
          ((((objectKeys (itemCounts cart)).map displayLine).map (fun l => l ++ ['\n'])).flatten
            ++ (divider ++ '\n' ::
              ((totalMarker ++ [' ', '₹'] ++ numberToString (cartTotal cart)) ++ '\n' ::
                "[VERIFIED]".toList)))) := by
    unfold qrData
    simp only [List.map_map, List.append_assoc, List.singleton_append,
      List.cons_append, List.nil_append]
    rfl
  have h0 : '\n' ∉ refLabel ++ orderId := by
    simp only [List.mem_append, not_or]
    exact ⟨by decide, hid⟩
  have h1 : '\n' ∉ divider := by decide
  have h2 : '\n' ∉ totalMarker ++ [' ', '₹'] ++ numberToString (cartTotal cart) := by
    simp only [List.mem_append, not_or]
    refine ⟨⟨by decide, by decide⟩, ?_⟩
    intro hm
    have := numberToString_digits _ hb _ hm
    revert this; decide
  have h3 : '\n' ∉ "[VERIFIED]".toList := by decide
  rw [e, splitLines_append _ _ h0, splitLines_append _ _ h1, splitLines_lines,
    splitLines_append _ _ h1, splitLines_append _ _ h2, splitLines_no_newline _ h3]
  intro l hl
  obtain ⟨e1, he1, rfl⟩ := List.mem_map.mp hl
  exact hd e1 he1

/-! ## Token sequencer: proofs -/

theorem runTokens_cons (c : Option Counter) (d : Str) (ds : List Str) :
    (runTokens c (d :: ds)).1 =
      (generateTokenNumber d c).1 :: (runTokens (some (generateTokenNumber d c).2) ds).1 :=
  rfl

theorem generateTokenNumber_same (v : Int) (d : Str) :
    generateTokenNumber d (some ⟨v, d⟩) = (v + 1, ⟨v + 1, d⟩) := by
  simp [generateTokenNumber]

/-- After a counter `⟨v, d⟩`, the call number `j` of a run of calls for `d` returns
`v + 1 + j`. -/
theorem runTokens_same_date (d : Str) :
    ∀ (ds : List Str) (v : Int) (j : Nat) (b : Int),
      (∀ k, k ≤ j → ds[k]? = some d) →
      (runTokens (some ⟨v, d⟩) ds).1[j]? = some b → b = v + 1 + j := by
  intro ds
  induction ds with
  | nil => intro v j b _ h; simp [runTokens] at h
  | cons e ds ih =>
    intro v j b hd h
    have he : e = d := by simpa using hd 0 (Nat.zero_le _)
    subst he
    rw [runTokens_cons, generateTokenNumber_same] at h
    cases j with
    | zero => simp at h; omega
    | succ j =>
      simp only [List.getElem?_cons_succ] at h
      have := ih (v + 1) j b (fun k hk => by simpa using hd (k + 1) (by omega)) h
      push_cast
      omega

theorem runTokens_replicate_same (d : Str) (N : Nat) :
    ∀ v : Int, (runTokens (some ⟨v, d⟩) (List.replicate N d)).1
      = (List.range N).map (fun (i : Nat) => v + 1 + (i : Int)) := by
  induction N with
  | zero => intro v; rfl
  | succ N ih =>
    intro v
    rw [List.replicate_succ, runTokens_cons, generateTokenNumber_same, ih (v + 1),
      List.range_succ_eq_map]
    simp only [List.map_cons, List.map_map]
    congr 1
    · simp
    · apply List.map_congr_left
      intro i _
      simp only [Function.comp, Nat.succ_eq_add_one]
      push_cast
      ring

theorem range_map_add_nodup (base : Int) (N : Nat) :
    ((List.range N).map (fun (i : Nat) => base + (i : Int))).Nodup := by
  refine (List.nodup_range N).map ?_
  intro a b h
  simpa using h

theorem generateTokenNumber_fresh (c : Option Counter) (d : Str)
    (h : ∀ k, c = some k → k.date ≠ d) :
    generateTokenNumber d c = (101, ⟨101, d⟩) := by
  cases c with
  | none => rfl
  | some k => simp [generateTokenNumber, h k rfl]

/-- C2 as stated fails: with a call for another date in between, the two calls for
the first date both return 101, so the tokens of that date are not strictly increasing. -/
theorem tokens_repeat_across_dates :
    ¬ (∀ (c : Option Counter) (ds : List Str) (i j : Nat) (a b : Int),
        i < j → ds[i]? = ds[j]? →
        (runTokens c ds).1[i]? = some a → (runTokens c ds).1[j]? = some b → a < b) := by
  intro h
  have := h none ["2024-01-01".toList, "2024-01-02".toList, "2024-01-01".toList] 0 2 101 101
    (by decide) (by decide) (by decide) (by decide)
  omega

/-- C2 (amended): in every sequence of `generateTokenNumber` calls with arbitrary
dates and from every counter state, over a stretch of calls `i..j` that are all for
the same date the token of call `j` is the token of call `i` plus `j - i`; so tokens
are strictly increasing, hence distinct, as long as no call for another date comes in
between. -/
theorem tokens_increasing_within_run :
    ∀ (ds : List Str) (c : Option Counter) (i j : Nat) (a b : Int),
      i < j → (∀ k, i ≤ k → k ≤ j → ds[k]? = ds[i]?) →
      (runTokens c ds).1[i]? = some a → (runTokens c ds).1[j]? = some b →
      b = a + (j - i : Nat) ∧ a < b := by
  intro ds
  induction ds with
  | nil => intro c i j a b _ _ h; simp [runTokens] at h
  | cons d ds ih =>
    intro c i j a b hij hd ha hb
    rw [runTokens_cons] at ha hb
    cases j with
    | zero => omega
    | succ j =>
      simp only [List.getElem?_cons_succ] at hb
      cases i with
      | zero =>
        simp only [List.getElem?_cons_zero, Option.some.injEq] at ha
        have hc : (generateTokenNumber d c).2 = ⟨a, d⟩ := by
          rw [← ha]; rfl
        rw [hc] at hb
        have := runTokens_same_date d ds a j b
          (fun k hk => by simpa using hd (k + 1) (by omega) (by omega)) hb
        constructor
        · push_cast; omega
        · omega
      | succ i =>
        simp only [List.getElem?_cons_succ] at ha
        have := ih (some (generateTokenNumber d c).2) i j a b (by omega)
          (fun k h1 h2 => by simpa using hd (k + 1) (by omega) (by omega)) ha hb
        constructor
        · have h3 : j + 1 - (i + 1) = j - i := by omega
          rw [h3]; exact this.1
        · exact this.2

theorem tokens_increasing_within_run_witness :
    (102 : Int) = 101 + (1 - 0 : Nat) ∧ (101 : Int) < 102 :=
  tokens_increasing_within_run
    ["2024-01-01".toList, "2024-01-01".toList, "2024-01-02".toList] none 0 1 101 102
    (by decide) (by intro k h1 h2; interval_cases k <;> rfl) (by decide) (by decide)

/-- C3: `N` `generateTokenNumber` transactions for one date `d`, run one after the
other (every caller runs the same transaction, so a serialisation order is this
sequence), return `101, ..., 100 + N` when no counter exists for `d` (no counter
document, or one of another date) and `v + 1, ..., v + N` when the stored counter for
`d` has value `v`; the returned tokens are pairwise distinct. -/
theorem tokens_consecutive (c : Option Counter) (d : Str) (N : Nat) :
    ((∀ k, c = some k → k.date ≠ d) →
      (runTokens c (List.replicate N d)).1
        = (List.range N).map (fun (i : Nat) => (101 : Int) + (i : Int))) ∧
    (∀ v : Int, c = some ⟨v, d⟩ →
      (runTokens c (List.replicate N d)).1
        = (List.range N).map (fun (i : Nat) => v + 1 + (i : Int))) ∧
    (runTokens c (List.replicate N d)).1.Nodup := by
  have fresh : (∀ k, c = some k → k.date ≠ d) →
      (runTokens c (List.replicate N d)).1
        = (List.range N).map (fun (i : Nat) => (101 : Int) + (i : Int)) := by
    intro h
    cases N with
    | zero => rfl
    | succ N =>
      rw [List.replicate_succ, runTokens_cons, generateTokenNumber_fresh c d h,
        runTokens_replicate_same, List.range_succ_eq_map]
      simp only [List.map_cons, List.map_map]
      congr 1
      apply List.map_congr_left
      intro i _
      simp only [Function.comp, Nat.succ_eq_add_one]
      push_cast
      ring
  have same : ∀ v : Int, c = some ⟨v, d⟩ →
      (runTokens c (List.replicate N d)).1
        = (List.range N).map (fun (i : Nat) => v + 1 + (i : Int)) := by
    intro v hv
    rw [hv, runTokens_replicate_same]
  refine ⟨fresh, same, ?_⟩
  by_cases h : ∀ k, c = some k → k.date ≠ d
  · rw [fresh h]; exact range_map_add_nodup 101 N
  · push_neg at h
    obtain ⟨k, hk, hkd⟩ := h
    have hc : c = some ⟨k.value, d⟩ := by rw [hk, ← hkd]
    rw [same k.value hc]; exact range_map_add_nodup (k.value + 1) N

theorem tokens_consecutive_witness :
    (runTokens none (List.replicate 3 "2024-01-01".toList)).1 = [101, 102, 103] ∧
    (runTokens (some ⟨7, "2024-01-01".toList⟩) (List.replicate 3 "2024-01-01".toList)).1
      = [8, 9, 10] :=
  ⟨(tokens_consecutive none "2024-01-01".toList 3).1 (by simp),
   (tokens_consecutive (some ⟨7, "2024-01-01".toList⟩) "2024-01-01".toList 3).2.1 7 rfl⟩

/-! ## Stock ledger: proofs -/

theorem menuMapGet_mem :
    ∀ (docs : List (Nat × MenuDoc)) (name : Str) (r : Nat × MenuDoc),
      menuMapGet docs name = some r → r ∈ docs ∧ r.2.name = name := by
  intro docs
  induction docs with
  | nil => intro name r h; simp [menuMapGet] at h
  | cons d rest ih =>
    intro name r h
    unfold menuMapGet at h
    cases hrest : menuMapGet rest name with
    | some r0 =>
      rw [hrest] at h
      simp only [Option.some.injEq] at h
      subst h
      exact ⟨List.mem_cons_of_mem _ (ih name r0 hrest).1, (ih name r0 hrest).2⟩
    | none =>
      rw [hrest] at h
      by_cases hd : d.2.name = name
      · simp only [hd, if_true, Option.some.injEq] at h
        subst h
        exact ⟨List.mem_cons_self _ _, hd⟩
      · simp [hd] at h

/-- The map entry of a name is a document of the snapshot, at its own id. -/
theorem menuMapGet_enum (menu : List MenuDoc) (name : Str) (docId : Nat) (m : MenuDoc)
    (h : menuMapGet menu.enum name = some (docId, m)) :
    menu[docId]? = some m ∧ m.name = name := by
  have := menuMapGet_mem menu.enum name (docId, m) h
  exact ⟨List.mem_enum_iff_getElem?.mp this.1, this.2⟩

theorem checkItem_error_iff (menu : List MenuDoc) (it : OrderItem) (e : JsError) :
    checkItem menu it = .error e ↔
      ∃ docId m, menuMapGet menu.enum it.name = some (docId, m) ∧
        m.stock.getD 9999 < (it.qty : Int) ∧
        e = .error (insufficientStockMessage it.name (m.stock.getD 9999)) := by
  unfold checkItem
  cases hl : menuMapGet menu.enum it.name with
  | none => simp
  | some r =>
    obtain ⟨docId, m⟩ := r
    by_cases hlt : m.stock.getD 9999 < (it.qty : Int)
    · simp only [hlt, if_true, Except.error.injEq, Option.some.injEq, Prod.mk.injEq]
      constructor
      · intro h; exact ⟨docId, m, ⟨rfl, rfl⟩, hlt, h.symm⟩
      · rintro ⟨_, _, ⟨rfl, rfl⟩, _, h⟩; exact h.symm
    · simp only [hlt, if_false, Option.some.injEq, Prod.mk.injEq]
      constructor
      · intro h; cases h
      · rintro ⟨_, _, ⟨rfl, rfl⟩, h, _⟩; exact absurd h hlt

theorem checkItem_ok_iff (menu : List MenuDoc) (it : OrderItem) :
    checkItem menu it = .ok () ↔
      ∀ docId m, menuMapGet menu.enum it.name = some (docId, m) →
        (it.qty : Int) ≤ m.stock.getD 9999 := by
  unfold checkItem
  cases hl : menuMapGet menu.enum it.name with
  | none => simp
  | some r =>
    obtain ⟨docId, m⟩ := r
    by_cases hlt : m.stock.getD 9999 < (it.qty : Int)
    · simp only [hlt, if_true, Option.some.injEq, Prod.mk.injEq]
      constructor
      · intro h; cases h
      · intro h; have := h docId m ⟨rfl, rfl⟩; omega
    · simp only [hlt, if_false, Option.some.injEq, Prod.mk.injEq, true_iff]
      rintro _ _ ⟨rfl, rfl⟩; omega

theorem validateStock_ok (menu : List MenuDoc) :
    ∀ items : List OrderItem, validateStock menu items = .ok () →
      ∀ it ∈ items, checkItem menu it = .ok () := by
  intro items
  induction items with
  | nil => intro _ it hit; simp at hit
  | cons it0 rest ih =>
    intro h it hit
    unfold validateStock at h
    cases hc : checkItem menu it0 with
    | error e => rw [hc] at h; cases h
    | ok u =>
      rw [hc] at h
      rcases List.mem_cons.mp hit with rfl | hmem
      · exact hc
      · exact ih h it hmem

theorem validateStock_error_of_short (menu : List MenuDoc) :
    ∀ items : List OrderItem,
      (∃ it ∈ items, ∃ docId m, menuMapGet menu.enum it.name = some (docId, m) ∧
        m.stock.getD 9999 < (it.qty : Int)) →
      ∃ it ∈ items, ∃ docId m, menuMapGet menu.enum it.name = some (docId, m) ∧
        m.stock.getD 9999 < (it.qty : Int) ∧
        validateStock menu items
          = .error (.error (insufficientStockMessage it.name (m.stock.getD 9999))) := by
  intro items
  induction items with
  | nil => rintro ⟨it, hit, _⟩; simp at hit
  | cons it0 rest ih =>
    rintro ⟨it, hit, docId, m, hl, hlt⟩
    unfold validateStock
    cases hc : checkItem menu it0 with
    | error e =>
      obtain ⟨docId0, m0, hl0, hlt0, he⟩ := (checkItem_error_iff menu it0 e).mp hc
      exact ⟨it0, List.mem_cons_self _ _, docId0, m0, hl0, hlt0, by simp [he]⟩
    | ok u =>
      rcases List.mem_cons.mp hit with rfl | hmem
      · have hu : checkItem menu it = .ok () := hc
        have := (checkItem_ok_iff menu it).mp hu docId m hl
        omega
      · obtain ⟨it1, hit1, d1, m1, h1, h2, h3⟩ := ih ⟨it, hmem, docId, m, hl, hlt⟩
        exact ⟨it1, List.mem_cons_of_mem _ hit1, d1, m1, h1, h2, by simpa using h3⟩

theorem updateStock_getElem? (docId : Nat) (n : Int) (live : List MenuDoc) (i : Nat) :
    (updateStock docId n live)[i]? =
      if docId = i then
        live[i]?.map (fun d => { d with stock := some n, isAvailable := some (decide (n > 0)) })
      else live[i]? := by
  unfold updateStock
  rw [List.getElem?_modify]
  by_cases h : docId = i
  · simp [h]
  · cases hl : live[i]? <;> simp [h]

theorem updateStock_nonneg (docId : Nat) (n : Int) (live : List MenuDoc) (hn : 0 ≤ n)
    (h : StockNonneg live) : StockNonneg (updateStock docId n live) := by
  intro m hm stock hs hlt
  obtain ⟨i, hi⟩ := List.mem_iff_getElem?.mp hm
  rw [updateStock_getElem?] at hi
  by_cases hd : docId = i
  · simp only [hd, if_true, Option.map_eq_some'] at hi
    obtain ⟨d, _, rfl⟩ := hi
    simp only [Option.some.injEq] at hs
    omega
  · simp only [hd, if_false] at hi
    exact h m (List.mem_iff_getElem?.mpr ⟨i, hi⟩) stock hs hlt

theorem deductStock_nonneg (menu : List MenuDoc) :
    ∀ (items : List OrderItem) (live : List MenuDoc),
      (∀ it ∈ items, checkItem menu it = .ok ()) → StockNonneg live →
      StockNonneg (deductStock menu items live) := by
  intro items
  induction items with
  | nil => intro live _ h; exact h
  | cons it rest ih =>
    intro live hok h
    have hrest : ∀ it1 ∈ rest, checkItem menu it1 = .ok () :=
      fun it1 h1 => hok it1 (List.mem_cons_of_mem _ h1)
    unfold deductStock
    cases hl : menuMapGet menu.enum it.name with
    | none => exact ih live hrest h
    | some r =>
      obtain ⟨docId, m⟩ := r
      cases hst : m.stock with
      | none => simp only [hst]; exact ih live hrest h
      | some stock =>
        simp only [hst]
        by_cases hlt : stock < 9000
        · simp only [hlt, if_true]
          have := (checkItem_ok_iff menu it).mp (hok it (List.mem_cons_self _ _)) docId m hl
          rw [hst] at this
          simp only [Option.getD_some] at this
          exact ih _ hrest (updateStock_nonneg docId _ live (by omega) h)
        · simp only [hlt, if_false]; exact ih live hrest h

theorem acceptOrder_nonneg (dateStr : Str) (now : Nat) (w : AdminWorld)
    (h : StockNonneg w.db.menu_items) :
    StockNonneg (acceptOrder dateStr now w).1.db.menu_items := by
  unfold acceptOrder
  cases hs : w.currentScan with
  | none => exact h
  | some currentScan =>
    simp only
    cases hv : validateStock w.db.menu_items (itemsForStock currentScan.items) with
    | error e => exact h
    | ok u =>
      cases u
      exact deductStock_nonneg _ _ _ (validateStock_ok _ _ hv) h

/-- A snapshot document that is untracked (stock absent or at least 9000) is never
written by the deduction loop. -/
theorem deductStock_untracked (menu : List MenuDoc) (docId : Nat) (m : MenuDoc)
    (hm : menu[docId]? = some m) (hu : 9000 ≤ m.stock.getD 9999) :
    ∀ (items : List OrderItem) (live : List MenuDoc),
      (deductStock menu items live)[docId]? = live[docId]? := by
  intro items
  induction items with
  | nil => intro live; rfl
  | cons it rest ih =>
    intro live
    unfold deductStock
    cases hl : menuMapGet menu.enum it.name with
    | none => exact ih live
    | some r =>
      obtain ⟨docId1, m1⟩ := r
      cases hst : m1.stock with
      | none => simp only [hst]; exact ih live
      | some stock =>
        simp only [hst]
        by_cases hlt : stock < 9000
        · simp only [hlt, if_true]
          rw [ih, updateStock_getElem?]
          have hne : docId1 ≠ docId := by
            intro heq
            have h1 := (menuMapGet_enum menu it.name docId1 m1 hl).1
            rw [heq, hm] at h1
            simp only [Option.some.injEq] at h1
            rw [h1, hst] at hu
            simp only [Option.getD_some] at hu
            omega
          simp [hne]
        · simp only [hlt, if_false]; exact ih live

theorem menuMapGet_none :
    ∀ (docs : List (Nat × MenuDoc)) (name : Str),
      menuMapGet docs name = none → ∀ d ∈ docs, d.2.name ≠ name := by
  intro docs
  induction docs with
  | nil => intro name _ d hd; simp at hd
  | cons d0 rest ih =>
    intro name h d hd
    unfold menuMapGet at h
    cases hrest : menuMapGet rest name with
    | some r => rw [hrest] at h; cases h
    | none =>
      rw [hrest] at h
      by_cases h0 : d0.2.name = name
      · simp [h0] at h
      · rcases List.mem_cons.mp hd with rfl | hmem
        · exact h0
        · exact ih name hrest d hmem

/-- In a menu where no other document has the name of document `i`, the map entry of
that name is document `i`. -/
theorem menuMapGet_unique (menu : List MenuDoc) (i : Nat) (m : MenuDoc)
    (hm : menu[i]? = some m)
    (hu : ∀ j m1, menu[j]? = some m1 → m1.name = m.name → j = i) :
    menuMapGet menu.enum m.name = some (i, m) := by
  cases h : menuMapGet menu.enum m.name with
  | none =>
    exact absurd rfl
      (menuMapGet_none _ _ h (i, m) (List.mem_enum_iff_getElem?.mpr hm))
  | some r =>
    obtain ⟨j, m1⟩ := r
    obtain ⟨h1, h2⟩ := menuMapGet_enum menu m.name j m1 h
    have hj := hu j m1 h1 h2
    subst hj
    rw [hm] at h1
    simp only [Option.some.injEq] at h1
    rw [h1]

theorem deductStock_cons (menu : List MenuDoc) (it : OrderItem) (rest : List OrderItem)
    (live : List MenuDoc) :
    deductStock menu (it :: rest) live
      = deductStock menu rest
          (match deductTarget menu it with
           | some p => updateStock p.1 p.2 live
           | none => live) := by
  rw [deductStock]
  unfold deductTarget
  cases menuMapGet menu.enum it.name with
  | none => rfl
  | some r =>
    obtain ⟨docId, m⟩ := r
    cases hst : m.stock with
    | none => simp only [hst]
    | some stock =>
      simp only [hst]
      by_cases hlt : stock < 9000 <;> simp only [hlt, if_true, if_false]

theorem updateStock_getElem?_withStock (docId : Nat) (n : Int) (live : List MenuDoc) (i : Nat) :
    (updateStock docId n live)[i]?
      = if docId = i then live[i]?.map (withStock n) else live[i]? :=
  updateStock_getElem? docId n live i

/-- Document `i` after the deduction loop: the live document overwritten with the stock
of the last write aimed at `i`, or the live document itself when no write is. -/
theorem deductStock_getElem? (menu : List MenuDoc) (i : Nat) :
    ∀ (items : List OrderItem) (live : List MenuDoc),
      (deductStock menu items live)[i]? =
        match ((items.filterMap (deductTarget menu)).filter (fun p => p.1 = i)).getLast? with
        | some p => live[i]?.map (withStock p.2)
        | none => live[i]? := by
  intro items
  induction items with
  | nil => intro live; rfl
  | cons it rest ih =>
    intro live
    rw [deductStock_cons, ih]
    cases ht : deductTarget menu it with
    | none => simp only [List.filterMap_cons, ht]
    | some p =>
      obtain ⟨d, n⟩ := p
      simp only [List.filterMap_cons, ht, updateStock_getElem?_withStock]
      by_cases hd : d = i
      · subst hd
        simp only [List.filter_cons, decide_True, if_true]
        cases hl : ((rest.filterMap (deductTarget menu)).filter (fun p => p.1 = d)).getLast? with
        | none =>
          rw [List.getLast?_eq_none_iff] at hl
          simp [hl]
        | some q =>
          rw [List.getLast?_cons, hl]
          simp only [Option.getD_some, Option.map_map]
          congr 1
      · simp only [List.filter_cons, hd, decide_False, if_false, Bool.false_eq_true]

theorem deductTarget_some_iff (menu : List MenuDoc) (it : OrderItem) (p : Nat × Int) :
    deductTarget menu it = some p ↔
      ∃ m stock, menuMapGet menu.enum it.name = some (p.1, m) ∧ m.stock = some stock ∧
        stock < 9000 ∧ p.2 = stock - it.qty := by
  unfold deductTarget
  cases hl : menuMapGet menu.enum it.name with
  | none => simp
  | some r =>
    obtain ⟨docId, m⟩ := r
    simp only [Option.some.injEq, Prod.mk.injEq]
    cases hst : m.stock with
    | none =>
      constructor
      · intro h; cases h
      · rintro ⟨m1, stock, ⟨_, rfl⟩, h, _⟩
        rw [hst] at h; cases h
    | some stock =>
      by_cases hlt : stock < 9000
      · simp only [hlt, if_true, Option.some.injEq]
        constructor
        · rintro rfl
          exact ⟨m, stock, ⟨rfl, rfl⟩, hst, hlt, rfl⟩
        · rintro ⟨m1, s1, ⟨h1, rfl⟩, h2, _, h4⟩
          rw [hst] at h2
          simp only [Option.some.injEq] at h2
          subst h2
          exact Prod.ext h1 h4.symm
      · simp only [hlt, if_false]
        constructor
        · intro h; cases h
        · rintro ⟨m1, s1, ⟨_, rfl⟩, h2, h3, _⟩
          rw [hst] at h2
          simp only [Option.some.injEq] at h2
          omega

/-- X1: the deduction pass on a request that names every item at most once. A menu
document that is the map entry of a requested name and is tracked (stock below 9000)
ends with its snapshot stock minus the requested quantity and `isAvailable` equal to
(new stock > 0), its other fields unchanged; a document that is untracked, or that no
requested name resolves to, is unchanged. A requested name that is not in the menu
writes nothing. -/
theorem deduct_distinct_names (menu : List MenuDoc) (items : List OrderItem)
    (hd : (items.map (fun it => it.name)).Nodup) (i : Nat) (m : MenuDoc)
    (hm : menu[i]? = some m) :
    (∀ it ∈ items, ∀ stock : Int,
      menuMapGet menu.enum it.name = some (i, m) → m.stock = some stock → stock < 9000 →
      (deductStock menu items menu)[i]?
        = some { m with stock := some (stock - it.qty),
                        isAvailable := some (decide (stock - it.qty > 0)) }) ∧
    ((9000 ≤ m.stock.getD 9999 ∨
        ∀ it ∈ items, menuMapGet menu.enum it.name ≠ some (i, m)) →
      (deductStock menu items menu)[i]? = some m) ∧
    (∀ it ∈ items, menuMapGet menu.enum it.name = none → deductTarget menu it = none) := by
  have hW : ∀ p ∈ (items.filterMap (deductTarget menu)).filter (fun p => p.1 = i),
      ∃ it ∈ items, ∃ stock, menuMapGet menu.enum it.name = some (i, m) ∧
        m.stock = some stock ∧ stock < 9000 ∧ p = (i, stock - it.qty) := by
    intro p hp
    obtain ⟨hp1, hp2⟩ := List.mem_filter.mp hp
    obtain ⟨it, hit, htar⟩ := List.mem_filterMap.mp hp1
    obtain ⟨m1, stock, h1, h2, h3, h4⟩ := (deductTarget_some_iff menu it p).mp htar
    have hpi : p.1 = i := by simpa using hp2
    rw [hpi] at h1
    have hmm := (menuMapGet_enum menu it.name i m1 h1).1
    rw [hm] at hmm
    simp only [Option.some.injEq] at hmm
    subst hmm
    exact ⟨it, hit, stock, h1, h2, h3, Prod.ext hpi h4⟩
  refine ⟨?_, ?_, ?_⟩
  · intro it hit stock hl hst hlt
    rw [deductStock_getElem?]
    have hmem : (i, stock - (it.qty : Int))
        ∈ (items.filterMap (deductTarget menu)).filter (fun p => p.1 = i) := by
      refine List.mem_filter.mpr ⟨List.mem_filterMap.mpr ⟨it, hit, ?_⟩, by simp⟩
      exact (deductTarget_some_iff menu it _).mpr ⟨m, stock, hl, hst, hlt, rfl⟩
    cases hlast : ((items.filterMap (deductTarget menu)).filter (fun p => p.1 = i)).getLast? with
    | none =>
      rw [List.getLast?_eq_none_iff] at hlast
      rw [hlast] at hmem
      simp at hmem
    | some q =>
      obtain ⟨it1, hit1, stock1, hl1, hst1, _, hq⟩ :=
        hW q (List.mem_of_getLast?_eq_some hlast)
      have hname : it1.name = it.name := by
        rw [← (menuMapGet_enum menu it1.name i m hl1).2, ← (menuMapGet_enum menu it.name i m hl).2]
      have heq : it1 = it := List.inj_on_of_nodup_map hd hit1 hit hname
      rw [hst] at hst1
      simp only [Option.some.injEq] at hst1
      subst heq hst1
      simp only [hq, hm, Option.map_some', withStock]
  · rintro (hu | hnone)
    · exact (deductStock_untracked menu i m hm hu items menu).trans hm
    · rw [deductStock_getElem?]
      have hnil : (items.filterMap (deductTarget menu)).filter (fun p => p.1 = i) = [] := by
        rw [List.eq_nil_iff_forall_not_mem]
        intro p hp
        obtain ⟨it, hit, _, hl, _⟩ := hW p hp
        exact hnone it hit hl
      simp only [hnil, List.getLast?_nil, hm]
  · intro it _ hl
    unfold deductTarget
    simp only [hl]

theorem deduct_distinct_names_witness :
    (deductStock [teaDoc 5] (itemsForStock teaScan.items) [teaDoc 5])[0]?
      = some ⟨"Tea".toList, some 3, some true⟩ :=
  (deduct_distinct_names [teaDoc 5] (itemsForStock teaScan.items) (by decide) 0 (teaDoc 5)
    rfl).1 ⟨"Tea".toList, 2⟩ (by decide) 5 (by decide) rfl (by decide)

/-- C4 at the failing input: Tea is on the menu with stock 5 and the scanned text asks
for Tea on two lines, three units each, six units in all. Each line passes the test
against the full stock, so `acceptOrder` does not fail: it assigns token 101, leaves
Tea with stock 2 and records six units of Tea in the paid order. -/
theorem split_request_accepted :
    (onScanSuccess splitTeaPayload).toOption.map
        (fun s => qtyOf "Tea".toList (itemsForStock s.items)) = some 6 ∧
    (acceptOrder day1 0 (scan splitTeaPayload (teaWorld 5))).2 = .accepted 101 ∧
    (acceptOrder day1 0 (scan splitTeaPayload (teaWorld 5))).1.db.menu_items
      = [⟨"Tea".toList, some 2, some true⟩] ∧
    (acceptOrder day1 0 (scan splitTeaPayload (teaWorld 5))).1.db.orders.map
        (fun o => (o.status, o.token, o.items_list))
      = [(.paid, some 101, some (List.replicate 6 "Tea".toList))] := by
  decide

/-- X4: when some entry of the request list asks for more units than the stock of the
menu document its name resolves to (the last document of that name; an absent stock
counts as 9999), `acceptOrder` ends in the error with the message
`Insufficient stock for <name>. Available: <stock>` of such an entry, and the whole
state is as before: menu stock and flags, the token counter, the orders, and the
current scan. -/
theorem accept_insufficient_stock_atomic (dateStr : Str) (now : Nat) (w : AdminWorld)
    (currentScan : Scan) (hs : w.currentScan = some currentScan)
    (h : ∃ it ∈ itemsForStock currentScan.items, ∃ docId m,
      menuMapGet w.db.menu_items.enum it.name = some (docId, m) ∧
      m.stock.getD 9999 < (it.qty : Int)) :
    ∃ it ∈ itemsForStock currentScan.items, ∃ docId m,
      menuMapGet w.db.menu_items.enum it.name = some (docId, m) ∧
      m.stock.getD 9999 < (it.qty : Int) ∧
      acceptOrder dateStr now w
        = (w, .failed (.error ("Insufficient stock for ".toList ++ it.name
            ++ ". Available: ".toList ++ intToString (m.stock.getD 9999)))) := by
  obtain ⟨it, hit, docId, m, hl, hlt, hv⟩ := validateStock_error_of_short _ _ h
  refine ⟨it, hit, docId, m, hl, hlt, ?_⟩
  unfold acceptOrder
  simp only [hs, hv]
  rfl

theorem accept_insufficient_stock_atomic_witness :
    (∃ it ∈ itemsForStock teaScan.items, ∃ docId m,
      menuMapGet (scan teaPayload (teaWorld 1)).db.menu_items.enum it.name = some (docId, m) ∧
      m.stock.getD 9999 < (it.qty : Int) ∧
      acceptOrder day1 0 (scan teaPayload (teaWorld 1))
        = (scan teaPayload (teaWorld 1),
           .failed (.error ("Insufficient stock for ".toList ++ it.name
            ++ ". Available: ".toList ++ intToString (m.stock.getD 9999))))) ∧
    acceptOrder day1 0 (scan teaPayload (teaWorld 1))
      = (scan teaPayload (teaWorld 1),
         .failed (.error "Insufficient stock for Tea. Available: 1".toList)) :=
  ⟨accept_insufficient_stock_atomic day1 0 (scan teaPayload (teaWorld 1)) teaScan (by decide)
    ⟨⟨"Tea".toList, 2⟩, by decide, 0, teaDoc 1, by decide, by decide⟩, by decide⟩

/-- C5: from any menu whose tracked items (stock below 9000) all have a stock of at
least zero, after any sequence of scans, scanner resets and `acceptOrder` calls, each
run to completion before the next, every tracked item still has a stock of at least
zero; the scanned texts are arbitrary, so request lists may name an item repeatedly. -/
theorem stock_nonneg_invariant (events : List AdminEvent) :
    ∀ w : AdminWorld, StockNonneg w.db.menu_items →
      StockNonneg (runAdmin events w).db.menu_items := by
  induction events with
  | nil => intro w h; exact h
  | cons e rest ih =>
    intro w h
    show StockNonneg (runAdmin rest (adminStep w e)).db.menu_items
    apply ih
    cases e with
    | scan decodedText =>
      show StockNonneg (scan decodedText w).db.menu_items
      unfold scan
      cases onScanSuccess decodedText <;> exact h
    | accept dateStr now => exact acceptOrder_nonneg dateStr now w h
    | resetScanner => exact h

theorem stock_nonneg_invariant_witness :
    StockNonneg
      (runAdmin [.scan twoTeaLinesPayload, .accept day1 0, .scan teaPayload, .accept day1 1]
        (teaWorld 5)).db.menu_items :=
  stock_nonneg_invariant _ (teaWorld 5) (by
    intro m hm stock hst _
    have : m = teaDoc 5 := by simpa [teaWorld] using hm
    subst this
    have : stock = 5 := by simpa [teaDoc] using hst.symm
    omega)

/-- C6 at the failing input: the request names Tea on two lines (one unit each) and
the menu holds Tea with stock 5; the order is accepted and the stock left is 4, the
snapshot stock minus the quantity of the last of the two entries, not 5 - 2 = 3. -/
theorem deduct_repeated_name_uses_snapshot :
    (scan twoTeaLinesPayload (teaWorld 5)).currentScan.map (fun s => itemsForStock s.items)
      = some [⟨"Tea".toList, 1⟩, ⟨"Tea".toList, 1⟩] ∧
    (acceptOrder day1 0 (scan twoTeaLinesPayload (teaWorld 5))).2 = .accepted 101 ∧
    (acceptOrder day1 0 (scan twoTeaLinesPayload (teaWorld 5))).1.db.menu_items
      = [⟨"Tea".toList, some 4, some true⟩] := by
  decide

/-- C7 as stated fails: Tea has stock 9000 (untracked) and the request asks for 9001;
validation rejects the request on account of Tea. -/
theorem untracked_item_rejected :
    (teaDoc 9000).stock = some 9000 ∧
    (scan bulkTeaPayload (teaWorld 9000)).currentScan.map (fun s => itemsForStock s.items)
      = some [⟨"Tea".toList, 9001⟩] ∧
    acceptOrder day1 0 (scan bulkTeaPayload (teaWorld 9000))
      = (scan bulkTeaPayload (teaWorld 9000),
         .failed (.error (insufficientStockMessage "Tea".toList 9000))) := by
  decide

/-- C7 (amended): for a menu item whose stock is at or above 9000 (an absent stock
counts as 9999), the validation loop rejects a request entry for it exactly when the
requested quantity exceeds that stock, so never for a quantity of at most 9000; and
`acceptOrder` never changes the item, whatever is requested. -/
theorem untracked_item_checked_not_deducted (w : AdminWorld) (docId : Nat) (m : MenuDoc)
    (hm : w.db.menu_items[docId]? = some m) (hu : 9000 ≤ m.stock.getD 9999) :
    (∀ it : OrderItem, menuMapGet w.db.menu_items.enum it.name = some (docId, m) →
      ((checkItem w.db.menu_items it = .ok () ↔ (it.qty : Int) ≤ m.stock.getD 9999) ∧
       (it.qty ≤ 9000 → checkItem w.db.menu_items it = .ok ()))) ∧
    (∀ (dateStr : Str) (now : Nat),
      (acceptOrder dateStr now w).1.db.menu_items[docId]? = some m) := by
  constructor
  · intro it hl
    have hiff : checkItem w.db.menu_items it = .ok () ↔ (it.qty : Int) ≤ m.stock.getD 9999 := by
      rw [checkItem_ok_iff]
      constructor
      · intro h; exact h docId m hl
      · intro h d1 m1 h1
        rw [hl] at h1
        simp only [Option.some.injEq, Prod.mk.injEq] at h1
        rw [← h1.2]; exact h
    exact ⟨hiff, fun hq => hiff.mpr (by omega)⟩
  · intro dateStr now
    unfold acceptOrder
    cases hs : w.currentScan with
    | none => exact hm
    | some currentScan =>
      simp only
      cases hv : validateStock w.db.menu_items (itemsForStock currentScan.items) with
      | error e => exact hm
      | ok u =>
        simp only
        rw [deductStock_untracked _ docId m hm hu]
        exact hm

theorem untracked_item_checked_not_deducted_witness :
    (acceptOrder day1 0 (scan teaPayload (teaWorld 9000))).1.db.menu_items[0]?
      = some (teaDoc 9000) :=
  (untracked_item_checked_not_deducted (scan teaPayload (teaWorld 9000)) 0 (teaDoc 9000)
    (by decide) (by decide)).2 day1 0

/-! ## Decoding, kitchen actions, repeated accept -/

/-- X2: a text none of whose lines includes `TOTAL:` decodes without an exception, to
the amount 0. -/
theorem onScanSuccess_no_total (decodedText : Str)
    (h : ∀ line ∈ splitLines decodedText, includes line totalMarker = false) :
    ∃ s, onScanSuccess decodedText = .ok s ∧ s.amount = 0 := by
  have hf : (splitLines decodedText).find? (fun line => includes line totalMarker) = none := by
    rw [List.find?_eq_none]
    intro line hl
    simp [h line hl]
  unfold onScanSuccess
  simp only [scanAmount, hf]
  exact ⟨_, rfl, rfl⟩

theorem onScanSuccess_no_total_witness :
    ∃ s, onScanSuccess "REF: 7\n----\nTea".toList = .ok s ∧ s.amount = 0 :=
  onScanSuccess_no_total "REF: 7\n----\nTea".toList (by decide)

/-- C8 at the failing input: the total line `TOTAL: Rs35` has no `₹` followed by a
digit, `match` returns `null`, and `onScanSuccess` raises a TypeError instead of
decoding the amount as 0; the scanner state is left as it was. -/
theorem malformed_total_raises :
    onScanSuccess malformedTotalPayload = .error .typeError ∧
    scan malformedTotalPayload (teaWorld 5) = teaWorld 5 := by
  decide

/-- C9 as stated fails: `markReady` on a pending order is not rejected, the order
becomes ready. -/
theorem markReady_pending_not_rejected :
    ¬ (∀ (now orderId : Nat) (kitchen : List (Nat × OrderDoc)) (db : Store) (o : OrderDoc),
        db.orders[orderId]? = some o → o.status = .pending →
        ((markReady now orderId kitchen db).2.orders[orderId]?).map (fun x => x.status)
          = some .pending) := by
  intro h
  have := h 9 0 [] ⟨[], none, [pendingOrder]⟩ pendingOrder (by decide) (by decide)
  revert this
  decide

theorem updateOrder_getElem? (orderId : Nat) (f : OrderDoc → OrderDoc)
    (orders : List OrderDoc) (o : OrderDoc) (h : orders[orderId]? = some o) :
    ∃ l, updateOrder orderId f orders = some l ∧ l[orderId]? = some (f o) ∧
      ∀ j, j ≠ orderId → l[j]? = orders[j]? := by
  have hlt : orderId < orders.length := by
    by_contra hge
    rw [List.getElem?_eq_none (by omega)] at h
    cases h
  refine ⟨orders.modify f orderId, by simp [updateOrder, hlt], ?_, ?_⟩
  · rw [List.getElem?_modify_eq, h]; rfl
  · intro j hj
    exact List.getElem?_modify_ne f orders (Ne.symm hj)

/-- C9 (amended): `startOrder` and `markReady` check no status. Applied to any existing
order, whatever its status, `startOrder` sets the status to preparing (stamping
`started_at`) and `markReady` sets it to ready (stamping `completed_at`); the other
orders are untouched. The order of transitions is kept only by the kitchen card, which
offers `startOrder` exactly on a paid order and `markReady` on any other. -/
theorem kitchen_actions_unconditional (now orderId : Nat) (kitchen : List (Nat × OrderDoc))
    (db : Store) (o : OrderDoc) (h : db.orders[orderId]? = some o) :
    (startOrder now orderId db).orders[orderId]?
      = some { o with status := .preparing, started_at := some now } ∧
    (markReady now orderId kitchen db).2.orders[orderId]?
      = some { o with status := .ready, completed_at := some now } ∧
    (∀ j, j ≠ orderId →
      (startOrder now orderId db).orders[j]? = db.orders[j]? ∧
      (markReady now orderId kitchen db).2.orders[j]? = db.orders[j]?) ∧
    (cardAction o = .startOrder ↔ o.status = .paid) := by
  obtain ⟨l1, h1, h2, h3⟩ := updateOrder_getElem? orderId
    (fun o => { o with status := .preparing, started_at := some now }) db.orders o h
  obtain ⟨l2, k1, k2, k3⟩ := updateOrder_getElem? orderId
    (fun o => { o with status := .ready, completed_at := some now }) db.orders o h
  refine ⟨?_, ?_, ?_, ?_⟩
  · simp only [startOrder, h1]; exact h2
  · simp only [markReady, k1]; exact k2
  · intro j hj
    constructor
    · simp only [startOrder, h1]; exact h3 j hj
    · simp only [markReady, k1]; exact k3 j hj
  · unfold cardAction
    by_cases hp : o.status = .paid <;> simp [hp]

theorem kitchen_actions_unconditional_witness :
    (startOrder 7 0 ⟨[], none, [pendingOrder]⟩).orders[0]?
      = some { pendingOrder with status := .preparing, started_at := some 7 } ∧
    (markReady 7 0 [] ⟨[], none, [pendingOrder]⟩).2.orders[0]?
      = some { pendingOrder with status := .ready, completed_at := some 7 } :=
  ⟨(kitchen_actions_unconditional 7 0 [] ⟨[], none, [pendingOrder]⟩ pendingOrder rfl).1,
   (kitchen_actions_unconditional 7 0 [] ⟨[], none, [pendingOrder]⟩ pendingOrder rfl).2.1⟩

/-- C10 as stated fails: scanning and accepting the payload of an accepted order once
more advances the counter again and deducts the stock again. -/
theorem rescan_accept_repeats :
    ¬ (∀ (decodedText dateStr : Str) (now : Nat) (w : AdminWorld) (tok : Int),
        (acceptOrder dateStr now (scan decodedText w)).2 = .accepted tok →
        (acceptOrder dateStr now
            (scan decodedText (acceptOrder dateStr now (scan decodedText w)).1)).1.db.counter
          = (acceptOrder dateStr now (scan decodedText w)).1.db.counter ∧
        (acceptOrder dateStr now
            (scan decodedText (acceptOrder dateStr now (scan decodedText w)).1)).1.db.menu_items
          = (acceptOrder dateStr now (scan decodedText w)).1.db.menu_items) := by
  intro h
  have := (h teaPayload day1 0 (teaWorld 5) 101 (by decide)).1
  revert this
  decide

/-- C10 (amended): a successful `acceptOrder` clears the current scan, so calling
`acceptOrder` again without a new scan does nothing: no token is assigned, the counter,
the stock and the orders stay as they are. Nothing ties an accept to the order id:
scanning a payload again (the same one or another) and accepting it on the same date is
handled as a new order. It goes through stock validation against the menu as it is
now; when that fails the state is kept with the scan, and when it passes the order is
given the next token, the stock is deducted again and another paid record is added. -/
theorem accept_once_per_scan (dateStr : Str) (now : Nat) (w w1 : AdminWorld) (tok : Int)
    (h : acceptOrder dateStr now w = (w1, .accepted tok)) :
    (∀ (dateStr2 : Str) (now2 : Nat), acceptOrder dateStr2 now2 w1 = (w1, .noScan)) ∧
    (∀ (decodedText : Str) (now2 : Nat) (s : Scan), onScanSuccess decodedText = .ok s →
      (∀ e, validateStock w1.db.menu_items (itemsForStock s.items) = .error e →
        acceptOrder dateStr now2 (scan decodedText w1) = (scan decodedText w1, .failed e)) ∧
      (validateStock w1.db.menu_items (itemsForStock s.items) = .ok () →
        acceptOrder dateStr now2 (scan decodedText w1)
          = ({ currentScan := none,
               db := { menu_items :=
                         deductStock w1.db.menu_items (itemsForStock s.items) w1.db.menu_items,
                       counter := some ⟨tok + 1, dateStr⟩,
                       orders := w1.db.orders ++
                         [{ order_id := s.orderRef, amount := some s.amount,
                            raw_text := some s.rawText,
                            items_list := some (analyticsList (itemsForStock s.items)),
                            status := .paid, token := some (tok + 1), timestamp := some now2,
                            started_at := none, completed_at := none }] } },
             .accepted (tok + 1)))) := by
  unfold acceptOrder at h
  cases hs : w.currentScan with
  | none => rw [hs] at h; simp at h
  | some currentScan =>
    rw [hs] at h
    simp only at h
    cases hv : validateStock w.db.menu_items (itemsForStock currentScan.items) with
    | error e => rw [hv] at h; simp at h
    | ok u =>
      rw [hv] at h
      simp only [Prod.mk.injEq, AcceptResult.accepted.injEq] at h
      obtain ⟨hw, htok⟩ := h
      subst hw
      constructor
      · intro dateStr2 now2
        rfl
      · intro decodedText now2 s hsc
        have hcounter : generateTokenNumber dateStr
            (some (generateTokenNumber dateStr w.db.counter).2)
            = (tok + 1, ⟨tok + 1, dateStr⟩) := by
          rw [← htok]
          simp [generateTokenNumber]
        constructor
        · intro e he
          simp only [scan, hsc]
          unfold acceptOrder
          simp only [he]
        · intro hok
          simp only [scan, hsc]
          unfold acceptOrder
          simp only [hok, hcounter]

theorem accept_once_per_scan_witness :
    acceptOrder day1 1 (acceptOrder day1 0 (scan teaPayload (teaWorld 5))).1
      = ((acceptOrder day1 0 (scan teaPayload (teaWorld 5))).1, .noScan) ∧
    acceptOrder day1 1 (scan teaPayload (acceptOrder day1 0 (scan teaPayload (teaWorld 5))).1)
      = ({ currentScan := none,
           db := { menu_items := [⟨"Tea".toList, some 1, some true⟩],
                   counter := some ⟨102, day1⟩,
                   orders :=
                     [{ order_id := "120501-7".toList, amount := some 35,
                        raw_text := some teaPayload,
                        items_list := some ["Tea".toList, "Tea".toList, "Samosa".toList],
                        status := .paid, token := some 101, timestamp := some 0,
                        started_at := none, completed_at := none },
                      { order_id := "120501-7".toList, amount := some 35,
                        raw_text := some teaPayload,
                        items_list := some ["Tea".toList, "Tea".toList, "Samosa".toList],
                        status := .paid, token := some 102, timestamp := some 1,
                        started_at := none, completed_at := none }] } },
         .accepted 102) :=
  ⟨(accept_once_per_scan day1 0 (scan teaPayload (teaWorld 5))
      (acceptOrder day1 0 (scan teaPayload (teaWorld 5))).1 101 (by decide)).1 day1 1,
   ((accept_once_per_scan day1 0 (scan teaPayload (teaWorld 5))
      (acceptOrder day1 0 (scan teaPayload (teaWorld 5))).1 101 (by decide)).2
        teaPayload 1 teaScan (by decide)).2 (by decide)⟩

/-! ## Round trip of the payload codec -/

/-- A name made of characters that are neither white space, line terminators, `-` nor
`:` is well formed, unless it is an inherited property name. -/
theorem wellFormedName_of_plain (name : Str) (h1 : name ≠ [])
    (h2 : ∀ c ∈ name, isLineTerminator c = false ∧ isWhiteSpace c = false ∧ c ≠ '-' ∧ c ≠ ':')
    (h3 : name ∉ objectPrototypeKeys) : WellFormedName name := by
  refine ⟨h1, fun c hc => (h2 c hc).1, ?_, ?_, ?_, ?_, ?_, h3⟩
  · intro c hc
    exact (h2 c (List.mem_of_mem_head? hc)).2.1
  · intro c hc
    exact (h2 c (List.mem_of_getLast?_eq_some hc)).2.1
  · intro hin
    exact (h2 '-' (hin.subset (by decide))).2.2.1 rfl
  · intro hin
    exact (h2 ':' (hin.subset (by decide))).2.2.2 rfl
  · rintro ⟨pre, ds, h, _⟩
    have hmem : ' ' ∈ name := by rw [h]; simp
    have := (h2 ' ' hmem).2.1
    revert this; decide

/-- C1 as stated fails: the cart holds one unit of an item named `Dosa x2`; its line
in the payload is `Dosa x2`, which decodes to the name `Dosa` with quantity 2, so the
decoded quantity for the name `Dosa x2` is 0 and not 1. -/
theorem round_trip_fails_on_suffix_name :
    ¬ (∀ (orderId : Str) (cart : List CartItem),
        ∃ s, onScanSuccess (qrData orderId cart) = .ok s ∧
          s.amount = (cart.map (fun item => item.price)).sum ∧
          ∀ name, qtyOf name (itemsForStock s.items)
            = (cart.filter (fun item => item.name = name)).length) := by
  intro h
  obtain ⟨s, hs, _, hq⟩ := h "120501-7".toList dosaCart
  have e : onScanSuccess (qrData "120501-7".toList dosaCart)
      = .ok ⟨"120501-7".toList, 40, ["Dosa x2".toList], qrData "120501-7".toList dosaCart⟩ := by
    decide
  rw [e] at hs
  simp only [Except.ok.injEq] at hs
  subst hs
  have := hq "Dosa x2".toList
  revert this
  decide

/-- C1 (amended): for every cart of fewer than 2^32 items whose item names are well
formed and whose prices sum to at most 2^53, and every order id without a line feed and
without `TOTAL:`, decoding (`onScanSuccess`, then the item parsing of `acceptOrder`) the
payload text that `handleCheckout` builds succeeds, gives an amount equal to the sum of
the cart's prices, and gives every name a quantity equal to the number of cart entries
with that name. -/
theorem payload_round_trip (orderId : Str) (cart : List CartItem)
    (hid1 : '\n' ∉ orderId) (hid2 : ¬ totalMarker <:+: orderId)
    (hnames : ∀ item ∈ cart, WellFormedName item.name)
    (hlen : cart.length < 4294967296)
    (hsum : (cart.map (fun item => item.price)).sum ≤ 9007199254740992) :
    ∃ s, onScanSuccess (qrData orderId cart) = .ok s ∧
      s.amount = (cart.map (fun item => item.price)).sum ∧
      ∀ name, qtyOf name (itemsForStock s.items)
        = (cart.filter (fun item => item.name = name)).length := by
  have hfold := fun name => itemCounts_fold name WellFormedName cart []
    (fun item hi => ⟨(hnames item hi).2.2.2.2.2.2.2, hnames item hi⟩) (by simp)
  have hkeys : ∀ e ∈ objectKeys (itemCounts cart), 1 ≤ e.count ∧ WellFormedName e.name :=
    fun e he => (hfold []).2 e ((objectKeys_perm _).subset he)
  have hcount : ∀ e ∈ objectKeys (itemCounts cart), e.count ≤ 9007199254740992 := by
    intro e he
    have := itemCounts_count_le cart e ((objectKeys_perm _).subset he)
    omega
  have htotal : cartTotal cart ≤ 9007199254740992 := by
    rw [cartTotal_eq_sum cart hsum]
    exact hsum
  have hfacts := fun e he => displayLine_facts e (hkeys e he).2 (hkeys e he).1 (hcount e he)
  have hlines := qrData_lines orderId cart hid1 htotal (fun e he => (hfacts e he).1)
  have hds : ∀ d ∈ (objectKeys (itemCounts cart)).map displayLine,
      includes d totalMarker = false ∧ includes d dashes3 = false ∧ trim d = d ∧ d ≠ [] := by
    intro d hd
    obtain ⟨e, he, rfl⟩ := List.mem_map.mp hd
    obtain ⟨_, h2, h3, h4, h5, _⟩ := hfacts e he
    exact ⟨h2, h3, h4, h5⟩
  have hamount := scanAmount_payload orderId (cartTotal cart) ["[VERIFIED]".toList]
    ((objectKeys (itemCounts cart)).map displayLine) htotal hid2 (fun d hd => (hds d hd).1)
  have hitems := scanItems_payload orderId ([' ', '₹'] ++ numberToString (cartTotal cart))
    ["[VERIFIED]".toList] ((objectKeys (itemCounts cart)).map displayLine) hid2 hds
  rw [← List.append_assoc] at hitems
  refine ⟨⟨trim (replaceFirst refLabel [] ((splitLines (qrData orderId cart)).headD [])),
    cartTotal cart, (objectKeys (itemCounts cart)).map displayLine, qrData orderId cart⟩,
    ?_, cartTotal_eq_sum cart hsum, ?_⟩
  · unfold onScanSuccess
    simp only [hlines, hamount, hitems]
  · intro name
    have hparse : itemsForStock ((objectKeys (itemCounts cart)).map displayLine)
        = (objectKeys (itemCounts cart)).map (fun e => ⟨e.name, e.count⟩) := by
      unfold itemsForStock
      rw [List.map_map]
      apply List.map_congr_left
      intro e he
      exact (hfacts e he).2.2.2.2.2
    show qtyOf name (itemsForStock ((objectKeys (itemCounts cart)).map displayLine)) = _
    rw [hparse, qtyOf_perm name _ _ ((objectKeys_perm (itemCounts cart)).map _)]
    have := (hfold name).1
    simpa [qtyOf_nil] using this

theorem payload_round_trip_witness :
    ∃ s, onScanSuccess (qrData "120501-7".toList teaCart) = .ok s ∧
      s.amount = (teaCart.map (fun item => item.price)).sum ∧
      ∀ name, qtyOf name (itemsForStock s.items)
        = (teaCart.filter (fun item => item.name = name)).length :=
  payload_round_trip "120501-7".toList teaCart (by decide) (by decide) (by
    intro item hi
    apply wellFormedName_of_plain
    · revert item; decide
    · revert item; decide
    · revert item; decide) (by decide) (by decide)

set_option maxRecDepth 100000 in
/-- X5: beyond the exact range the total follows Number semantics. A cart with one item
priced at 10^21 gives the total line `TOTAL: ₹1e+21`, which decodes to the amount 1; a
cart with the prices 2^53 and 1 has the total 2^53. -/
theorem total_beyond_exact_range :
    qrData "120501-7".toList goldCart
      = "REF: 120501-7\n----------------\nGold\n----------------\nTOTAL: ₹1e+21\n[VERIFIED]".toList ∧
    (onScanSuccess (qrData "120501-7".toList goldCart)).toOption.map (fun s => s.amount)
      = some 1 ∧
    cartTotal roundedCart = 9007199254740992 := by
  decide

/-! ## Token sequencer: definition and reset -/

theorem runTokens_replicate_counter (day : Str) :
    ∀ (n : Nat) (c : Option Counter),
      ∃ v, (runTokens c (List.replicate (n + 1) day)).2 = some ⟨v, day⟩ := by
  intro n
  induction n with
  | zero => intro c; exact ⟨(generateTokenNumber day c).1, rfl⟩
  | succ n ih =>
    intro c
    obtain ⟨v, hv⟩ := ih (some (generateTokenNumber day c).2)
    exact ⟨v, hv⟩

/-- C16: `generateTokenNumber` for date `d` returns 101 when there is no counter
document or the stored one is of another date, and the stored value plus 1 when the
stored counter is of `d`; it stores the returned value with `d`. So the first call for
a date `d` after one or more calls for another date `day1` returns 101, whatever the
last value of `day1` was. -/
theorem token_sequencer_definition (c : Option Counter) (d : Str) :
    ((∀ k, c = some k → k.date ≠ d) → generateTokenNumber d c = (101, ⟨101, d⟩)) ∧
    (∀ v : Int, c = some ⟨v, d⟩ → generateTokenNumber d c = (v + 1, ⟨v + 1, d⟩)) ∧
    (generateTokenNumber d c).2 = ⟨(generateTokenNumber d c).1, d⟩ ∧
    (∀ (day1 : Str) (n : Nat), day1 ≠ d →
      (generateTokenNumber d (runTokens c (List.replicate (n + 1) day1)).2).1 = 101) := by
  refine ⟨generateTokenNumber_fresh c d, ?_, rfl, ?_⟩
  · intro v hv
    rw [hv, generateTokenNumber_same]
  · intro day1 n hne
    obtain ⟨v, hv⟩ := runTokens_replicate_counter day1 n c
    rw [hv, generateTokenNumber_fresh _ d (by
      intro k hk
      simp only [Option.some.injEq] at hk
      rw [← hk]; exact hne)]

theorem token_sequencer_definition_witness :
    generateTokenNumber day1 none = (101, ⟨101, day1⟩) ∧
    generateTokenNumber day1 (some ⟨140, day1⟩) = (141, ⟨141, day1⟩) ∧
    (generateTokenNumber "2024-01-02".toList
      (runTokens (some ⟨140, day1⟩) (List.replicate 3 day1)).2).1 = 101 :=
  ⟨(token_sequencer_definition none day1).1 (by simp),
   (token_sequencer_definition (some ⟨140, day1⟩) day1).2.1 140 rfl,
   (token_sequencer_definition (some ⟨140, day1⟩) "2024-01-02".toList).2.2.2 day1 2
     (by decide)⟩

/-! ## Kitchen queue -/

theorem compareOrders_le_iff (a b : OrderDoc) :
    compareOrders a b ≤ 0 ↔
      (b.status = .paid → a.status = .paid) ∧
      ((a.status = .paid ↔ b.status = .paid) → a.timestamp.getD 0 ≤ b.timestamp.getD 0) := by
  unfold compareOrders
  by_cases ha : a.status = .paid <;> by_cases hb : b.status = .paid <;>
    simp [ha, hb]

theorem compareOrders_total (a b : OrderDoc) :
    compareOrders a b ≤ 0 ∨ compareOrders b a ≤ 0 := by
  rw [compareOrders_le_iff, compareOrders_le_iff]
  by_cases ha : a.status = .paid <;> by_cases hb : b.status = .paid <;>
    simp [ha, hb] <;> omega

theorem compareOrders_trans (a b c : OrderDoc) (h1 : compareOrders a b ≤ 0)
    (h2 : compareOrders b c ≤ 0) : compareOrders a c ≤ 0 := by
  rw [compareOrders_le_iff] at h1 h2 ⊢
  by_cases ha : a.status = .paid <;> by_cases hb : b.status = .paid <;>
    by_cases hc : c.status = .paid <;> simp [ha, hb, hc] at h1 h2 ⊢ <;> omega

theorem renderOrders_sorted (kitchen : List (Nat × OrderDoc)) :
    (renderOrders kitchen).Sorted (fun a b => compareOrders a b ≤ 0) := by
  haveI : IsTotal OrderDoc (fun a b => compareOrders a b ≤ 0) := ⟨compareOrders_total⟩
  haveI : IsTrans OrderDoc (fun a b => compareOrders a b ≤ 0) := ⟨compareOrders_trans⟩
  exact List.sorted_insertionSort _ _

/-- C18: the sequence `renderOrders` displays is a permutation of the orders held in
the kitchen state; of any two displayed orders the earlier one is paid whenever the
later one is (so every paid order comes before every order that is not paid, such as
a preparing one), and when both are in the same group the earlier one has the smaller
or equal creation timestamp, an absent timestamp counting as 0. -/
theorem kitchen_queue_order (kitchen : List (Nat × OrderDoc)) :
    (renderOrders kitchen).Perm (kitchen.map (fun p => p.2)) ∧
    (renderOrders kitchen).Pairwise (fun a b =>
      (b.status = .paid → a.status = .paid) ∧
      ¬ (a.status = .preparing ∧ b.status = .paid) ∧
      ((a.status = .paid ↔ b.status = .paid) →
        a.timestamp.getD 0 ≤ b.timestamp.getD 0)) := by
  refine ⟨List.perm_insertionSort _ _, ?_⟩
  refine (renderOrders_sorted kitchen).imp ?_
  intro a b h
  obtain ⟨h1, h2⟩ := (compareOrders_le_iff a b).mp h
  refine ⟨h1, ?_, h2⟩
  rintro ⟨hp, hb⟩
  have := h1 hb
  rw [hp] at this
  cases this

/-- C19 as stated fails: the display order of A, B, C is not [A, C, B]. -/
theorem queue_scenario_not_A_C_B :
    renderOrders [(0, orderA), (1, orderB), (2, orderC)] ≠ [orderA, orderC, orderB] := by
  decide

/-- C19 (amended): for the orders A (paid, created 10:00), B (preparing, created 09:50)
and C (paid, created 09:55), held in the kitchen map in any order, the sort of
`renderOrders` produces [C, A, B]: the paid orders first, C before A because C was
created earlier, then the preparing order B. -/
theorem queue_scenario_C_A_B (l : List OrderDoc) (h : l.Perm [orderA, orderB, orderC]) :
    renderOrders l.enum = [orderC, orderA, orderB] := by
  have hlen := h.length_eq
  have hnd : l.Nodup := h.nodup_iff.mpr (by decide)
  match l, hlen, h, hnd with
  | [x, y, z], _, h, hnd =>
    have hx : x ∈ [orderA, orderB, orderC] := h.subset (by simp)
    have hy : y ∈ [orderA, orderB, orderC] := h.subset (by simp)
    have hz : z ∈ [orderA, orderB, orderC] := h.subset (by simp)
    simp only [List.mem_cons, List.mem_singleton, List.not_mem_nil, or_false] at hx hy hz
    rcases hx with rfl | rfl | rfl <;> rcases hy with rfl | rfl | rfl <;>
      rcases hz with rfl | rfl | rfl <;>
      first
      | decide
      | (exfalso; revert hnd; decide)

theorem queue_scenario_C_A_B_witness :
    renderOrders [(0, orderA), (1, orderB), (2, orderC)] = [orderC, orderA, orderB] :=
  queue_scenario_C_A_B [orderA, orderB, orderC] (List.Perm.refl _)

/-! ## Urgent flag -/

theorem isUrgent_iff (now : Int) (order : OrderDoc) :
    isUrgent now order = true ↔
      order.status = .paid ∧ ∃ millis : Nat, order.timestamp = some millis ∧
        now - (millis : Int) ≥ 960000 := by
  unfold isUrgent elapsedMinutes
  cases ht : order.timestamp with
  | none => simp
  | some millis =>
    simp only [Bool.and_eq_true, decide_eq_true_eq, Option.some.injEq, exists_eq_left']
    constructor
    · rintro ⟨h1, h2⟩
      exact ⟨h2, by omega⟩
    · rintro ⟨h1, h2⟩
      exact ⟨by omega, h1⟩

/-- C20 as stated fails: a paid order aged 15 minutes and 30 seconds (930000 ms, more
than 15 * 60 * 1000) is not flagged. -/
theorem urgent_not_flagged_before_16_minutes :
    ¬ (∀ (now : Int) (order : OrderDoc) (millis : Nat),
        order.status = .paid → order.timestamp = some millis →
        now - (millis : Int) > 15 * 60 * 1000 → isUrgent now order = true) := by
  intro h
  have := h 930000 (queueOrder "A" .paid 0) 0 rfl rfl (by decide)
  revert this
  decide

/-- C20 (amended): `createOrderCard` flags an order URGENT exactly when its status is
paid and the whole minutes elapsed since its creation exceed 15, that is when the age
(current time minus creation time, in milliseconds) is at least 16 * 60 * 1000; it
never flags an order whose status is not paid, whose age is below 16 minutes (in
particular at most 15 minutes), or that has no timestamp. -/
theorem urgent_flag (now : Int) (order : OrderDoc) :
    (isUrgent now order = true ↔
      order.status = .paid ∧ ∃ millis : Nat, order.timestamp = some millis ∧
        now - (millis : Int) ≥ 16 * 60 * 1000) ∧
    (order.status ≠ .paid → isUrgent now order = false) ∧
    (∀ millis : Nat, order.timestamp = some millis →
      now - (millis : Int) ≤ 15 * 60 * 1000 → isUrgent now order = false) ∧
    (order.timestamp = none → isUrgent now order = false) := by
  have hiff := isUrgent_iff now order
  refine ⟨hiff, ?_, ?_, ?_⟩
  · intro hs
    cases hu : isUrgent now order with
    | false => rfl
    | true => exact absurd (hiff.mp hu).1 hs
  · intro millis ht hage
    cases hu : isUrgent now order with
    | false => rfl
    | true =>
      obtain ⟨_, m, hm, hge⟩ := hiff.mp hu
      rw [ht] at hm
      simp only [Option.some.injEq] at hm
      subst hm
      omega
  · intro ht
    cases hu : isUrgent now order with
    | false => rfl
    | true =>
      obtain ⟨_, m, hm, _⟩ := hiff.mp hu
      rw [ht] at hm
      cases hm

theorem urgent_flag_witness :
    isUrgent 900000 (queueOrder "A" .paid 0) = false ∧
    isUrgent 5000000 (queueOrder "B" .preparing 0) = false :=
  ⟨(urgent_flag 900000 (queueOrder "A" .paid 0)).2.2.1 0 rfl (by decide),
   (urgent_flag 5000000 (queueOrder "B" .preparing 0)).2.1 (by decide)⟩

/-! ## Closed store -/

/-- The handlers `addToCart` and `handleCheckout` never read `state.isStoreOpen`. -/
theorem student_handlers_ignore_store_flag (st : StudentState) (flag : Bool) :
    (∀ itemId, (addToCart itemId { st with isStoreOpen := flag }).cart
      = (addToCart itemId st).cart) ∧
    (∀ orderId now db,
      (handleCheckout orderId now { st with isStoreOpen := flag } db).2
        = (handleCheckout orderId now st db).2 ∧
      (handleCheckout orderId now { st with isStoreOpen := flag } db).1.cart
        = (handleCheckout orderId now st db).1.cart) := by
  constructor
  · intro itemId
    unfold addToCart
    simp only
    cases st.menuItems.find? (fun i => i.id = itemId) with
    | none => rfl
    | some item => simp only; split <;> rfl
  · intro orderId now db
    unfold handleCheckout
    simp only
    split <;> exact ⟨rfl, rfl⟩

/-- C17 at the failing input: the store is closed, Tea (stock 5) is on the menu and
once in the cart. The card of Tea shows the quantity control, whose `+` button is not
disabled; `addToCart` pushes a second Tea; `handleCheckout` writes a pending order and
empties the cart. Only the ADD button of an item that is not yet in the cart is
disabled by the closed store. -/
theorem closed_store_still_orders :
    closedStoreState.isStoreOpen = false ∧
    createMenuCard ⟨1, "Tea".toList, 10, some 5, some true⟩ closedStoreState = .qtyControl ∧
    (addToCart 1 closedStoreState).cart.length = 2 ∧
    (handleCheckout "120501-7".toList 0 closedStoreState teaStore).2.orders.length = 1 ∧
    (handleCheckout "120501-7".toList 0 closedStoreState teaStore).1.cart = [] ∧
    createMenuCard ⟨1, "Tea".toList, 10, some 5, some true⟩
      { closedStoreState with cart := [] } = .addButton true := by
  decide

/-! ## Accept and the order records -/

theorem acceptOrder_accepted (dateStr : Str) (now : Nat) (w w1 : AdminWorld) (tok : Int)
    (h : acceptOrder dateStr now w = (w1, .accepted tok)) :
    ∃ s, w.currentScan = some s ∧
      validateStock w.db.menu_items (itemsForStock s.items) = .ok () ∧
      tok = (generateTokenNumber dateStr w.db.counter).1 ∧
      w1 = { currentScan := none,
             db := { menu_items := deductStock w.db.menu_items (itemsForStock s.items)
                                     w.db.menu_items,
                     counter := some (generateTokenNumber dateStr w.db.counter).2,
                     orders := w.db.orders ++
                       [{ order_id := s.orderRef, amount := some s.amount,
                          raw_text := some s.rawText,
                          items_list := some (analyticsList (itemsForStock s.items)),
                          status := .paid, token := some tok, timestamp := some now,
                          started_at := none, completed_at := none }] } } := by
  unfold acceptOrder at h
  cases hs : w.currentScan with
  | none => rw [hs] at h; simp at h
  | some s =>
    rw [hs] at h
    simp only at h
    cases hv : validateStock w.db.menu_items (itemsForStock s.items) with
    | error e => rw [hv] at h; simp at h
    | ok u =>
      rw [hv] at h
      simp only [Prod.mk.injEq, AcceptResult.accepted.injEq] at h
      obtain ⟨hw, htok⟩ := h
      refine ⟨s, rfl, hv, htok.symm, ?_⟩
      rw [← hw, htok]

/-- C12 as stated fails: after checkout of the scenario cart and a successful accept of
its payload there are two order records with that order id, and the one checkout wrote
is still pending. -/
theorem accept_adds_second_record :
    ¬ (∀ (orderId dateStr : Str) (now now2 : Nat) (st : StudentState) (db : Store) (tok : Int),
        st.cart ≠ [] →
        (acceptOrder dateStr now2
          (scan (qrData orderId st.cart) ⟨none, (handleCheckout orderId now st db).2⟩)).2
            = .accepted tok →
        (acceptOrder dateStr now2
          (scan (qrData orderId st.cart)
            ⟨none, (handleCheckout orderId now st db).2⟩)).1.db.orders.length
          = (handleCheckout orderId now st db).2.orders.length ∧
        ∀ o ∈ (acceptOrder dateStr now2
          (scan (qrData orderId st.cart)
            ⟨none, (handleCheckout orderId now st db).2⟩)).1.db.orders,
          o.order_id = orderId → o.status ≠ .pending) := by
  intro h
  have := (h "120501-7".toList day1 0 1 ⟨[], teaCart, true⟩ teaStore 101 (by decide)
    (by decide)).1
  revert this
  decide

/-- C12 (amended): a successful `acceptOrder` appends one new order record, with status
paid, the assigned token, and the order id, amount, raw text and item list of the scan;
every record that was in the store before, the pending one written by `handleCheckout`
included, is left as it was. So the number of order records grows by one and the
pending record stays pending. -/
theorem accept_appends_paid_record (dateStr : Str) (now : Nat) (w w1 : AdminWorld)
    (tok : Int) (h : acceptOrder dateStr now w = (w1, .accepted tok)) :
    (∃ s, w.currentScan = some s ∧
      w1.db.orders = w.db.orders ++
        [{ order_id := s.orderRef, amount := some s.amount, raw_text := some s.rawText,
           items_list := some (analyticsList (itemsForStock s.items)),
           status := .paid, token := some tok, timestamp := some now,
           started_at := none, completed_at := none }]) ∧
    w1.db.orders.length = w.db.orders.length + 1 ∧
    (∀ (i : Nat) (o : OrderDoc), w.db.orders[i]? = some o → w1.db.orders[i]? = some o) := by
  obtain ⟨s, hs, _, _, hw⟩ := acceptOrder_accepted dateStr now w w1 tok h
  subst hw
  refine ⟨⟨s, hs, rfl⟩, by simp, ?_⟩
  intro i o hi
  have hlt : i < w.db.orders.length := by
    by_contra hge
    rw [List.getElem?_eq_none (by omega)] at hi
    cases hi
  simp only [List.getElem?_append_left hlt, hi]

theorem accept_appends_paid_record_witness :
    (acceptOrder day1 1 (scan teaPayload
        ⟨none, (handleCheckout "120501-7".toList 0 ⟨[], teaCart, true⟩ teaStore).2⟩)).1.db.orders.length
      = (scan teaPayload
        ⟨none, (handleCheckout "120501-7".toList 0 ⟨[], teaCart, true⟩ teaStore).2⟩).db.orders.length
        + 1 :=
  (accept_appends_paid_record day1 1
    (scan teaPayload
      ⟨none, (handleCheckout "120501-7".toList 0 ⟨[], teaCart, true⟩ teaStore).2⟩)
    (acceptOrder day1 1 (scan teaPayload
        ⟨none, (handleCheckout "120501-7".toList 0 ⟨[], teaCart, true⟩ teaStore).2⟩)).1
    101 (by decide)).2.1

/-! ## Accept when the token transaction fails -/

/-- C13 as stated fails: when the token transaction raises, the stock deducted before
it stays deducted (Tea 5 becomes 3), and a retry of the same scan that succeeds deducts
again (Tea ends at 1 for one order of two units). -/
theorem token_failure_keeps_deduction :
    (acceptOrderTokenFailure .typeError (scan teaPayload (teaWorld 5))).1.db.menu_items
      ≠ (scan teaPayload (teaWorld 5)).db.menu_items ∧
    (scan teaPayload (teaWorld 5)).db.menu_items = [teaDoc 5] ∧
    (acceptOrderTokenFailure .typeError (scan teaPayload (teaWorld 5))).1.db.menu_items
      = [teaDoc 3] ∧
    (acceptOrder day1 0
      (acceptOrderTokenFailure .typeError (scan teaPayload (teaWorld 5))).1).1.db.menu_items
      = [teaDoc 1] := by
  decide

/-- C13 (amended): for every menu and request that passes stock validation, if
`generateTokenNumber` fails, `acceptOrder` ends with that error, no order record is
added, the counter is unchanged and the current scan is kept for a retry; the stock
writes of the deduction pass are not undone, so the menu is as the deduction pass left
it and a retry runs the deduction pass once more on that menu. -/
theorem token_failure_no_rollback (tokenError : JsError) (w : AdminWorld) (s : Scan)
    (hs : w.currentScan = some s)
    (hv : validateStock w.db.menu_items (itemsForStock s.items) = .ok ()) :
    (acceptOrderTokenFailure tokenError w).2 = .failed tokenError ∧
    (acceptOrderTokenFailure tokenError w).1.db.orders = w.db.orders ∧
    (acceptOrderTokenFailure tokenError w).1.db.counter = w.db.counter ∧
    (acceptOrderTokenFailure tokenError w).1.currentScan = some s ∧
    (acceptOrderTokenFailure tokenError w).1.db.menu_items
      = deductStock w.db.menu_items (itemsForStock s.items) w.db.menu_items ∧
    (∀ (dateStr : Str) (now : Nat) (w2 : AdminWorld) (tok : Int),
      acceptOrder dateStr now (acceptOrderTokenFailure tokenError w).1 = (w2, .accepted tok) →
      w2.db.menu_items
        = deductStock
            (deductStock w.db.menu_items (itemsForStock s.items) w.db.menu_items)
            (itemsForStock s.items)
            (deductStock w.db.menu_items (itemsForStock s.items) w.db.menu_items)) := by
  have e : acceptOrderTokenFailure tokenError w
      = ({ w with db := { w.db with
            menu_items := deductStock w.db.menu_items (itemsForStock s.items) w.db.menu_items } },
         .failed tokenError) := by
    unfold acceptOrderTokenFailure
    simp only [hs, hv]
  rw [e]
  refine ⟨rfl, rfl, rfl, hs, rfl, ?_⟩
  intro dateStr now w2 tok h
  obtain ⟨s2, hs2, _, _, hw⟩ := acceptOrder_accepted dateStr now _ w2 tok h
  simp only [hs, Option.some.injEq] at hs2
  subst hs2 hw
  rfl

theorem token_failure_no_rollback_witness :
    (acceptOrderTokenFailure .typeError (scan teaPayload (teaWorld 5))).1.db.orders = [] ∧
    (acceptOrderTokenFailure .typeError (scan teaPayload (teaWorld 5))).1.currentScan
      = some teaScan :=
  ⟨(token_failure_no_rollback .typeError (scan teaPayload (teaWorld 5)) teaScan
      (by decide) (by decide)).2.1,
   (token_failure_no_rollback .typeError (scan teaPayload (teaWorld 5)) teaScan
      (by decide) (by decide)).2.2.2.1⟩

/-! ## Token and status of the order records -/

theorem mem_modify_cases (f : OrderDoc → OrderDoc) (n : Nat) (l : List OrderDoc) (o : OrderDoc)
    (h : o ∈ l.modify f n) : o ∈ l ∨ ∃ o1, l[n]? = some o1 ∧ o = f o1 := by
  obtain ⟨i, hi⟩ := List.mem_iff_getElem?.mp h
  rw [List.getElem?_modify] at hi
  cases hl : l[i]? with
  | none => rw [hl] at hi; cases hi
  | some a =>
    rw [hl] at hi
    simp only [Option.map_eq_map, Option.map_some', Option.some.injEq] at hi
    by_cases hn : n = i
    · subst hn
      simp only [if_true] at hi
      exact Or.inr ⟨a, hl, hi.symm⟩
    · simp only [hn, if_false] at hi
      subst hi
      exact Or.inl (List.mem_iff_getElem?.mpr ⟨i, hl⟩)

theorem updateOrder_mem (orderId : Nat) (f : OrderDoc → OrderDoc) (orders l : List OrderDoc)
    (h : updateOrder orderId f orders = some l) (o : OrderDoc) (ho : o ∈ l) :
    o ∈ orders ∨ ∃ o1, orders[orderId]? = some o1 ∧ o = f o1 := by
  unfold updateOrder at h
  split at h
  · simp only [Option.some.injEq] at h
    subst h
    exact mem_modify_cases f orderId orders o ho
  · cases h

/-- The order records after one operation: an old record, or the pending record of a
checkout, or the paid record of an accept, or an old record set to preparing or ready
by a kitchen handler. -/
theorem systemStep_orders (w : AdminWorld) (e : SystemEvent) (o : OrderDoc)
    (ho : o ∈ (systemStep w e).db.orders) :
    o ∈ w.db.orders ∨
    (o.status = .pending ∧ o.token = none) ∨
    (o.status = .paid ∧ o.token.isSome = true) ∨
    (∃ (orderId : Nat) (o1 : OrderDoc), w.db.orders[orderId]? = some o1 ∧
      o.token = o1.token ∧ (o.status = .preparing ∨ o.status = .ready) ∧
      ((∃ now, e = .startOrder now orderId) ∨ (∃ now, e = .markReady now orderId))) := by
  cases e with
  | checkout orderId now st =>
    simp only [systemStep, handleCheckout] at ho
    split at ho
    · exact Or.inl ho
    · simp only [List.mem_append, List.mem_singleton] at ho
      rcases ho with ho | rfl
      · exact Or.inl ho
      · exact Or.inr (Or.inl ⟨rfl, rfl⟩)
  | scan decodedText =>
    simp only [systemStep, scan] at ho
    split at ho <;> exact Or.inl ho
  | accept dateStr now =>
    simp only [systemStep, acceptOrder] at ho
    split at ho
    · exact Or.inl ho
    · split at ho
      · exact Or.inl ho
      · simp only [List.mem_append, List.mem_singleton] at ho
        rcases ho with ho | rfl
        · exact Or.inl ho
        · exact Or.inr (Or.inr (Or.inl ⟨rfl, rfl⟩))
  | startOrder now orderId =>
    simp only [systemStep, startOrder] at ho
    split at ho
    · rename_i l hl
      rcases updateOrder_mem _ _ _ _ hl o ho with h | ⟨o1, h1, rfl⟩
      · exact Or.inl h
      · exact Or.inr (Or.inr (Or.inr ⟨orderId, o1, h1, rfl, Or.inl rfl, Or.inl ⟨now, rfl⟩⟩))
    · exact Or.inl ho
  | markReady now orderId =>
    simp only [systemStep, markReady] at ho
    split at ho
    · rename_i l hl
      rcases updateOrder_mem _ _ _ _ hl o ho with h | ⟨o1, h1, rfl⟩
      · exact Or.inl h
      · exact Or.inr (Or.inr (Or.inr ⟨orderId, o1, h1, rfl, Or.inr rfl, Or.inr ⟨now, rfl⟩⟩))
    · exact Or.inl ho

/-- C11 as stated fails: after a checkout, `markReady` on the pending order makes it
ready without a token. -/
theorem ready_without_token :
    ¬ (∀ (events : List SystemEvent) (w : AdminWorld), w.db.orders = [] →
        ∀ o ∈ (runSystem events w).db.orders,
          (o.token.isSome = true ↔
            (o.status = .paid ∨ o.status = .preparing ∨ o.status = .ready))) := by
  intro h
  have := h [.checkout "120501-7".toList 0 ⟨[], teaCart, true⟩, .markReady 5 0]
    ⟨none, teaStore⟩ rfl
  revert this
  decide

theorem runSystem_invariant (P : OrderDoc → Prop) (G : AdminWorld → SystemEvent → Prop)
    (hstep : ∀ w e, G w e → (∀ o ∈ w.db.orders, P o) → ∀ o ∈ (systemStep w e).db.orders, P o) :
    ∀ (events : List SystemEvent) (w : AdminWorld),
      (∀ o ∈ w.db.orders, P o) →
      (∀ (pre : List SystemEvent) (e : SystemEvent) (post : List SystemEvent),
        events = pre ++ e :: post → G (runSystem pre w) e) →
      ∀ o ∈ (runSystem events w).db.orders, P o := by
  intro events
  induction events with
  | nil => intro w h _; exact h
  | cons e rest ih =>
    intro w h hg
    show ∀ o ∈ (runSystem rest (systemStep w e)).db.orders, P o
    apply ih
    · exact hstep w e (hg [] e rest rfl) h
    · intro pre e1 post heq
      have := hg (e :: pre) e1 post (by rw [heq]; rfl)
      exact this

theorem kitchenOnQueued_split :
    ∀ (events : List SystemEvent) (w : AdminWorld), KitchenOnQueued events w = true →
      ∀ (pre : List SystemEvent) (e : SystemEvent) (post : List SystemEvent),
        events = pre ++ e :: post → kitchenEventOnQueued (runSystem pre w) e = true := by
  intro events
  induction events with
  | nil => intro w _ pre e post h; cases pre <;> cases h
  | cons e0 rest ih =>
    intro w hk pre e post h
    simp only [KitchenOnQueued, Bool.and_eq_true] at hk
    cases pre with
    | nil =>
      simp only [List.nil_append, List.cons.injEq] at h
      rw [← h.1]
      exact hk.1
    | cons p pre =>
      simp only [List.cons_append, List.cons.injEq] at h
      rw [← h.1]
      exact ih (systemStep w e0) hk.2 pre e post h.2

/-- C11 (amended): in every state reachable from a store without orders by any
sequence of checkout, scan, accept, `startOrder` and `markReady` applied to any order
ids, every order that has a token has status paid, preparing or ready, a pending order
has no token, and a paid order has a token. When along the sequence `startOrder` and
`markReady` are applied only to orders that are not pending (the kitchen queue holds
paid and preparing orders only), every order has a token if and only if its status is
paid, preparing or ready. -/
theorem token_status_invariant (events : List SystemEvent) (w : AdminWorld)
    (h0 : w.db.orders = []) :
    (∀ o ∈ (runSystem events w).db.orders,
      (o.token.isSome = true → (o.status = .paid ∨ o.status = .preparing ∨ o.status = .ready)) ∧
      (o.status = .pending → o.token = none) ∧
      (o.status = .paid → o.token.isSome = true)) ∧
    (KitchenOnQueued events w = true →
      ∀ o ∈ (runSystem events w).db.orders,
        (o.token.isSome = true ↔
          (o.status = .paid ∨ o.status = .preparing ∨ o.status = .ready))) := by
  constructor
  · have key := runSystem_invariant
      (fun o => (o.token.isSome = true → o.status ≠ .pending) ∧
        (o.status = .paid → o.token.isSome = true))
      (fun _ _ => True)
      (by
        intro w e _ hw o ho
        rcases systemStep_orders w e o ho with h | ⟨h1, h2⟩ | ⟨h1, h2⟩ | ⟨_, o1, _, _, h3, _⟩
        · exact hw o h
        · simp [h1, h2]
        · simp [h1, h2]
        · rcases h3 with h3 | h3 <;> simp [h3])
      events w (by rw [h0]; simp) (fun _ _ _ _ => trivial)
    intro o ho
    obtain ⟨k1, k2⟩ := key o ho
    refine ⟨?_, ?_, k2⟩
    · intro ht
      have := k1 ht
      cases hs : o.status <;> simp_all
    · intro hp
      cases ht : o.token with
      | none => rfl
      | some t => exact absurd hp (k1 (by simp [ht]))
  · intro hk
    have key := runSystem_invariant
      (fun o => o.token.isSome = true ↔ o.status ≠ .pending)
      (fun w e => kitchenEventOnQueued w e = true)
      (by
        intro w e hg hw o ho
        rcases systemStep_orders w e o ho with h | ⟨h1, h2⟩ | ⟨h1, h2⟩ |
          ⟨orderId, o1, h1, h2, h3, h4⟩
        · exact hw o h
        · simp [h1, h2]
        · simp [h1, h2]
        · have hq : o1.status ≠ .pending := by
            rcases h4 with ⟨now, rfl⟩ | ⟨now, rfl⟩ <;>
              simpa [kitchenEventOnQueued, h1] using hg
          have ho1 := (hw o1 (List.mem_iff_getElem?.mpr ⟨orderId, h1⟩)).mpr hq
          rw [h2, ho1]
          rcases h3 with h3 | h3 <;> simp [h3])
      events w (by rw [h0]; simp) (kitchenOnQueued_split events w hk)
    intro o ho
    have hk2 : o.token.isSome = true ↔ o.status ≠ .pending := key o ho
    rw [hk2]
    cases hs : o.status <;> simp

theorem token_status_invariant_witness :
    (pendingOrder.token.isSome = true ↔
      (pendingOrder.status = .paid ∨ pendingOrder.status = .preparing ∨
        pendingOrder.status = .ready)) :=
  (token_status_invariant
    [.checkout "120501-7".toList 0 ⟨[], teaCart, true⟩, .scan teaPayload,
     .accept day1 1, .startOrder 2 1, .markReady 3 1] ⟨none, teaStore⟩ rfl).2 (by decide)
    pendingOrder (by decide)

/-! ## Item lines of a decoded text -/

theorem scanItems_reading (lines : List Str) :
    scanItems true lines
      = (((lines.takeWhile (fun l => !includes l totalMarker))).filter
          (fun l => trim l != [] && !includes l dashes3)).map trim := by
  induction lines with
  | nil => rfl
  | cons line rest ih =>
    rw [scanItems]
    by_cases ht : includes line totalMarker = true
    · simp [ht, List.takeWhile]
    · simp only [Bool.not_eq_true] at ht
      simp only [ht, Bool.false_eq_true, if_false, Bool.true_and, Bool.true_or, ih,
        List.takeWhile, Bool.not_false, List.filter_cons]
      by_cases hk : (trim line != [] && !includes line dashes3) = true
      · simp [hk]
      · simp [hk]

theorem scanItems_eq_itemLinesByMarkers (lines : List Str) :
    scanItems false lines = itemLinesByMarkers lines := by
  unfold itemLinesByMarkers
  induction lines with
  | nil => rfl
  | cons line rest ih =>
    rw [scanItems]
    by_cases ht : includes line totalMarker = true
    · simp [ht, List.takeWhile]
    · simp only [Bool.not_eq_true] at ht
      simp only [ht, Bool.false_eq_true, if_false, Bool.false_and, List.nil_append,
        Bool.false_or, List.takeWhile, Bool.not_false]
      by_cases hd : includes line dashes4 = true
      · simp only [hd, scanItems_reading, List.dropWhile, Bool.not_true, List.drop_succ_cons,
          List.drop_zero]
      · simp only [Bool.not_eq_true] at hd
        simp only [hd, ih, List.dropWhile, Bool.not_false]

/-- C15 as stated fails: the line `Pav---Bhaji` is neither blank nor made up of
dashes, yet the decoded item list leaves it out. -/
theorem item_line_with_dashes_skipped :
    ¬ (∀ (decodedText : Str) (s : Scan), onScanSuccess decodedText = .ok s →
        s.items = itemLinesByDashLines (splitLines decodedText)) := by
  intro h
  have := h pavBhajiPayload
    ⟨"120501-7".toList, 60, [], pavBhajiPayload⟩ (by decide)
  revert this
  decide

/-- C15 (amended): for every text that decodes, the decoded item list consists, in
order, of the lines strictly after the first line that contains `----` and before the
first line that contains `TOTAL:`, without the lines that are blank after trimming and
the lines that contain `---`, each trimmed. Each item becomes `{name, qty: N}` when it
is `<name> x<N>` with `<name>` free of line terminators and `N` a run of decimal
digits (the name trimmed), and `{name: item, qty: 1}` when it does not end in ` x` and
digits. The scenario payload gives items [{Tea,2},{Samosa,1}] and amount 35. -/
theorem decode_items (decodedText : Str) :
    (∀ s, onScanSuccess decodedText = .ok s →
      s.items = itemLinesByMarkers (splitLines decodedText) ∧
      itemsForStock s.items
        = (itemLinesByMarkers (splitLines decodedText)).map parseItemStr) ∧
    (∀ name ds : Str, name ≠ [] → (∀ c ∈ name, isLineTerminator c = false) → ds ≠ [] →
      (∀ c ∈ ds, isDigit c = true) →
      parseItemStr (name ++ [' ', 'x'] ++ ds) = ⟨trim name, parseIntDigits ds⟩) ∧
    (∀ item : Str,
      (¬ ∃ pre ds, item = pre ++ ' ' :: 'x' :: ds ∧ ds ≠ [] ∧ ∀ c ∈ ds, isDigit c = true) →
      parseItemStr item = ⟨trim item, 1⟩) ∧
    (onScanSuccess teaPayload).toOption.map
        (fun s => (itemsForStock s.items, s.amount))
      = some ([⟨"Tea".toList, 2⟩, ⟨"Samosa".toList, 1⟩], 35) := by
  refine ⟨?_, ?_, ?_, by decide⟩
  · intro s hs
    have hitems : s.items = itemLinesByMarkers (splitLines decodedText) := by
      unfold onScanSuccess at hs
      simp only at hs
      split at hs
      · cases hs
      · simp only [Except.ok.injEq] at hs
        rw [← hs]
        exact scanItems_eq_itemLinesByMarkers _
    exact ⟨hitems, by rw [hitems]; rfl⟩
  · intro name ds hn hlt hds hd
    unfold parseItemStr
    rw [matchQty_display name ds hn hlt hds hd]
  · intro item h
    unfold parseItemStr
    rw [matchQty_none_of_no_suffix item h]

theorem decode_items_witness :
    parseItemStr ("Tea".toList ++ [' ', 'x'] ++ "12".toList)
      = ⟨trim "Tea".toList, parseIntDigits "12".toList⟩ :=
  (decode_items []).2.1 "Tea".toList "12".toList (by decide) (by decide) (by decide)
    (by decide)

/-! ## The payload text -/

theorem bumpEntry_names (n : Str) (p : Nat) :
    ∀ acc : List CountEntry,
      (bumpEntry n p acc).map (fun e => e.name)
        = if n ∈ acc.map (fun e => e.name) then acc.map (fun e => e.name)
          else acc.map (fun e => e.name) ++ [n] := by
  intro acc
  induction acc with
  | nil => simp [bumpEntry]
  | cons e rest ih =>
    unfold bumpEntry
    by_cases h : e.name = n
    · simp [h]
    · have hne : ¬ n = e.name := fun h1 => h h1.symm
      simp only [h, if_false, List.map_cons, ih, List.mem_cons, hne, false_or]
      split <;> simp

theorem distinctNames_nodup : ∀ l : List Str, (distinctNames l).Nodup := by
  intro l
  induction l with
  | nil => simp [distinctNames]
  | cons n rest ih =>
    rw [distinctNames, List.nodup_cons]
    exact ⟨by simp [List.mem_filter], ih.filter _⟩

theorem itemCounts_names_fold :
    ∀ (cart : List CartItem) (acc : List CountEntry),
      (∀ item ∈ cart, item.name ∉ objectPrototypeKeys) →
      (cart.foldl (fun acc item =>
          if item.name ∈ objectPrototypeKeys then acc
          else bumpEntry item.name item.price acc) acc).map (fun e => e.name)
        = acc.map (fun e => e.name)
          ++ (distinctNames (cart.map (fun item => item.name))).filter
              (fun m => decide (m ∉ acc.map (fun e => e.name))) := by
  intro cart
  induction cart with
  | nil => intro acc _; simp [distinctNames]
  | cons x c ih =>
    intro acc h
    have hx : x.name ∉ objectPrototypeKeys := h x (List.mem_cons_self _ _)
    simp only [List.foldl_cons, hx, if_false, List.map_cons, distinctNames]
    rw [ih _ (fun i hi => h i (List.mem_cons_of_mem _ hi)), bumpEntry_names]
    by_cases hm : x.name ∈ acc.map (fun e => e.name)
    · simp only [hm, if_true, List.filter_cons, not_true_eq_false, decide_False,
        Bool.false_eq_true, if_false, List.filter_filter]
      congr 1
      apply List.filter_congr
      intro m _
      by_cases h1 : m ∈ acc.map (fun e => e.name)
      · simp [h1]
      · have : m ≠ x.name := fun e => h1 (e ▸ hm)
        simp [h1, this]
    · simp only [hm, if_false, List.filter_cons, not_false_eq_true, decide_True, if_true,
        List.filter_filter, List.append_assoc, List.singleton_append]
      congr 2
      apply List.filter_congr
      intro m _
      by_cases h1 : m ∈ acc.map (fun e => e.name) <;> by_cases h2 : m = x.name <;>
        simp [h1, h2]

theorem itemCounts_names (cart : List CartItem)
    (h : ∀ item ∈ cart, item.name ∉ objectPrototypeKeys) :
    (itemCounts cart).map (fun e => e.name) = distinctNames (cart.map (fun item => item.name)) := by
  unfold itemCounts
  rw [itemCounts_names_fold cart [] h]
  simp

theorem qtyOf_of_nodup :
    ∀ (l : List CountEntry), (l.map (fun e => e.name)).Nodup → ∀ e ∈ l,
      qtyOf e.name (l.map (fun e => ⟨e.name, e.count⟩)) = e.count := by
  intro l
  induction l with
  | nil => intro _ e he; simp at he
  | cons a rest ih =>
    intro hnd e he
    rw [List.map_cons, List.nodup_cons] at hnd
    have hzero : ∀ (r : List CountEntry) (n : Str), n ∉ r.map (fun e => e.name) →
        qtyOf n (r.map (fun e => ⟨e.name, e.count⟩)) = 0 := by
      intro r n hn
      induction r with
      | nil => rfl
      | cons b r ihr =>
        simp only [List.map_cons, List.mem_cons, not_or] at hn
        rw [List.map_cons, qtyOf_cons, ihr hn.2]
        simp [Ne.symm hn.1]
    rw [List.map_cons, qtyOf_cons]
    rcases List.mem_cons.mp he with rfl | hmem
    · simp [hzero rest e.name hnd.1]
    · have hne : a.name ≠ e.name := by
        intro heq
        exact hnd.1 (heq ▸ List.mem_map_of_mem (fun e => e.name) hmem)
      simp [hne, ih hnd.2 e hmem]

theorem itemCounts_count (cart : List CartItem)
    (h : ∀ item ∈ cart, item.name ∉ objectPrototypeKeys) :
    ∀ e ∈ itemCounts cart, e.count = (cart.filter (fun item => item.name = e.name)).length := by
  intro e he
  have hnd : ((itemCounts cart).map (fun e => e.name)).Nodup := by
    rw [itemCounts_names cart h]; exact distinctNames_nodup _
  have h1 := qtyOf_of_nodup (itemCounts cart) hnd e he
  have h2 := (itemCounts_fold e.name (fun _ => True) cart []
    (fun item hi => ⟨h item hi, trivial⟩) (by simp)).1
  rw [← h1]
  simpa [qtyOf_nil, itemCounts] using h2

theorem objectKeys_eq_self (own : List CountEntry)
    (h : ∀ e ∈ own, arrayIndex? e.name = none) : objectKeys own = own := by
  unfold objectKeys
  have h1 : own.filter (fun e => (arrayIndex? e.name).isSome) = [] := by
    rw [List.filter_eq_nil_iff]
    intro e he
    simp [h e he]
  have h2 : own.filter (fun e => !(arrayIndex? e.name).isSome) = own := by
    rw [List.filter_eq_self]
    intro e he
    simp [h e he]
  rw [h1, h2]
  rfl

theorem joinLines_append (c : Str) (rest : List Str) :
    ∀ ls : List Str,
      joinLines (ls ++ c :: rest)
        = (ls.map (fun l => l ++ ['\n'])).flatten ++ joinLines (c :: rest) := by
  intro ls
  induction ls with
  | nil => rfl
  | cons l ls ih =>
    cases ls with
    | nil => simp [joinLines]
    | cons m ms =>
      rw [List.cons_append, List.cons_append, joinLines, ← List.cons_append, ih]
      simp

/-- C14 as stated fails: for the cart [Tea, 7] the item lines are `7`, `Tea`: the
name `7` is an array index and `Object.keys` lists it before `Tea`, although Tea was
put in the cart first. -/
theorem payload_lines_not_in_cart_order :
    ¬ (∀ (orderId : Str) (cart : List CartItem), cart ≠ [] →
        qrData orderId cart = payloadFormatSpec orderId cart) := by
  intro h
  have := h "120501-7".toList teaSevenCart (by decide)
  revert this
  decide

/-- C14 (amended): for every order id and every non-empty cart of fewer than 2^32 items
whose prices sum to at most 2^53 and none of whose item names is an array index (a
canonical decimal numeral up to 2^32 - 2) or a property name inherited from
`Object.prototype`, the text built by `handleCheckout` and stored as `raw_text` is
exactly `REF: <orderId>`, a line of 16 dashes, one line per distinct item name in order
of first appearance in the cart (the bare name for one unit, `<name> x<N>` for `N > 1`
units), a line of 16 dashes, `TOTAL: ₹<sum of the prices>` and `[VERIFIED]`, joined by
newlines with no trailing newline, `N` and the sum written as decimal numerals; for the
cart [Tea 10, Tea 10, Samosa 15] and id 120501-7 it is the scenario payload. -/
theorem payload_format (orderId : Str) (cart : List CartItem)
    (hnames : ∀ item ∈ cart,
      item.name ∉ objectPrototypeKeys ∧ arrayIndex? item.name = none)
    (hlen : cart.length < 4294967296)
    (hsum : (cart.map (fun item => item.price)).sum ≤ 9007199254740992) :
    qrData orderId cart = payloadFormatSpec orderId cart ∧
    (cart ≠ [] → ∀ (now : Nat) (st : StudentState) (db : Store), st.cart = cart →
      ((handleCheckout orderId now st db).2.orders.getLast?).bind (fun o => o.raw_text)
        = some (payloadFormatSpec orderId cart)) ∧
    qrData "120501-7".toList teaCart = teaPayload := by
  have hproto : ∀ item ∈ cart, item.name ∉ objectPrototypeKeys := fun i hi => (hnames i hi).1
  have hidx : ∀ e ∈ itemCounts cart, arrayIndex? e.name = none := fun e he =>
    ((itemCounts_fold [] (fun n => arrayIndex? n = none) cart [] hnames (by simp)).2 e he).2
  have hlines : (itemCounts cart).map displayLine
      = (distinctNames (cart.map (fun item => item.name))).map
          (fun n =>
            if (cart.filter (fun item => item.name = n)).length > 1 then
              n ++ [' ', 'x'] ++ decimalNumeral (cart.filter (fun item => item.name = n)).length
            else n) := by
    rw [← itemCounts_names cart hproto, List.map_map]
    apply List.map_congr_left
    intro e he
    have hle : e.count ≤ 9007199254740992 := by
      have := itemCounts_count_le cart e he
      omega
    have hcnt := itemCounts_count cart hproto e he
    simp only [Function.comp, displayLine, numberToString_exact e.count hle]
    rw [hcnt]
  have hq : qrData orderId cart = payloadFormatSpec orderId cart := by
    unfold qrData payloadFormatSpec
    rw [objectKeys_eq_self _ hidx, ← hlines, joinLines_append, cartTotal_eq_sum cart hsum,
      numberToString_exact _ hsum]
    simp only [joinLines, divider, totalMarker, List.map_append, List.map_cons, List.map_nil,
      List.flatten_append, List.flatten_cons, List.flatten_nil, List.map_map,
      List.append_assoc, List.singleton_append, List.cons_append, List.nil_append,
      List.append_nil]
    rfl
  refine ⟨hq, ?_, by decide⟩
  intro hne now st db hst
  subst hst
  have hlen : ¬ st.cart.length = 0 := fun h0 => hne (List.length_eq_zero.mp h0)
  simp only [handleCheckout, hlen, if_false, List.getLast?_concat, Option.some_bind, hq]

theorem payload_format_witness :
    qrData "120501-7".toList teaCart = payloadFormatSpec "120501-7".toList teaCart :=
  (payload_format "120501-7".toList teaCart (by decide) (by decide) (by decide)).1

/-! ## Cart and stock -/

theorem getItemQuantity_append (cart : List CartItem) (item : CartItem) (itemId : Nat) :
    getItemQuantity (cart ++ [item]) itemId
      = getItemQuantity cart itemId + (if item.id = itemId then 1 else 0) := by
  unfold getItemQuantity
  by_cases h : item.id = itemId <;> simp [List.filter_append, List.filter_cons, h]

theorem find?_id (menu : List CartItem) (itemId : Nat) (item : CartItem)
    (h : menu.find? (fun i => i.id = itemId) = some item) : item.id = itemId := by
  have := List.find?_some h
  simpa using this

/-- C24: for every menu, item id and cart, `addToCart` appends exactly one entry, the
menu item of that id, when the item is in the menu and its quantity in the cart is
below its stock (9999 when the stock is absent), and otherwise leaves the cart
unchanged; the menu is never changed. So if every menu item has at most its stock in
the cart before `addToCart`, the same holds after it. -/
theorem cart_within_stock (itemId : Nat) (st : StudentState) :
    (∀ item, st.menuItems.find? (fun i => i.id = itemId) = some item →
      (getItemQuantity st.cart itemId : Int) < item.stock.getD 9999 →
      (addToCart itemId st).cart = st.cart ++ [item]) ∧
    (st.menuItems.find? (fun i => i.id = itemId) = none →
      (addToCart itemId st).cart = st.cart) ∧
    (∀ item, st.menuItems.find? (fun i => i.id = itemId) = some item →
      item.stock.getD 9999 ≤ (getItemQuantity st.cart itemId : Int) →
      (addToCart itemId st).cart = st.cart) ∧
    (addToCart itemId st).menuItems = st.menuItems ∧
    (CartWithinStock st → CartWithinStock (addToCart itemId st)) := by
  have hadd : ∀ item, st.menuItems.find? (fun i => i.id = itemId) = some item →
      (getItemQuantity st.cart itemId : Int) < item.stock.getD 9999 →
      addToCart itemId st = { st with cart := st.cart ++ [item] } := by
    intro item hf hlt
    unfold addToCart
    simp only [hf]
    rw [if_neg (by omega)]
  have hnone : st.menuItems.find? (fun i => i.id = itemId) = none →
      addToCart itemId st = st := by
    intro hf
    unfold addToCart
    simp only [hf]
  have hfull : ∀ item, st.menuItems.find? (fun i => i.id = itemId) = some item →
      item.stock.getD 9999 ≤ (getItemQuantity st.cart itemId : Int) →
      addToCart itemId st = st := by
    intro item hf hge
    unfold addToCart
    simp only [hf]
    rw [if_pos (by omega)]
  refine ⟨fun item hf hlt => by rw [hadd item hf hlt], fun hf => by rw [hnone hf],
    fun item hf hge => by rw [hfull item hf hge], ?_, ?_⟩
  · cases hf : st.menuItems.find? (fun i => i.id = itemId) with
    | none => rw [hnone hf]
    | some item =>
      by_cases hlt : (getItemQuantity st.cart itemId : Int) < item.stock.getD 9999
      · rw [hadd item hf hlt]
      · rw [hfull item hf (by omega)]
  · intro hinv
    cases hf : st.menuItems.find? (fun i => i.id = itemId) with
    | none => rw [hnone hf]; exact hinv
    | some item =>
      by_cases hlt : (getItemQuantity st.cart itemId : Int) < item.stock.getD 9999
      · rw [hadd item hf hlt]
        intro id2 item2 hf2
        have h2 := hinv id2 item2 hf2
        simp only at hf2 ⊢
        rw [getItemQuantity_append]
        have hid := find?_id _ _ _ hf
        by_cases he : item.id = id2
        · have hsame : id2 = itemId := by rw [← he, hid]
          subst hsame
          rw [hf] at hf2
          simp only [Option.some.injEq] at hf2
          subst hf2
          simp only [he, if_true]
          push_cast
          omega
        · simp only [he, if_false, Nat.add_zero]
          exact h2
      · rw [hfull item hf (by omega)]; exact hinv

theorem cart_within_stock_witness :
    (addToCart 1 oneTeaState).cart = oneTeaState.cart ++ [⟨1, "Tea".toList, 10, some 2, some true⟩] ∧
    (addToCart 1 (addToCart 1 oneTeaState)).cart = (addToCart 1 oneTeaState).cart ∧
    (addToCart 9 oneTeaState).cart = oneTeaState.cart :=
  ⟨(cart_within_stock 1 oneTeaState).1 _ (by decide) (by decide),
   (cart_within_stock 1 (addToCart 1 oneTeaState)).2.2.1 ⟨1, "Tea".toList, 10, some 2, some true⟩
     (by decide) (by decide),
   (cart_within_stock 9 oneTeaState).2.1 (by decide)⟩

/-! ## Daily stats -/

theorem statsStep_count (snapshot : List OrderDoc) :
    ∀ acc : Nat × Nat × Int,
      (snapshot.foldl statsStep acc).2.1 = acc.2.1 + snapshot.length := by
  induction snapshot with
  | nil => intro acc; simp
  | cons o rest ih =>
    intro acc
    rw [List.foldl_cons, ih (statsStep acc o)]
    simp only [statsStep, List.length_cons]
    omega

theorem statsStep_revenue (snapshot : List OrderDoc) :
    ∀ acc : Nat × Nat × Int,
      acc.1 + (snapshot.map (fun o => o.amount.getD 0)).sum ≤ 9007199254740992 →
      (snapshot.foldl statsStep acc).1
        = acc.1 + (snapshot.map (fun o => o.amount.getD 0)).sum := by
  induction snapshot with
  | nil => intro acc _; simp
  | cons o rest ih =>
    intro acc hacc
    simp only [List.map_cons, List.sum_cons] at hacc
    have hstep : (statsStep acc o).1 = acc.1 + o.amount.getD 0 := by
      show toNumber (acc.1 + o.amount.getD 0) = _
      exact toNumber_exact _ (by omega)
    rw [List.foldl_cons, ih (statsStep acc o) (by rw [hstep]; omega), hstep]
    simp only [List.map_cons, List.sum_cons]
    omega

/-- The running maximum after the loop: it is the start value or a token of the
snapshot, it is at least the start value, and it is at least every token that is
above 0 when the start value is not negative. -/
theorem statsStep_max (snapshot : List OrderDoc) :
    ∀ acc : Nat × Nat × Int, 0 ≤ acc.2.2 →
      acc.2.2 ≤ (snapshot.foldl statsStep acc).2.2 ∧
      ((snapshot.foldl statsStep acc).2.2 = acc.2.2 ∨
        ∃ o ∈ snapshot, o.token = some (snapshot.foldl statsStep acc).2.2) ∧
      (∀ o ∈ snapshot, ∀ t : Int, o.token = some t → 0 < t →
        t ≤ (snapshot.foldl statsStep acc).2.2) := by
  induction snapshot with
  | nil => intro acc _; simp
  | cons o rest ih =>
    intro acc hacc
    have hstep : acc.2.2 ≤ (statsStep acc o).2.2 ∧
        ((statsStep acc o).2.2 = acc.2.2 ∨ o.token = some (statsStep acc o).2.2) ∧
        (∀ t : Int, o.token = some t → 0 < t → t ≤ (statsStep acc o).2.2) := by
      unfold statsStep
      cases ht : o.token with
      | none => simp
      | some t =>
        simp only [Option.some.injEq]
        by_cases hc : t ≠ 0 ∧ t > acc.2.2
        · rw [if_pos hc]
          refine ⟨by omega, Or.inr rfl, ?_⟩
          intro t1 h1 _; omega
        · rw [if_neg hc]
          refine ⟨le_refl _, Or.inl rfl, ?_⟩
          intro t1 h1 hpos
          subst h1
          by_contra hgt
          exact hc ⟨by omega, by omega⟩
    obtain ⟨s1, s2, s3⟩ := hstep
    obtain ⟨i1, i2, i3⟩ := ih (statsStep acc o) (by omega)
    simp only [List.foldl_cons]
    refine ⟨by omega, ?_, ?_⟩
    · rcases i2 with i2 | ⟨o1, ho1, h1⟩
      · rcases s2 with s2 | s2
        · left; rw [i2, s2]
        · right; exact ⟨o, List.mem_cons_self _ _, by rw [i2]; exact s2⟩
      · right; exact ⟨o1, List.mem_cons_of_mem _ ho1, h1⟩
    · intro o1 ho1 t ht hpos
      rcases List.mem_cons.mp ho1 with rfl | hmem
      · have := s3 t ht hpos
        omega
      · exact i3 o1 hmem t ht hpos

theorem generateTokenNumber_pos (dateStr : Str) (c : Option Counter)
    (h : ∀ k, c = some k → 0 ≤ k.value) :
    0 < (generateTokenNumber dateStr c).1 ∧
    (generateTokenNumber dateStr c).2.value = (generateTokenNumber dateStr c).1 := by
  refine ⟨?_, rfl⟩
  unfold generateTokenNumber
  cases c with
  | none => simp
  | some k =>
    have := h k rfl
    simp only
    split <;> omega

/-- One operation keeps the stored counter value at or above 0 and every token of an
order above 0. -/
theorem systemStep_tokens_pos (w : AdminWorld) (e : SystemEvent)
    (hc : ∀ k, w.db.counter = some k → 0 ≤ k.value)
    (ho : ∀ o ∈ w.db.orders, ∀ t : Int, o.token = some t → 0 < t) :
    (∀ k, (systemStep w e).db.counter = some k → 0 ≤ k.value) ∧
    (∀ o ∈ (systemStep w e).db.orders, ∀ t : Int, o.token = some t → 0 < t) := by
  cases e with
  | checkout orderId now st =>
    simp only [systemStep, handleCheckout]
    split
    · exact ⟨hc, ho⟩
    · refine ⟨hc, ?_⟩
      intro o hmem t ht
      simp only [List.mem_append, List.mem_singleton] at hmem
      rcases hmem with hmem | rfl
      · exact ho o hmem t ht
      · cases ht
  | scan decodedText =>
    simp only [systemStep, scan]
    split <;> exact ⟨hc, ho⟩
  | accept dateStr now =>
    simp only [systemStep, acceptOrder]
    split
    · exact ⟨hc, ho⟩
    · split
      · exact ⟨hc, ho⟩
      · have hp := generateTokenNumber_pos dateStr w.db.counter hc
        constructor
        · intro k hk
          simp only [Option.some.injEq] at hk
          rw [← hk, hp.2]
          omega
        · intro o hmem t ht
          simp only [List.mem_append, List.mem_singleton] at hmem
          rcases hmem with hmem | rfl
          · exact ho o hmem t ht
          · simp only [Option.some.injEq] at ht
            rw [← ht]; exact hp.1
  | startOrder now orderId =>
    refine ⟨?_, ?_⟩
    · simp only [systemStep, startOrder]
      split <;> exact hc
    · intro o hmem t ht
      rcases systemStep_orders w _ o hmem with h | ⟨_, h2⟩ | ⟨h1, _⟩ | ⟨_, o1, h1, h2, _, _⟩
      · exact ho o h t ht
      · rw [h2] at ht; cases ht
      · simp only [systemStep, startOrder] at hmem
        split at hmem
        · rename_i l hl
          rcases updateOrder_mem _ _ _ _ hl o hmem with h | ⟨o1, h3, rfl⟩
          · exact ho o h t ht
          · exact ho o1 (List.mem_iff_getElem?.mpr ⟨orderId, h3⟩) t ht
        · exact ho o hmem t ht
      · rw [h2] at ht
        exact ho o1 (List.mem_iff_getElem?.mpr ⟨_, h1⟩) t ht
  | markReady now orderId =>
    refine ⟨?_, ?_⟩
    · simp only [systemStep, markReady]
      split <;> exact hc
    · intro o hmem t ht
      simp only [systemStep, markReady] at hmem
      split at hmem
      · rename_i l hl
        rcases updateOrder_mem _ _ _ _ hl o hmem with h | ⟨o1, h3, rfl⟩
        · exact ho o h t ht
        · exact ho o1 (List.mem_iff_getElem?.mpr ⟨orderId, h3⟩) t ht
      · exact ho o hmem t ht

/-- In every state reachable from a store without orders whose counter, if any, holds
a value of at least 0, every token of an order is above 0. -/
theorem reachable_tokens_pos (events : List SystemEvent) :
    ∀ w : AdminWorld, w.db.orders = [] → (∀ k, w.db.counter = some k → 0 ≤ k.value) →
      ∀ o ∈ (runSystem events w).db.orders, ∀ t : Int, o.token = some t → 0 < t := by
  have key : ∀ (events : List SystemEvent) (w : AdminWorld),
      (∀ k, w.db.counter = some k → 0 ≤ k.value) →
      (∀ o ∈ w.db.orders, ∀ t : Int, o.token = some t → 0 < t) →
      ∀ o ∈ (runSystem events w).db.orders, ∀ t : Int, o.token = some t → 0 < t := by
    intro events
    induction events with
    | nil => intro w _ ho; exact ho
    | cons e rest ih =>
      intro w hc ho
      obtain ⟨h1, h2⟩ := systemStep_tokens_pos w e hc ho
      exact ih (systemStep w e) h1 h2
  intro w h0 hc
  exact key events w hc (by rw [h0]; simp)

/-- C22 as stated fails: in a snapshot of two orders with the tokens 0 and -3 some
order has a token, yet the last token is shown as `--` and not as the maximum 0. -/
theorem last_token_skips_nonpositive :
    ¬ (∀ snapshot : List OrderDoc,
        ((∀ o ∈ snapshot, o.token = none) → (listenToLiveStats snapshot).lastToken = none) ∧
        ((∃ o ∈ snapshot, o.token.isSome = true) →
          ∃ m : Int, (listenToLiveStats snapshot).lastToken = some m ∧
            (∃ o ∈ snapshot, o.token = some m) ∧
            ∀ o ∈ snapshot, ∀ t : Int, o.token = some t → t ≤ m)) := by
  intro h
  obtain ⟨m, hm, _⟩ := (h nonPositiveTokenSnapshot).2 ⟨_, List.mem_cons_self _ _, rfl⟩
  have e : (listenToLiveStats nonPositiveTokenSnapshot).lastToken = none := by decide
  rw [e] at hm
  cases hm

/-- C22 (amended): `listenToLiveStats` computes the order count as the number of orders
in the snapshot and, when the amounts (0 for an order without an amount) sum to at most
2^53, the revenue as that sum. The last token is shown as `--` when no order has a token
above 0, and is otherwise the maximum of the tokens above 0, which is then at least
every token of the snapshot. -/
theorem daily_stats (snapshot : List OrderDoc) :
    ((snapshot.map (fun o => o.amount.getD 0)).sum ≤ 9007199254740992 →
      (listenToLiveStats snapshot).dailyRevenue
        = (snapshot.map (fun o => o.amount.getD 0)).sum) ∧
    (listenToLiveStats snapshot).dailyOrders = snapshot.length ∧
    ((∀ o ∈ snapshot, ∀ t : Int, o.token = some t → t ≤ 0) →
      (listenToLiveStats snapshot).lastToken = none) ∧
    ((∃ o ∈ snapshot, ∃ t : Int, o.token = some t ∧ 0 < t) →
      ∃ m : Int, (listenToLiveStats snapshot).lastToken = some m ∧ 0 < m ∧
        (∃ o ∈ snapshot, o.token = some m) ∧
        ∀ o ∈ snapshot, ∀ t : Int, o.token = some t → t ≤ m) := by
  have h2 := statsStep_count snapshot (0, 0, 0)
  obtain ⟨m1, m2, m3⟩ := statsStep_max snapshot (0, 0, 0) (le_refl _)
  refine ⟨?_, ?_, ?_, ?_⟩
  · intro hsum
    have h1 := statsStep_revenue snapshot (0, 0, 0) (by
      show 0 + _ ≤ _
      rw [Nat.zero_add]
      exact hsum)
    show (snapshot.foldl statsStep (0, 0, 0)).1 = _
    rw [h1]; exact Nat.zero_add _
  · show (snapshot.foldl statsStep (0, 0, 0)).2.1 = _
    rw [h2]; exact Nat.zero_add _
  · intro hle
    have hz : (snapshot.foldl statsStep (0, 0, 0)).2.2 ≤ 0 := by
      rcases m2 with h | ⟨o, ho, ht⟩
      · rw [h]
      · exact hle o ho _ ht
    show (if (snapshot.foldl statsStep (0, 0, 0)).2.2 > 0
      then some (snapshot.foldl statsStep (0, 0, 0)).2.2 else none) = none
    rw [if_neg (by omega)]
  · rintro ⟨o, ho, t, ht, htpos⟩
    have hle := m3 o ho t ht htpos
    have hM : (snapshot.foldl statsStep (0, 0, 0)).2.2 > 0 := by omega
    refine ⟨(snapshot.foldl statsStep (0, 0, 0)).2.2, ?_, hM, ?_, ?_⟩
    · show (if (snapshot.foldl statsStep (0, 0, 0)).2.2 > 0
        then some (snapshot.foldl statsStep (0, 0, 0)).2.2 else none) = _
      rw [if_pos hM]
    · rcases m2 with h | h
      · simp only at h; omega
      · exact h
    · intro o1 ho1 t1 ht1
      by_cases hp : 0 < t1
      · exact m3 o1 ho1 t1 ht1 hp
      · omega

theorem daily_stats_witness :
    (listenToLiveStats [twoTeaOrder, pendingOrder]).dailyRevenue = 55 ∧
    (listenToLiveStats nonPositiveTokenSnapshot).lastToken = none ∧
    ∃ m : Int, (listenToLiveStats [twoTeaOrder, pendingOrder]).lastToken = some m ∧ 0 < m ∧
      (∃ o ∈ [twoTeaOrder, pendingOrder], o.token = some m) ∧
      ∀ o ∈ [twoTeaOrder, pendingOrder], ∀ t : Int, o.token = some t → t ≤ m :=
  ⟨(daily_stats [twoTeaOrder, pendingOrder]).1 (by decide),
   (daily_stats nonPositiveTokenSnapshot).2.2.1 (by decide),
   (daily_stats [twoTeaOrder, pendingOrder]).2.2.2
     ⟨twoTeaOrder, List.mem_cons_self _ _, 101, rfl, by decide⟩⟩

/-! ## Item counts in the kitchen -/

theorem scanItems_eq_keptLines :
    ∀ (lines : List Str) (b : Bool), scanItems b lines = (keptLines b lines).map trim := by
  intro lines
  induction lines with
  | nil => intro b; rfl
  | cons line rest ih =>
    intro b
    rw [scanItems, keptLines]
    by_cases ht : includes line totalMarker = true
    · simp [ht]
    · simp only [ht, if_false, ih]
      by_cases hk : (b && trim line != [] && !includes line dashes3) = true
      · simp [hk]
      · simp [hk]

theorem parseRawLines_eq_foldl :
    ∀ (lines : List Str) (b : Bool) (items : List KitchenItem),
      parseRawLines b lines items
        = (keptLines b lines).foldl (fun items l => mapSet (parseRawLine l) items) items := by
  intro lines
  induction lines with
  | nil => intro b items; rfl
  | cons line rest ih =>
    intro b items
    rw [parseRawLines, keptLines]
    by_cases ht : includes line totalMarker = true
    · simp [ht]
    · simp only [ht, if_false, ih]
      by_cases hk : (b && trim line != [] && !includes line dashes3) = true
      · simp [hk]
      · simp [hk]

theorem parseRawLine_eq (l : Str) :
    parseRawLine l = ⟨(parseItemStr l).name, (parseItemStr l).qty⟩ := by
  unfold parseRawLine parseItemStr
  cases matchQty l with
  | none => rfl
  | some r => rfl

theorem mapSet_new (v : KitchenItem) :
    ∀ acc : List KitchenItem, v.name ∉ acc.map (fun e => e.name) → mapSet v acc = acc ++ [v] := by
  intro acc
  induction acc with
  | nil => intro _; rfl
  | cons e rest ih =>
    intro h
    simp only [List.map_cons, List.mem_cons, not_or] at h
    rw [mapSet, if_neg (fun he => h.1 he.symm), ih h.2]
    rfl

theorem foldl_mapSet_nodup :
    ∀ (l acc : List KitchenItem), ((acc ++ l).map (fun e => e.name)).Nodup →
      l.foldl (fun items v => mapSet v items) acc = acc ++ l := by
  intro l
  induction l with
  | nil => intro acc _; simp
  | cons v rest ih =>
    intro acc h
    have hv : v.name ∉ acc.map (fun e => e.name) := by
      intro hmem
      rw [List.map_append, List.map_cons] at h
      have := (List.nodup_append.mp h).2.2
      exact this hmem (List.mem_cons_self _ _)
    rw [List.foldl_cons, mapSet_new v acc hv, ih]
    · simp
    · simpa using h

theorem kitchenQty_cons (name : Str) (e : KitchenItem) (items : List KitchenItem) :
    kitchenQty name (e :: items)
      = (if e.name = name then e.quantity else 0) + kitchenQty name items := by
  unfold kitchenQty
  by_cases h : e.name = name <;> simp [List.filter_cons, h]

theorem countItemName_qty (name n : Str) :
    ∀ acc : List KitchenItem,
      kitchenQty name (countItemName n acc)
        = kitchenQty name acc + (if n = name then 1 else 0) := by
  intro acc
  induction acc with
  | nil => by_cases h : n = name <;> simp [countItemName, kitchenQty, List.filter_cons, h]
  | cons e rest ih =>
    unfold countItemName
    by_cases h : e.name = n
    · simp only [h, if_true, kitchenQty_cons]
      by_cases h2 : n = name <;> simp [h2]; omega
    · simp only [h, if_false, kitchenQty_cons, ih]
      omega

theorem countItemName_fold (name : Str) :
    ∀ (l : List Str) (acc : List KitchenItem),
      kitchenQty name (l.foldl (fun items itemName => countItemName itemName items) acc)
        = kitchenQty name acc + l.count name := by
  intro l
  induction l with
  | nil => intro acc; simp
  | cons n rest ih =>
    intro acc
    rw [List.foldl_cons, ih, countItemName_qty, List.count_cons]
    by_cases h : n = name <;> simp [h]; omega

theorem analyticsList_count (name : Str) :
    ∀ items : List OrderItem, (analyticsList items).count name = qtyOf name items := by
  intro items
  induction items with
  | nil => rfl
  | cons it rest ih =>
    have e : analyticsList (it :: rest) = List.replicate it.qty it.name ++ analyticsList rest := by
      simp [analyticsList]
    rw [e, List.count_append, ih, qtyOf_cons, List.count_replicate]
    by_cases h : it.name = name <;> simp [h]

theorem onScanSuccess_ok (decodedText : Str) (s : Scan)
    (h : onScanSuccess decodedText = .ok s) :
    s.items = scanItems false (splitLines decodedText) ∧ s.rawText = decodedText ∧
    s.orderRef = trim (replaceFirst refLabel [] ((splitLines decodedText).headD [])) ∧
    scanAmount (splitLines decodedText) = .ok s.amount := by
  unfold onScanSuccess at h
  simp only at h
  split at h
  · cases h
  · rename_i amount ha
    simp only [Except.ok.injEq] at h
    rw [← h]
    exact ⟨rfl, rfl, rfl, ha⟩

/-- C21 as stated fails: for the order accepted from a payload that names Tea on two
lines, the kitchen reads quantity 2 for Tea from `items_list` but quantity 1 from
`raw_text`, where the second `items.set` replaces the first. -/
theorem kitchen_views_disagree :
    ¬ (∀ (decodedText : Str) (s : Scan) (order : OrderDoc) (name : Str),
        onScanSuccess decodedText = .ok s → order.raw_text = some s.rawText →
        order.items_list = some (analyticsList (itemsForStock s.items)) →
        kitchenQty name (parseOrderItems order)
          = kitchenQty name (parseOrderItems { order with items_list := none })) := by
  intro h
  have := h twoTeaLinesPayload
    ⟨"120501-7".toList, 20, ["Tea".toList, "Tea".toList], twoTeaLinesPayload⟩
    twoTeaOrder "Tea".toList (by decide) (by decide) (by decide)
  revert this
  decide

/-- The fallback of `parseOrderItems` on the text of a scan whose item lines are free
of white space at both ends and decode to pairwise different names: the entries of the
admin's item list, in the same order. -/
theorem parseOrderItems_fallback (decodedText : Str) (s : Scan) (order : OrderDoc)
    (hs : onScanSuccess decodedText = .ok s) (hraw : order.raw_text = some s.rawText)
    (hnone : order.items_list = none)
    (htrim : ∀ l ∈ keptLines false (splitLines decodedText), trim l = l)
    (hnd : ((itemsForStock s.items).map (fun it => it.name)).Nodup) :
    parseOrderItems order = (itemsForStock s.items).map (fun it => ⟨it.name, it.qty⟩) := by
  obtain ⟨hitems, hrawText, _, _⟩ := onScanSuccess_ok decodedText s hs
  have hkept : itemsForStock s.items
      = (keptLines false (splitLines decodedText)).map parseItemStr := by
    rw [hitems, scanItems_eq_keptLines]
    unfold itemsForStock
    rw [List.map_map]
    apply List.map_congr_left
    intro l hl
    simp only [Function.comp, htrim l hl]
  have hentries : (keptLines false (splitLines decodedText)).map parseRawLine
      = (itemsForStock s.items).map (fun it => ⟨it.name, it.qty⟩) := by
    rw [hkept, List.map_map]
    apply List.map_congr_left
    intro l _
    exact parseRawLine_eq l
  unfold parseOrderItems
  simp only [hraw, hrawText, hnone]
  by_cases he : decodedText = []
  · subst he
    rw [if_pos rfl, hitems]
    rfl
  · rw [if_neg he, parseRawLines_eq_foldl, ← List.foldl_map (f := parseRawLine)
      (g := fun items v => mapSet v items), hentries, foldl_mapSet_nodup]
    · rfl
    · simpa [List.map_map, Function.comp] using hnd

theorem kitchenQty_of_items (name : Str) (items : List OrderItem) :
    kitchenQty name (items.map (fun it => ⟨it.name, it.qty⟩)) = qtyOf name items := by
  unfold kitchenQty qtyOf
  induction items with
  | nil => rfl
  | cons it rest ih =>
    by_cases hn : it.name = name <;> simp [List.filter_cons, hn, ih]

/-- C21 (amended): for every order accepted from a scanned payload text, the kitchen's
`parseOrderItems` reading the stored `items_list` gives every name the quantity the
admin decoded for it (the sum of the quantities of its entries). The fallback on the
stored `raw_text` gives the same entries as the admin's item list, in the same order,
and hence the same quantities, when every item line of the text is free of white space
at both ends and no two item lines decode to the same name. -/
theorem item_counts_across_views (decodedText : Str) (s : Scan) (order : OrderDoc)
    (hs : onScanSuccess decodedText = .ok s) (hraw : order.raw_text = some s.rawText)
    (hlist : order.items_list = some (analyticsList (itemsForStock s.items))) :
    (∀ name, kitchenQty name (parseOrderItems order) = qtyOf name (itemsForStock s.items)) ∧
    ((∀ l ∈ keptLines false (splitLines decodedText), trim l = l) →
      ((itemsForStock s.items).map (fun it => it.name)).Nodup →
      parseOrderItems { order with items_list := none }
        = (itemsForStock s.items).map (fun it => ⟨it.name, it.qty⟩) ∧
      ∀ name, kitchenQty name (parseOrderItems { order with items_list := none })
        = qtyOf name (itemsForStock s.items)) := by
  constructor
  · intro name
    unfold parseOrderItems
    simp only [hlist]
    rw [countItemName_fold, analyticsList_count]
    simp [kitchenQty]
  · intro htrim hnd
    have hparse := parseOrderItems_fallback decodedText s { order with items_list := none }
      hs hraw rfl htrim hnd
    refine ⟨hparse, ?_⟩
    intro name
    rw [hparse, kitchenQty_of_items]

theorem item_counts_across_views_witness :
    parseOrderItems { pendingOrder with items_list := none }
      = (itemsForStock teaScan.items).map (fun it => ⟨it.name, it.qty⟩) :=
  ((item_counts_across_views teaPayload teaScan
      { pendingOrder with items_list := some (analyticsList (itemsForStock teaScan.items)) }
      (by decide) (by decide) (by decide)).2 (by decide) (by decide)).1

/-! ## Round trip with the generated order id -/

theorem padStart2_chars (s : Str) (h : ∀ c ∈ s, isDigit c = true) :
    ∀ c ∈ padStart2 s, isDigit c = true := by
  intro c hc
  unfold padStart2 at hc
  rcases List.mem_append.mp hc with h1 | h1
  · rw [(List.mem_replicate.mp h1).2]; decide
  · exact h c h1

theorem generateOrderId_chars (hours minutes seconds rnd : Nat)
    (hh : hours < 24) (hm : minutes < 60) (hs : seconds < 60) (hr : rnd < 100) :
    ∀ c ∈ generateOrderId hours minutes seconds rnd, isDigit c = true ∨ c = '-' := by
  intro c hc
  unfold generateOrderId at hc
  simp only [List.mem_append, List.mem_singleton] at hc
  rcases hc with (((h | h) | h) | h) | h
  · exact Or.inl (padStart2_chars _ (numberToString_digits _ (by omega)) c h)
  · exact Or.inl (padStart2_chars _ (numberToString_digits _ (by omega)) c h)
  · exact Or.inl (padStart2_chars _ (numberToString_digits _ (by omega)) c h)
  · exact Or.inr h
  · exact Or.inl (numberToString_digits _ (by omega) c h)

theorem orderId_facts (orderId : Str)
    (h : ∀ c ∈ orderId, isDigit c = true ∨ c = '-') :
    '\n' ∉ orderId ∧ ¬ totalMarker <:+: orderId ∧
    trim (replaceFirst refLabel [] (refLabel ++ orderId)) = orderId := by
  have hws : ∀ c ∈ orderId, isWhiteSpace c = false := by
    intro c hc
    rcases h c hc with hd | rfl
    · exact isDigit_not_whiteSpace c hd
    · decide
  refine ⟨?_, ?_, ?_⟩
  · intro hm
    rcases h _ hm with hd | hd
    · revert hd; decide
    · revert hd; decide
  · intro hin
    have hT : 'T' ∈ orderId := hin.subset (by decide)
    rcases h _ hT with hd | hd
    · revert hd; decide
    · revert hd; decide
  · have e : replaceFirst refLabel [] (refLabel ++ orderId) = orderId := by
      simp [refLabel, replaceFirst, List.isPrefixOf]
    rw [e]
    exact trim_eq_self orderId (fun c hc => hws c (List.mem_of_mem_head? hc))
      (fun c hc => hws c (List.mem_of_getLast?_eq_some hc))

theorem keptLines_items (x : Str) (rest : List Str) :
    ∀ ds : List Str,
      (∀ d ∈ ds, includes d totalMarker = false ∧ includes d dashes3 = false ∧
        trim d = d ∧ d ≠ []) →
      keptLines true (ds ++ divider :: (totalMarker ++ x) :: rest) = ds := by
  intro ds
  induction ds with
  | nil =>
    intro _
    have h1 : includes divider totalMarker = false := by decide
    have h2 : includes divider dashes3 = true := by decide
    simp [keptLines, h1, h2, includes_totalLine]
  | cons d ds ih =>
    intro h
    obtain ⟨h1, h2, h3, h4⟩ := h d (List.mem_cons_self _ _)
    rw [List.cons_append, keptLines]
    simp only [h1, h2, h3, Bool.true_or, Bool.false_eq_true, if_false, Bool.true_and,
      Bool.not_false, Bool.and_true, bne_iff_ne, ne_eq, h4, not_false_eq_true, if_true]
    rw [ih (fun d1 hd1 => h d1 (List.mem_cons_of_mem _ hd1))]
    rfl

theorem keptLines_payload (orderId x : Str) (rest ds : List Str)
    (hid : ¬ totalMarker <:+: orderId)
    (h : ∀ d ∈ ds, includes d totalMarker = false ∧ includes d dashes3 = false ∧
        trim d = d ∧ d ≠ []) :
    keptLines false
      ((refLabel ++ orderId) :: divider :: (ds ++ divider :: (totalMarker ++ x) :: rest))
      = ds := by
  have h1 : includes divider totalMarker = false := by decide
  have h2 : includes divider dashes3 = true := by decide
  have h3 : includes divider dashes4 = true := by decide
  rw [keptLines]
  simp only [includes_refLine orderId hid, Bool.false_eq_true, if_false, Bool.false_and,
    List.nil_append, Bool.false_or]
  rw [keptLines]
  simp only [h1, h2, h3, Bool.false_eq_true, if_false, Bool.not_true, Bool.and_false,
    List.nil_append, Bool.or_true]
  exact keptLines_items x rest ds h

theorem no_quantity_suffix_of_no_space (name : Str) (h : ' ' ∉ name) :
    ¬ ∃ pre ds, name = pre ++ ' ' :: 'x' :: ds ∧ ds ≠ [] ∧ ∀ c ∈ ds, isDigit c = true := by
  rintro ⟨pre, ds, he, _⟩
  exact h (by rw [he]; simp)

/-- C23 at the failing input: the cart holds one unit of an item named `constructor`,
a name that meets every condition of the claim, and the order id is the generated
`120501-7`. The payload has no item line, so decoding returns the order id and the
amount 10 but an empty item list, not the entry {constructor, 1}. -/
theorem constructor_item_lost :
    ("constructor".toList ≠ [] ∧
      (∀ c ∈ "constructor".toList, isLineTerminator c = false) ∧
      trim "constructor".toList = "constructor".toList ∧
      ¬ dashes3 <:+: "constructor".toList ∧ ¬ totalMarker <:+: "constructor".toList ∧
      ¬ ∃ pre ds, "constructor".toList = pre ++ ' ' :: 'x' :: ds ∧ ds ≠ [] ∧
        ∀ c ∈ ds, isDigit c = true) ∧
    qrData (generateOrderId 12 5 1 7) constructorCart
      = "REF: 120501-7\n----------------\n----------------\nTOTAL: ₹10\n[VERIFIED]".toList ∧
    (onScanSuccess (qrData (generateOrderId 12 5 1 7) constructorCart)).toOption.map
        (fun s => (s.orderRef, s.amount, itemsForStock s.items))
      = some ("120501-7".toList, 10, []) := by
  refine ⟨⟨by decide, by decide, by decide, by decide, by decide, ?_⟩, by decide, by decide⟩
  exact no_quantity_suffix_of_no_space _ (by decide)

/-- X3: round trip for well-formed names. For every cart of fewer than 2^32 items whose
item names are well formed (the conditions of C23 with line break read as line
terminator, and not a property name inherited from `Object.prototype`) and whose prices
sum to at most 2^53, and every generated order id `HHMMSS-N` (hours below 24, minutes
and seconds below 60, `N` below 100), decoding the payload built by `handleCheckout` returns exactly that order
id, the amount equal to the sum of the cart's prices, and, up to order, one entry per
distinct cart name with the number of cart entries of that name as quantity; the
kitchen's fallback on the payload yields the same entries as the admin's list. -/
theorem round_trip_exact (hours minutes seconds rnd : Nat) (cart : List CartItem)
    (hh : hours < 24) (hm : minutes < 60) (hs : seconds < 60) (hr : rnd < 100)
    (hnames : ∀ item ∈ cart, WellFormedName item.name)
    (hlen : cart.length < 4294967296)
    (hsum : (cart.map (fun item => item.price)).sum ≤ 9007199254740992) :
    ∃ s, onScanSuccess (qrData (generateOrderId hours minutes seconds rnd) cart) = .ok s ∧
      s.orderRef = generateOrderId hours minutes seconds rnd ∧
      s.amount = (cart.map (fun item => item.price)).sum ∧
      (itemsForStock s.items).Perm
        ((distinctNames (cart.map (fun item => item.name))).map
          (fun n => ⟨n, (cart.filter (fun item => item.name = n)).length⟩)) ∧
      (∀ order : OrderDoc, order.items_list = none → order.raw_text = some s.rawText →
        parseOrderItems order = (itemsForStock s.items).map (fun it => ⟨it.name, it.qty⟩)) := by
  obtain ⟨hid1, hid2, hid3⟩ := orderId_facts (generateOrderId hours minutes seconds rnd)
    (generateOrderId_chars _ _ _ _ hh hm hs hr)
  have hproto : ∀ item ∈ cart, item.name ∉ objectPrototypeKeys :=
    fun item hi => (hnames item hi).2.2.2.2.2.2.2
  have hfold := itemCounts_fold [] WellFormedName cart []
    (fun item hi => ⟨hproto item hi, hnames item hi⟩) (by simp)
  have hkeys : ∀ e ∈ objectKeys (itemCounts cart), 1 ≤ e.count ∧ WellFormedName e.name :=
    fun e he => hfold.2 e ((objectKeys_perm _).subset he)
  have hcount : ∀ e ∈ objectKeys (itemCounts cart), e.count ≤ 9007199254740992 := by
    intro e he
    have := itemCounts_count_le cart e ((objectKeys_perm _).subset he)
    omega
  have htotal : cartTotal cart ≤ 9007199254740992 := by
    rw [cartTotal_eq_sum cart hsum]
    exact hsum
  have hfacts := fun e he => displayLine_facts e (hkeys e he).2 (hkeys e he).1 (hcount e he)
  have hlines := qrData_lines (generateOrderId hours minutes seconds rnd) cart hid1 htotal
    (fun e he => (hfacts e he).1)
  have hds : ∀ d ∈ (objectKeys (itemCounts cart)).map displayLine,
      includes d totalMarker = false ∧ includes d dashes3 = false ∧ trim d = d ∧ d ≠ [] := by
    intro d hd
    obtain ⟨e, he, rfl⟩ := List.mem_map.mp hd
    obtain ⟨_, h2, h3, h4, h5, _⟩ := hfacts e he
    exact ⟨h2, h3, h4, h5⟩
  have hamount := scanAmount_payload (generateOrderId hours minutes seconds rnd)
    (cartTotal cart) ["[VERIFIED]".toList]
    ((objectKeys (itemCounts cart)).map displayLine) htotal hid2 (fun d hd => (hds d hd).1)
  have hitems := scanItems_payload (generateOrderId hours minutes seconds rnd)
    ([' ', '₹'] ++ numberToString (cartTotal cart))
    ["[VERIFIED]".toList] ((objectKeys (itemCounts cart)).map displayLine) hid2 hds
  have hkept := keptLines_payload (generateOrderId hours minutes seconds rnd)
    ([' ', '₹'] ++ numberToString (cartTotal cart))
    ["[VERIFIED]".toList] ((objectKeys (itemCounts cart)).map displayLine) hid2 hds
  rw [← List.append_assoc] at hitems hkept
  have hdec : onScanSuccess (qrData (generateOrderId hours minutes seconds rnd) cart)
      = .ok ⟨generateOrderId hours minutes seconds rnd, cartTotal cart,
          (objectKeys (itemCounts cart)).map displayLine,
          qrData (generateOrderId hours minutes seconds rnd) cart⟩ := by
    unfold onScanSuccess
    simp only [hlines, hamount, hitems, List.headD_cons, hid3]
  have hparse : itemsForStock ((objectKeys (itemCounts cart)).map displayLine)
      = (objectKeys (itemCounts cart)).map (fun e => ⟨e.name, e.count⟩) := by
    unfold itemsForStock
    rw [List.map_map]
    apply List.map_congr_left
    intro e he
    exact (hfacts e he).2.2.2.2.2
  have hentries : (itemCounts cart).map (fun e => (⟨e.name, e.count⟩ : OrderItem))
      = (distinctNames (cart.map (fun item => item.name))).map
          (fun n => ⟨n, (cart.filter (fun item => item.name = n)).length⟩) := by
    rw [← itemCounts_names cart hproto, List.map_map]
    apply List.map_congr_left
    intro e he
    simp only [Function.comp, itemCounts_count cart hproto e he]
  have hperm : (itemsForStock ((objectKeys (itemCounts cart)).map displayLine)).Perm
      ((distinctNames (cart.map (fun item => item.name))).map
        (fun n => ⟨n, (cart.filter (fun item => item.name = n)).length⟩)) := by
    rw [hparse, ← hentries]
    exact (objectKeys_perm (itemCounts cart)).map _
  refine ⟨_, hdec, rfl, cartTotal_eq_sum cart hsum, hperm, ?_⟩
  intro order hnone hraw
  refine parseOrderItems_fallback _ _ order hdec hraw hnone ?_ ?_
  · rw [hlines, hkept]
    intro l hl
    exact (hds l hl).2.2.1
  · have hnd : ((distinctNames (cart.map (fun item => item.name))).map
        (fun n => (⟨n, (cart.filter (fun item => item.name = n)).length⟩ : OrderItem))).map
          (fun it => it.name) = distinctNames (cart.map (fun item => item.name)) := by
      rw [List.map_map]
      exact List.map_id _
    have := (hperm.map (fun it => it.name)).nodup_iff.mpr (by
      rw [hnd]; exact distinctNames_nodup _)
    exact this

theorem round_trip_exact_witness :
    ∃ s, onScanSuccess (qrData (generateOrderId 12 5 1 7) teaCart) = .ok s ∧
      s.orderRef = generateOrderId 12 5 1 7 ∧
      s.amount = (teaCart.map (fun item => item.price)).sum ∧
      (itemsForStock s.items).Perm
        ((distinctNames (teaCart.map (fun item => item.name))).map
          (fun n => ⟨n, (teaCart.filter (fun item => item.name = n)).length⟩)) ∧
      (∀ order : OrderDoc, order.items_list = none → order.raw_text = some s.rawText →
        parseOrderItems order = (itemsForStock s.items).map (fun it => ⟨it.name, it.qty⟩)) :=
  round_trip_exact 12 5 1 7 teaCart (by decide) (by decide) (by decide) (by decide) (by
    intro item hi
    apply wellFormedName_of_plain
    · revert item; decide
    · revert item; decide
    · revert item; decide) (by decide) (by decide)

end Canteen
